import Mathlib

/-!
Verification development for the bea-mcp retrieval/ranking/context pipeline.

The Python source (src/agent/pick_dataset.py, src/agent/mcp.py) is embedded
shallowly: JSON-like Python values become the inductive type `JVal`, dicts are
association lists with Python's insertion-order update semantics, fallible code
returns `Except PyErr`, and the LLM / search capabilities become oracle
parameters.  A separate heap model (further below) captures Python's reference
semantics for the mutation/aliasing claims.
-/

namespace BeaMcp

/-- JSON-like Python value: strings, integers, booleans, None, lists, dicts.
Dicts are insertion-ordered association lists, mirroring Python dicts. -/
inductive JVal where
  | str : String → JVal
  | num : Int → JVal
  | bool : Bool → JVal
  | null : JVal
  | arr : List JVal → JVal
  | obj : List (String × JVal) → JVal
deriving Repr

/-- Dict lookup: first binding for the key (Python `d.get(k)` with unique keys). -/
def objGet (kvs : List (String × JVal)) (k : String) : Option JVal :=
  match kvs.find? (fun kv => kv.1 == k) with
  | some kv => some kv.2
  | none => none

/-- Dict assignment `d[k] = v`: update the existing binding in place (keeping
its position, as Python dicts do) or append a new binding at the end. -/
def objSet (kvs : List (String × JVal)) (k : String) (v : JVal) : List (String × JVal) :=
  match kvs with
  | [] => [(k, v)]
  | kv :: rest => if kv.1 == k then (k, v) :: rest else kv :: objSet rest k v

/-- Error kinds raised by the embedded code: `notFound` is the explicit
`ValueError` for a missing dataset in `get_query_builder_context`;
`attrError` is Python `AttributeError` (attribute access on a wrong type);
`typeError` is Python `TypeError` (iterating a non-iterable); `valueError`
covers the other explicit `ValueError` raises of `choose_datasets_to_query`
(missing candidate name, wrapped context-build failure). -/
inductive PyErr where
  | notFound
  | attrError
  | typeError
  | valueError
deriving DecidableEq, Repr

/-- Python truthiness of a value. -/
def truthy : JVal → Bool
  | .str s => !s.isEmpty
  | .num n => n != 0
  | .bool b => b
  | .null => false
  | .arr l => !l.isEmpty
  | .obj kvs => !kvs.isEmpty

/-- Value of digit characters read in base 10. -/
def digitsToNat (cs : List Char) : Nat :=
  cs.foldl (fun n c => 10 * n + (c.toNat - 48)) 0

/-- Python `int(s)` on an already-stripped string: an optional sign followed
by at least one ASCII digit; anything else raises (here: `none`). -/
def parseIntChars : List Char → Option Int
  | [] => none
  | c :: cs =>
    if c == '-' then
      if !cs.isEmpty && cs.all Char.isDigit then some (-(digitsToNat cs : Int)) else none
    else if c == '+' then
      if !cs.isEmpty && cs.all Char.isDigit then some ((digitsToNat cs : Int)) else none
    else if (c :: cs).all Char.isDigit then some ((digitsToNat (c :: cs) : Int)) else none

/-- Python `s.strip()`: drop whitespace from both ends. -/
def stripChars (cs : List Char) : List Char :=
  ((cs.dropWhile Char.isWhitespace).reverse.dropWhile Char.isWhitespace).reverse

/-- Python `int(str(v).strip())` as a partial function: succeeds on ints and
on strings holding an optionally-signed integer; `str()` of None, booleans,
lists and dicts never parses as an integer. -/
def pyIntOfVal : JVal → Option Int
  | .num n => some n
  | .str s => parseIntChars (stripChars s.toList)
  | _ => none

/-- ASCII lowercase of one character (the embedded strings are ASCII). -/
def lowerChar (c : Char) : Char :=
  if 'A' ≤ c && c ≤ 'Z' then Char.ofNat (c.toNat + 32) else c

/-- ASCII lowercase of a string, modelling Python `s.lower()`. -/
def lowerString (s : String) : String := String.mk (s.toList.map lowerChar)

/-- Python `v.lower()`: lowercases a string, raises AttributeError otherwise. -/
def pyLowerStr (v : JVal) : Except PyErr String :=
  match v with
  | .str s => .ok (lowerString s)
  | _ => .error .attrError

/-- Python `p.get('ParameterName', '').lower()`. -/
def paramNameLower (kvs : List (String × JVal)) : Except PyErr String :=
  pyLowerStr ((objGet kvs "ParameterName").getD (.str ""))

/-- View a value as a dict, raising AttributeError otherwise (Python `.get`
on a non-dict). -/
def asObj : JVal → Except PyErr (List (String × JVal))
  | .obj kvs => .ok kvs
  | _ => .error .attrError

/-- Python iteration `for v in x`: lists yield elements, dicts yield their
keys, strings yield their characters; ints, bools and None raise TypeError. -/
def iterElems : JVal → Except PyErr (List JVal)
  | .arr l => .ok l
  | .obj kvs => .ok (kvs.map (fun kv => JVal.str kv.1))
  | .str s => .ok (s.toList.map (fun c => JVal.str (String.singleton c)))
  | _ => .error .typeError

/-- Python `v == s` for a string literal `s`: true only on equal strings. -/
def pyEqStr (v : JVal) (s : String) : Bool :=
  match v with
  | .str t => t == s
  | _ => false

/-- Whether a value is a dict (`isinstance(v, dict)`). -/
def JVal.isObj : JVal → Bool
  | .obj _ => true
  | _ => false

/-- Python `v.get('TableName', v.get('Key', None))`. -/
def tableKeyOf (kvs : List (String × JVal)) : JVal :=
  (objGet kvs "TableName").getD ((objGet kvs "Key").getD .null)

/-- Filter for the table parameter itself:
`[v for v in values if isinstance(v, dict) and v.get('TableName', v.get('Key', None)) == table_name]`. -/
def filterTableParam (tbl : String) (vs : List JVal) : List JVal :=
  vs.filter (fun v => match v with
    | .obj kvs => pyEqStr (tableKeyOf kvs) tbl
    | _ => false)

/-- Condition `any('TableName' in v for v in values if isinstance(v, dict))`. -/
def anyHasTableName (vs : List JVal) : Bool :=
  vs.any (fun v => match v with
    | .obj kvs => (objGet kvs "TableName").isSome
    | _ => false)

/-- Filter `[v for v in values if isinstance(v, dict) and v.get('TableName') == table_name]`. -/
def filterByTableName (tbl : String) (vs : List JVal) : List JVal :=
  vs.filter (fun v => match v with
    | .obj kvs => pyEqStr ((objGet kvs "TableName").getD .null) tbl
    | _ => false)

/-- LineCode filter:
`[v for v in values if isinstance(v, dict) and v.get('Desc', '').lower().startswith("[" + table_name.lower() + "]")]`.
A non-string `Desc` raises AttributeError at `.lower()`. -/
def filterLineCode (tbl : String) : List JVal → Except PyErr (List JVal)
  | [] => .ok []
  | v :: vs =>
    match v with
    | .obj kvs => do
      let d ← pyLowerStr ((objGet kvs "Desc").getD (.str ""))
      let rest ← filterLineCode tbl vs
      .ok (if (("[" ++ lowerString tbl ++ "]").toList).isPrefixOf d.toList then .obj kvs :: rest else rest)
    | _ => do
      let rest ← filterLineCode tbl vs
      .ok rest

/-- Python `v.get('Key') or v.get('Desc')`: the Key value when truthy,
otherwise the Desc value (None when both absent). -/
def yearKeyVal (kvs : List (String × JVal)) : JVal :=
  let k := (objGet kvs "Key").getD .null
  if truthy k then k else (objGet kvs "Desc").getD .null

/-- The Year-collapsing scan: every entry must be a dict whose keys are a
subset of Key/Desc and whose Key-or-Desc parses as an integer; return the
parsed years, or `none` as soon as one entry fails (`simple_year = False`). -/
def collectYears : List JVal → Option (List Int)
  | [] => some []
  | v :: vs =>
    match v with
    | .obj kvs =>
      if kvs.all (fun kv => kv.1 == "Key" || kv.1 == "Desc") then
        match pyIntOfVal (yearKeyVal kvs) with
        | some y =>
          match collectYears vs with
          | some ys => some (y :: ys)
          | none => none
        | none => none
      else none
    | _ => none

/-- Minimum of a nonempty collection of years (Python `min(years)`). -/
def intListMin (y : Int) (ys : List Int) : Int := ys.foldl min y

/-- Maximum of a nonempty collection of years (Python `max(years)`). -/
def intListMax (y : Int) (ys : List Int) : Int := ys.foldl max y

/-- The collapsed Year value list `[{'MinYear': str(min)}, {'MaxYear': str(max)}]`. -/
def yearBounds (y : Int) (ys : List Int) : List JVal :=
  [ .obj [("MinYear", .str (toString (intListMin y ys)))],
    .obj [("MaxYear", .str (toString (intListMax y ys)))] ]

/-- A "simple Key/Desc" Year value entry: a dict whose keys all lie in
the set Key/Desc. -/
def simpleYearEntry (v : JVal) : Bool :=
  match v with
  | .obj w => w.all (fun kv => kv.1 == "Key" || kv.1 == "Desc")
  | _ => false

/-- The year an entry contributes: its Key — or, when Key is absent or
falsy, its Desc — parsed as an integer. -/
def yearOf (v : JVal) : Option Int :=
  match v with
  | .obj w => pyIntOfVal (yearKeyVal w)
  | _ => none

/-- The collapsed Values list of a Year parameter, written over the parsed
years of the entries. -/
def yearBoundsOf (vs : List JVal) : List JVal :=
  match vs.filterMap yearOf with
  | [] => []
  | y :: ys => yearBounds y ys

/-- Shape constraint on one parameter value entry: when it is a dict, its
Desc (if present) is a string — what the LineCode filter's `.lower()` needs. -/
def valueDescOK (v : JVal) : Bool :=
  match v with
  | .obj w =>
    match objGet w "Desc" with
    | some (.str _) => true
    | some _ => false
    | none => true
  | _ => true

/-- Shape constraint on one parameter dict: ParameterName is a string (or
absent) and Values is a list (or absent) of Desc-sane entries. -/
def paramWF (p : JVal) : Bool :=
  match p with
  | .obj kvs =>
    (match objGet kvs "ParameterName" with
     | some (.str _) => true
     | none => true
     | some _ => false) &&
    (match objGet kvs "Values" with
     | none => true
     | some (.arr vs) => vs.all valueDescOK
     | some _ => false)
  | _ => false

/-- Shape constraint on one dataset dict: Parameters is a list (or absent)
of well-formed parameter dicts. -/
def datasetWF (d : JVal) : Bool :=
  match d with
  | .obj kvs =>
    match objGet kvs "Parameters" with
    | none => true
    | some (.arr ps) => ps.all paramWF
    | some _ => false
  | _ => false

/-- Whether the requested table name matches no value of any
tablename/tableid parameter of the dataset. -/
def tableParamsNoMatch (tbl : String) (d : JVal) : Bool :=
  match d with
  | .obj kvs =>
    match objGet kvs "Parameters" with
    | some (.arr ps) => ps.all (fun p =>
        match p with
        | .obj pkvs =>
          (match paramNameLower pkvs with
           | .ok pn =>
             if pn == "tablename" || pn == "tableid" then
               (match objGet pkvs "Values" with
                | some (.arr vs) => vs.all (fun v =>
                    match v with
                    | .obj w => !(pyEqStr (tableKeyOf w) tbl)
                    | _ => true)
                | _ => true)
             else true
           | .error _ => true)
        | _ => true)
    | _ => true
  | _ => true

/-- Whether a parameter survives step 3a of `get_query_builder_context`
(tablename/tableid parameters are dropped when `for_eval`). -/
def keepParam (forEval : Bool) (p : JVal) : Except PyErr Bool := do
  let kvs ← asObj p
  let pn ← paramNameLower kvs
  .ok (!((pn == "tablename" || pn == "tableid") && forEval))

/-- Step 3a: filter the parameter list. -/
def filterParams (forEval : Bool) : List JVal → Except PyErr (List JVal)
  | [] => .ok []
  | p :: ps => do
    let b ← keepParam forEval p
    let rest ← filterParams forEval ps
    .ok (if b then p :: rest else rest)

/-- One iteration of the step-3b/4 loop body of `get_query_builder_context`
on a single parameter: GeoFIPS elision, table-parameter filtering,
TableName-scoped filtering, LineCode description-prefix filtering and the
Year collapse, in source order. -/
def procParam (tbl : String) (forEval : Bool) (p : JVal) : Except PyErr JVal := do
  let kvs ← asObj p
  let valsV := (objGet kvs "Values").getD .null
  if !truthy valsV then
    .ok p
  else do
    let pn ← paramNameLower kvs
    if pn == "geofips" && forEval then
      .ok (.obj (objSet (objSet kvs "Values" (.arr []))
        "Values-Note" (.str "Too many GeoFIPS values to list; omitted for evaluation.")))
    else if pn == "tablename" || pn == "tableid" then do
      let vs ← iterElems valsV
      .ok (.obj (objSet (objSet kvs "Values" (.arr (filterTableParam tbl vs)))
        "Values-Note" (.str "Table parameter filtered to the selected table.")))
    else do
      let vs ← iterElems valsV
      let kvs1 := if anyHasTableName vs then objSet kvs "Values" (.arr (filterByTableName tbl vs)) else kvs
      let kvs2 ←
        if pn == "linecode" then do
          let nv ← filterLineCode tbl vs
          pure (objSet kvs1 "Values" (.arr nv))
        else pure kvs1
      let kvs3 :=
        if pn == "year" then
          match collectYears vs with
          | some (y :: ys) => objSet kvs2 "Values" (.arr (yearBounds y ys))
          | _ => kvs2
        else kvs2
      .ok (.obj kvs3)

/-- Step 3b over the whole filtered parameter list. -/
def procParams (tbl : String) (forEval : Bool) : List JVal → Except PyErr (List JVal)
  | [] => .ok []
  | p :: ps => do
    let p2 ← procParam tbl forEval p
    let rest ← procParams tbl forEval ps
    .ok (p2 :: rest)

/-- Whether a catalog entry matches a requested dataset name
(`d.get('DatasetName') == dataset_name`). -/
def dsMatches (name : String) (d : JVal) : Bool :=
  match d with
  | .obj kvs => pyEqStr ((objGet kvs "DatasetName").getD .null) name
  | _ => false

/-- Step 1: `[d for d in full_datasets if d.get('DatasetName') == dataset_name]`
(a non-dict catalog entry raises AttributeError, as `d.get` would). -/
def findMatching (name : String) : List JVal → Except PyErr (List JVal)
  | [] => .ok []
  | d :: ds => do
    let kvs ← asObj d
    let rest ← findMatching name ds
    .ok (if pyEqStr ((objGet kvs "DatasetName").getD .null) name then d :: rest else rest)

/-- Pure (value-semantics) embedding of `get_query_builder_context` from
src/agent/pick_dataset.py.  `copy.deepcopy` is the identity on trees; the
reference-level consequences of the deepcopy are treated in the heap model
below.  An absent `table_name` is modelled by the empty string (Python
`if not table_name`). -/
def getQueryBuilderContext (datasetName tableName : String)
    (fullDatasets : List JVal) (forEval : Bool) : Except PyErr JVal := do
  let matching ← findMatching datasetName fullDatasets
  match matching with
  | [] => .error .notFound
  | d :: _ =>
    if tableName == "" then .ok d
    else do
      let kvs ← asObj d
      let ps ← iterElems ((objGet kvs "Parameters").getD (.arr []))
      let filtered ← filterParams forEval ps
      let processed ← procParams tableName forEval filtered
      .ok (.obj (objSet (objSet kvs "Parameters" (.arr processed))
        "SelectedTableName" (.str tableName)))

/-! ### Heap model of `get_query_builder_context` (reference semantics).
The pure model above fixes the value-level behaviour; this model makes
`copy.deepcopy` and the in-place `p['Values'] = ...` / `p['Values-Note'] = ...`
assignments explicit, so that the frame property (the catalog is never
mutated) and the no-aliasing property (the returned context shares no mutable
structure with the catalog) can be stated. -/

/-- A runtime value: immutable scalars held inline, mutable containers
(dicts, lists) by reference into the heap. -/
inductive HV where
  | str (s : String)
  | num (n : Int)
  | bool (b : Bool)
  | null
  | ref (a : Nat)
deriving Repr, DecidableEq

/-- A heap object: a dict (insertion-ordered fields) or a list. -/
inductive HObj where
  | obj (fields : List (String × HV))
  | arr (elems : List HV)
deriving Repr

/-- The heap: the object at address `a` is the `a`-th entry; allocation
appends. -/
abbrev Heap := List HObj

/-- Read the object at an address. -/
def hGet (h : Heap) (a : Nat) : Option HObj := h[a]?

/-- Overwrite the object at an address (in-place mutation). -/
def hSet (h : Heap) (a : Nat) (o : HObj) : Heap := h.set a o

/-- First-binding lookup in a dict's field list (Python `d.get(k)`). -/
def objGetH (fs : List (String × HV)) (k : String) : Option HV :=
  match fs.find? (fun p => p.1 == k) with
  | some p => some p.2
  | none => none

/-- Update a field in place, or append it (Python `d[k] = v`). -/
def objSetH (fs : List (String × HV)) (k : String) (v : HV) : List (String × HV) :=
  match fs with
  | [] => [(k, v)]
  | (k', v') :: rest => if k' == k then (k', v) :: rest else (k', v') :: objSetH rest k v

/-- Python truthiness of a runtime value (containers by emptiness). -/
def truthyH (h : Heap) : HV → Bool
  | .str s => !s.isEmpty
  | .num n => n != 0
  | .bool b => b
  | .null => false
  | .ref a =>
    match hGet h a with
    | some (.obj fs) => !fs.isEmpty
    | some (.arr es) => !es.isEmpty
    | none => false

/-- The fields of a dict value together with its address, raising
AttributeError otherwise (Python `.get` on a non-dict). -/
def asObjAddr (h : Heap) (v : HV) : Except PyErr (Nat × List (String × HV)) :=
  match v with
  | .ref a =>
    match hGet h a with
    | some (.obj fs) => .ok (a, fs)
    | _ => .error .attrError
  | _ => .error .attrError

/-- The fields of a dict value, when it is one. -/
def fieldsOfH (h : Heap) (v : HV) : Option (List (String × HV)) :=
  match v with
  | .ref a =>
    match hGet h a with
    | some (.obj fs) => some fs
    | _ => none
  | _ => none

/-- Python `for x in v`: lists yield elements, dicts their keys, strings
their characters; other values raise TypeError. -/
def iterElemsH (h : Heap) : HV → Except PyErr (List HV)
  | .ref a =>
    match hGet h a with
    | some (.arr es) => .ok es
    | some (.obj fs) => .ok (fs.map (fun kv => HV.str kv.1))
    | none => .error .typeError
  | .str s => .ok (s.toList.map (fun c => HV.str (String.singleton c)))
  | _ => .error .typeError

/-- Python `v == s` for a string `s`: true only on equal strings. -/
def pyEqStrH (v : HV) (s : String) : Bool :=
  match v with
  | .str t => t == s
  | _ => false

/-- Python `v.lower()`: lowercases a string, raises AttributeError otherwise. -/
def pyLowerStrH (v : HV) : Except PyErr String :=
  match v with
  | .str s => .ok (lowerString s)
  | _ => .error .attrError

/-- Python `p.get('ParameterName', '').lower()` on a field list. -/
def paramNameLowerH (fs : List (String × HV)) : Except PyErr String :=
  pyLowerStrH ((objGetH fs "ParameterName").getD (.str ""))

/-- Python `int(str(v).strip())`: `str()` of None, booleans, lists and dicts
never parses as an integer. -/
def pyIntOfValH : HV → Option Int
  | .num n => some n
  | .str s => parseIntChars (stripChars s.toList)
  | _ => none

/-- `copy.deepcopy`, elementwise on a worklist of values, with fuel charged
on every step: scalars are returned as-is, a reference is replaced by a
reference to a freshly allocated recursive copy of its target. -/
def dcL : Nat → Heap → List HV → Option (List HV × Heap)
  | 0, _, _ => none
  | _ + 1, h, [] => some ([], h)
  | fuel + 1, h, v :: vs =>
    match v with
    | .ref a =>
      (match hGet h a with
       | none => none
       | some (.obj fs) =>
         match dcL fuel h (fs.map Prod.snd) with
         | none => none
         | some (ws, h1) =>
           match dcL fuel (h1 ++ [HObj.obj ((fs.map Prod.fst).zip ws)]) vs with
           | none => none
           | some (vs', h3) => some (HV.ref h1.length :: vs', h3)
       | some (.arr es) =>
         match dcL fuel h es with
         | none => none
         | some (ws, h1) =>
           match dcL fuel (h1 ++ [HObj.arr ws]) vs with
           | none => none
           | some (vs', h3) => some (HV.ref h1.length :: vs', h3))
    | w =>
      match dcL fuel h vs with
      | none => none
      | some (vs', h1) => some (w :: vs', h1)

/-- `copy.deepcopy` of one value. -/
def dcV (fuel : Nat) (h : Heap) (v : HV) : Option (HV × Heap) :=
  match dcL fuel h [v] with
  | some ([v'], h') => some (v', h')
  | _ => none

/-- Python `v.get('TableName', v.get('Key', None))` on a field list. -/
def tableKeyOfH (fs : List (String × HV)) : HV :=
  (objGetH fs "TableName").getD ((objGetH fs "Key").getD .null)

/-- Heap-level filter for the table parameter itself:
`[v for v in values if isinstance(v, dict) and v.get('TableName', v.get('Key', None)) == table_name]`. -/
def filterTableParamH (h : Heap) (tbl : String) (vs : List HV) : List HV :=
  vs.filter (fun v =>
    match fieldsOfH h v with
    | some fs => pyEqStrH (tableKeyOfH fs) tbl
    | none => false)

/-- Heap-level `any('TableName' in v for v in values if isinstance(v, dict))`. -/
def anyHasTableNameH (h : Heap) (vs : List HV) : Bool :=
  vs.any (fun v =>
    match fieldsOfH h v with
    | some fs => (objGetH fs "TableName").isSome
    | none => false)

/-- Heap-level `[v for v in values if isinstance(v, dict) and v.get('TableName') == table_name]`. -/
def filterByTableNameH (h : Heap) (tbl : String) (vs : List HV) : List HV :=
  vs.filter (fun v =>
    match fieldsOfH h v with
    | some fs => pyEqStrH ((objGetH fs "TableName").getD .null) tbl
    | none => false)

/-- Heap-level LineCode filter; a non-string `Desc` raises AttributeError at
`.lower()`. -/
def filterLineCodeH (h : Heap) (tbl : String) : List HV → Except PyErr (List HV)
  | [] => .ok []
  | v :: vs =>
    match fieldsOfH h v with
    | some fs => do
      let d ← pyLowerStrH ((objGetH fs "Desc").getD (.str ""))
      let rest ← filterLineCodeH h tbl vs
      .ok (if (("[" ++ lowerString tbl ++ "]").toList).isPrefixOf d.toList then v :: rest
        else rest)
    | none => do
      let rest ← filterLineCodeH h tbl vs
      .ok rest

/-- Heap-level `v.get('Key') or v.get('Desc')` (truthiness of the Key value
consults the heap for containers). -/
def yearKeyValH (h : Heap) (fs : List (String × HV)) : HV :=
  let k := (objGetH fs "Key").getD .null
  if truthyH h k then k else (objGetH fs "Desc").getD .null

/-- Heap-level Year-collapsing scan: every entry must be a dict whose keys
are a subset of Key/Desc and whose Key-or-Desc parses as an integer. -/
def collectYearsH (h : Heap) : List HV → Option (List Int)
  | [] => some []
  | v :: vs =>
    match fieldsOfH h v with
    | some fs =>
      if fs.all (fun kv => kv.1 == "Key" || kv.1 == "Desc") then
        match pyIntOfValH (yearKeyValH h fs) with
        | some y =>
          match collectYearsH h vs with
          | some ys => some (y :: ys)
          | none => none
        | none => none
      else none
    | none => none

/-- Whether a parameter survives step 3a (heap level). -/
def keepParamH (h : Heap) (forEval : Bool) (p : HV) : Except PyErr Bool := do
  let af ← asObjAddr h p
  let pn ← paramNameLowerH af.2
  .ok (!((pn == "tablename" || pn == "tableid") && forEval))

/-- Step 3a on the heap: build the `filtered_params` list of references
(read-only). -/
def filterParamsH (h : Heap) (forEval : Bool) : List HV → Except PyErr (List HV)
  | [] => .ok []
  | p :: ps => do
    let b ← keepParamH h forEval p
    let rest ← filterParamsH h forEval ps
    .ok (if b then p :: rest else rest)

/-- One iteration of the step-3b/4 loop on the heap: each
`p['Values'] = ...` / `p['Values-Note'] = ...` allocates the new value list
and overwrites the parameter dict in place; an exception leaves the
mutations already performed visible in the returned heap. -/
def procParamH (tbl : String) (forEval : Bool) (p : HV) (h : Heap) :
    Except PyErr Unit × Heap :=
  match asObjAddr h p with
  | .error e => (.error e, h)
  | .ok (a, fs) =>
    let valsV := (objGetH fs "Values").getD .null
    if !truthyH h valsV then (.ok (), h)
    else
      match paramNameLowerH fs with
      | .error e => (.error e, h)
      | .ok pn =>
        if pn == "geofips" && forEval then
          (.ok (), hSet (h ++ [HObj.arr []]) a (HObj.obj
            (objSetH (objSetH fs "Values" (HV.ref h.length)) "Values-Note"
              (HV.str "Too many GeoFIPS values to list; omitted for evaluation."))))
        else if pn == "tablename" || pn == "tableid" then
          match iterElemsH h valsV with
          | .error e => (.error e, h)
          | .ok vs =>
            (.ok (), hSet (h ++ [HObj.arr (filterTableParamH h tbl vs)]) a (HObj.obj
              (objSetH (objSetH fs "Values" (HV.ref h.length)) "Values-Note"
                (HV.str "Table parameter filtered to the selected table."))))
        else
          match iterElemsH h valsV with
          | .error e => (.error e, h)
          | .ok vs =>
            let st1 : List (String × HV) × Heap :=
              if anyHasTableNameH h vs then
                (objSetH fs "Values" (HV.ref h.length),
                  hSet (h ++ [HObj.arr (filterByTableNameH h tbl vs)]) a (HObj.obj
                    (objSetH fs "Values" (HV.ref h.length))))
              else (fs, h)
            let fs1 := st1.1
            let h1 := st1.2
            if pn == "linecode" then
              match filterLineCodeH h1 tbl vs with
              | .error e => (.error e, h1)
              | .ok nv =>
                (.ok (), hSet (h1 ++ [HObj.arr nv]) a (HObj.obj
                  (objSetH fs1 "Values" (HV.ref h1.length))))
            else if pn == "year" then
              match collectYearsH h1 vs with
              | some (y :: ys) =>
                (.ok (), hSet (h1 ++
                    [HObj.obj [("MinYear", HV.str (toString (intListMin y ys)))],
                     HObj.obj [("MaxYear", HV.str (toString (intListMax y ys)))],
                     HObj.arr [HV.ref h1.length, HV.ref (h1.length + 1)]]) a
                  (HObj.obj (objSetH fs1 "Values" (HV.ref (h1.length + 2)))))
              | _ => (.ok (), h1)
            else (.ok (), h1)

/-- Step 3b over the whole filtered parameter list, stopping at the first
exception but keeping its heap. -/
def procParamsH (tbl : String) (forEval : Bool) : List HV → Heap →
    Except PyErr Unit × Heap
  | [], h => (.ok (), h)
  | p :: ps, h =>
    match procParamH tbl forEval p h with
    | (.error e, h1) => (.error e, h1)
    | (.ok _, h1) => procParamsH tbl forEval ps h1

/-- Step 1 on the heap: the first catalog entry whose `DatasetName` equals
the requested name (read-only; a non-dict entry raises AttributeError). -/
def findMatchingH (h : Heap) (name : String) : List HV → Except PyErr (Option HV)
  | [] => .ok none
  | d :: ds => do
    let af ← asObjAddr h d
    let rest ← findMatchingH h name ds
    .ok (if pyEqStrH ((objGetH af.2 "DatasetName").getD .null) name then some d else rest)

/-- Heap-level embedding of `get_query_builder_context` from
src/agent/pick_dataset.py: find the matching dataset, deep-copy it, and — for
a non-empty table name — filter and collapse in place on the copy, finally
building the fresh `result = dict(dataset)` with the fresh
`filtered_params` list.  `none` is fuel exhaustion (a model artifact);
otherwise the Python result or exception is returned along with the final
heap.  An absent table name is modelled by the empty string. -/
def gqbcH (fuel : Nat) (datasetName tableName : String) (forEval : Bool)
    (catalog : List HV) (h : Heap) : Option (Except PyErr HV × Heap) :=
  match findMatchingH h datasetName catalog with
  | .error e => some (.error e, h)
  | .ok none => some (.error .notFound, h)
  | .ok (some d0) =>
    match dcV fuel h d0 with
    | none => none
    | some (dv, h1) =>
      if tableName == "" then some (.ok dv, h1)
      else
        match asObjAddr h1 dv with
        | .error e => some (.error e, h1)
        | .ok (da, dfs) =>
          match
            (match objGetH dfs "Parameters" with
             | none => .ok []
             | some pv => iterElemsH h1 pv : Except PyErr (List HV)) with
          | .error e => some (.error e, h1)
          | .ok ps =>
            match filterParamsH h1 forEval ps with
            | .error e => some (.error e, h1)
            | .ok fps =>
              match procParamsH tableName forEval fps h1 with
              | (.error e, h2) => some (.error e, h2)
              | (.ok _, h2) =>
                match hGet h2 da with
                | some (HObj.obj dfs2) =>
                  some (.ok (HV.ref (h2.length + 1)), h2 ++
                    [HObj.arr fps,
                     HObj.obj (objSetH (objSetH dfs2 "Parameters" (HV.ref h2.length))
                       "SelectedTableName" (HV.str tableName))])
                | _ => none

/-- The addresses an object references directly. -/
def refsOfObj : HObj → List Nat
  | .obj fs => fs.filterMap (fun kv => match kv.2 with | HV.ref a => some a | _ => none)
  | .arr es => es.filterMap (fun v => match v with | HV.ref a => some a | _ => none)

/-- Every object of the heap references only addresses below `n` (with
`n = h.length`: a closed heap). -/
def closedBelow (h : Heap) (n : Nat) : Bool :=
  h.all (fun o => (refsOfObj o).all (fun b => decide (b < n)))

/-- Every root value of a catalog is a reference below `n` or a scalar. -/
def rootsBelow (roots : List HV) (n : Nat) : Bool :=
  roots.all (fun v => match v with | HV.ref a => decide (a < n) | _ => true)

/-- Every object stored at an address `≥ n` references only addresses
`≥ n`: the fresh region is separated from the original one. -/
def RegionSep (h : Heap) (n : Nat) : Prop :=
  ∀ a o, n ≤ a → hGet h a = some o → ∀ b ∈ refsOfObj o, n ≤ b

/-- Address `b` is reachable from address `a` by following references. -/
inductive Reaches (h : Heap) : Nat → Nat → Prop where
  | refl (a : Nat) : Reaches h a a
  | step {a b c : Nat} (o : HObj) : Reaches h a b → hGet h b = some o →
      c ∈ refsOfObj o → Reaches h a c

/-- A concrete five-object heap: a catalog dataset "NIPA" with one Year
parameter whose Values list holds one Key/Desc entry. -/
def c3heap : Heap :=
  [HObj.obj [("Key", HV.str "2020")],
   HObj.arr [HV.ref 0],
   HObj.obj [("ParameterName", HV.str "Year"), ("Values", HV.ref 1)],
   HObj.arr [HV.ref 2],
   HObj.obj [("DatasetName", HV.str "NIPA"), ("Parameters", HV.ref 3)]]

/-- The catalog root list for the concrete heap. -/
def c3catalog : List HV := [HV.ref 4]

/-! ### Stage-1 ranking: `score_and_select_top` (src/agent/pick_dataset.py) -/

/-- A result document paired with the `confidence` field the ranking writes
into its copy (`r_copy['confidence'] = ...`). -/
structure ScoredDoc (α : Type) where
  doc : α
  confidence : Int
deriving Repr, DecidableEq

/-- Python `content.split(',')` on the character list (splits at every comma,
no collapsing; the empty string yields one empty part). -/
def splitCommaAux (cur : List Char) : List Char → List (List Char)
  | [] => [cur.reverse]
  | c :: cs => if c == ',' then cur.reverse :: splitCommaAux [] cs else splitCommaAux (c :: cur) cs

/-- Split a character list at commas. -/
def splitComma (cs : List Char) : List (List Char) := splitCommaAux [] cs

/-- Parse the comma-separated index list from the ranking response: each part
is stripped and parsed as an int, kept (0-based) when `1 <= num <= n`;
unparsable parts are skipped, duplicates are kept. -/
def parseIndices (content : String) (n : Nat) : List Nat :=
  (splitComma content.toList).filterMap (fun part =>
    match parseIntChars (stripChars part) with
    | some k => if 1 ≤ k && k ≤ (n : Int) then some (k - 1).toNat else none
    | none => none)

/-- The LLM-ranked path of `score_and_select_top`: build the top list from the
first `top_n` selected indices with confidence `100 - 10 * position`, and the
full scored list where a selected index `i` gets `100 - 10 * rank` (rank =
first position of `i` in the selected list) and unselected entries get 0. -/
def llmTop {α : Type} (results : List α) (top_n : Nat) (content : String) :
    List (ScoredDoc α) × List (ScoredDoc α) :=
  let selected0 := parseIndices content results.length
  let selected := if selected0.isEmpty then List.range (min top_n results.length) else selected0
  let top := (selected.take top_n).enum.filterMap (fun pr =>
    match results.get? pr.2 with
    | some r => some ⟨r, 100 - 10 * (pr.1 : Int)⟩
    | none => none)
  let allScored := results.enum.map (fun pr =>
    if selected.contains pr.1 then
      ScoredDoc.mk pr.2 (100 - 10 * (selected.indexOf pr.1 : Int))
    else
      ScoredDoc.mk pr.2 0)
  (top, allScored)

/-- Embedding of `score_and_select_top`.  The scoring capability is an oracle:
`some content` is a successful LLM response, `none` is a raised exception,
which triggers the heuristic fallback `max(0, 100 - i * 10)`. -/
def scoreAndSelectTop {α : Type} (results : List α) (top_n : Nat) (oracle : Option String) :
    List (ScoredDoc α) × List (ScoredDoc α) :=
  if results.isEmpty then ([], [])
  else
    match oracle with
    | some content => llmTop results top_n content
    | none =>
      let scored := results.enum.map (fun pr => ScoredDoc.mk pr.2 (max 0 (100 - 10 * (pr.1 : Int))))
      (scored.take top_n, scored)

/-! ### Parameter post-processing: `build_bea_params_with_llm` (src/agent/mcp.py) -/

/-- Python `a or b` on values: `a` when truthy, else `b`. -/
def pyOrJ (a b : JVal) : JVal := if truthy a then a else b

/-- Python `d.setdefault(k, v)`: insert only when the key is absent. -/
def dictSetDefault (kvs : List (String × JVal)) (k : String) (v : JVal) : List (String × JVal) :=
  match objGet kvs k with
  | some _ => kvs
  | none => objSet kvs k v

/-- Python `d.pop(k, None)`: remove the binding for `k` if present. -/
def dictPop (kvs : List (String × JVal)) (k : String) : List (String × JVal) :=
  kvs.filter (fun kv => kv.1 != k)

/-- Post-processing of the generated parameters in `build_bea_params_with_llm`
(after JSON extraction): DatasetName fallback via `setdefault`, TableName
injection from `SelectedTableName`, and dropping `Year` when a
`FirstYear`/`LastYear` range is also present. -/
def buildBeaParamsPost (context : List (String × JVal)) (params0 : List (String × JVal)) :
    List (String × JVal) :=
  let datasetName := pyOrJ ((objGet context "DatasetName").getD .null)
    ((objGet context "dataset_name").getD .null)
  let params1 := if truthy datasetName then dictSetDefault params0 "DatasetName" datasetName
    else params0
  let params2 :=
    if (objGet context "SelectedTableName").isSome && (objGet params1 "TableName").isNone then
      objSet params1 "TableName" ((objGet context "SelectedTableName").getD .null)
    else params1
  if (objGet params2 "Year").isSome &&
      ((objGet params2 "FirstYear").isSome || (objGet params2 "LastYear").isSome) then
    dictPop params2 "Year"
  else params2

/-! ### Search-result merge: `smart_search` deduplication (src/agent/pick_dataset.py)
and the spec's broad-retrieval strategy -/

/-- A search-result document reduced to what the merge logic reads: its `_id`
identity, its dataset name, and an opaque body distinguishing documents. -/
structure SDoc where
  id : Int
  ds : String
  body : Nat
deriving Repr, DecidableEq

/-- Increment the stored count of the entry with the given identity
(`seen[doc_id]['count'] += 1`). -/
def bumpCount (i : Int) : List (SDoc × Nat) → List (SDoc × Nat)
  | [] => []
  | e :: es => if e.1.id == i then (e.1, e.2 + 1) :: es else e :: bumpCount i es

/-- The dedup scan of `smart_search`: one pass over `results_full +
results_short`, keeping the first document per `_id` in first-seen order
together with its occurrence count (the entry's list position is the stored
`first_position`). -/
def tallyAux (acc : List (SDoc × Nat)) : List SDoc → List (SDoc × Nat)
  | [] => acc
  | d :: ds =>
    if acc.any (fun e => e.1.id == d.id) then tallyAux (bumpCount d.id acc) ds
    else tallyAux (acc ++ [(d, 1)]) ds

/-- The distinct-identity representatives of a document stream, in
first-seen order: the elements whose position equals the first position at
which their identity occurs. -/
def firstOcc (xs : List SDoc) : List SDoc :=
  (xs.enum.filter (fun pr => xs.findIdx (fun d => d.id == pr.2.id) == pr.1)).map
    (fun pr => pr.2)

/-- Specification form of the dedup scan: each first-seen representative
paired with its total occurrence count. -/
def tallySpec (xs : List SDoc) : List (SDoc × Nat) :=
  (firstOcc xs).map (fun d0 => (d0, xs.countP (fun d => d.id == d0.id)))

/-- Insert one element in front of the first entry it ranks before. -/
def insB {α : Type} (r : α → α → Bool) (x : α) : List α → List α
  | [] => [x]
  | y :: ys => if r x y then x :: y :: ys else y :: insB r x ys

/-- Stable insertion sort by a total preorder `r` (`r x y` = "x may come
before y"); models Python's stable `sorted`/`list.sort`. -/
def sortB {α : Type} (r : α → α → Bool) : List α → List α
  | [] => []
  | x :: xs => insB r x (sortB r xs)

/-- The merge ranking of `smart_search`: descending count, then ascending
first-seen position (`key=lambda doc_id: (-count, first_position)`); entries
are `(first_position, (doc, count))`. -/
def mergeRank (a b : Nat × SDoc × Nat) : Bool :=
  b.2.2 < a.2.2 || (a.2.2 == b.2.2 && a.1 ≤ b.1)

/-- The deduplicating merge of `smart_search` applied to
`results_full ++ results_short`. -/
def dedupMerge (xs : List SDoc) : List SDoc :=
  (sortB mergeRank (tallyAux [] xs).enum).map (fun e => e.2.1)

/-- Modelled from the spec: the broad-retrieval merge ("keep the original
batch's order, then append supplement entries whose identity was not already
present").  The broad strategy itself is not among the source files available
under src/ (only the scoped strategy `smart_search` is); this definition
follows spec section 4.2. -/
def broadMergeAux (acc : List SDoc) : List SDoc → List SDoc
  | [] => acc
  | d :: ds =>
    if acc.any (fun x => x.id == d.id) then broadMergeAux acc ds
    else broadMergeAux (acc ++ [d]) ds

/-- Modelled from the spec: merge the original batch with the supplement. -/
def broadMerge (batch supp : List SDoc) : List SDoc := broadMergeAux batch supp

/-- Modelled from the spec: the broad retrieval strategy — fetch an unfiltered
batch of `batchSize` (default 25); when fewer than `floor` (default 10) of its
entries belong to the anchor dataset, fetch an anchor-scoped supplement with
the floor as the limit and merge.  `search filterDs limit` is the external
hybrid-search capability. -/
def broadRetrieve (search : Option String → Nat → List SDoc) (anchor : String)
    (batchSize floor : Nat) : List SDoc :=
  let batch := search none batchSize
  if batch.countP (fun d => d.ds == anchor) < floor then
    broadMerge batch (search (some anchor) floor)
  else batch

/-- Modelled from the spec (scenario): a 25-entry unfiltered batch whose first
6 entries belong to anchor dataset "A". -/
def c8batch : List SDoc :=
  (List.range 25).map (fun i => ⟨Int.ofNat (i + 1), if i < 6 then "A" else "B", 0⟩)

/-- Modelled from the spec (scenario): a 10-entry anchor-scoped supplement, 4
of whose identities overlap the batch. -/
def c8supp : List SDoc :=
  (List.range 10).map (fun i => ⟨Int.ofNat (if i < 4 then i + 1 else i + 22), "A", 1⟩)

/-- Modelled from the spec (scenario): the search capability serving the batch
for unfiltered queries and the supplement for anchor-scoped ones. -/
def c8search : Option String → Nat → List SDoc :=
  fun o _ => match o with | none => c8batch | some _ => c8supp

/-! ### Stage-2 ranking: `choose_datasets_to_query` (src/agent/pick_dataset.py) -/

/-- A scored candidate as recorded by stage-2 ranking. -/
structure ScoredE where
  dataset_name : String
  table_name : Option String
  score : Int
deriving Repr, DecidableEq

/-- Response of the medium scoring model: a content string, or a raised
exception carrying its message. -/
inductive LLMResp where
  | ok : String → LLMResp
  | err : String → LLMResp
deriving Repr

/-- The result dict of `choose_datasets_to_query`. -/
structure Selection where
  top : Option ScoredE
  ties : List ScoredE
  all_scored : List ScoredE
deriving Repr, DecidableEq

/-- Score extraction from a scoring response: keep the digit characters,
parse the first three as an integer (0 when there are none), clamp values
above 100 down to 100. -/
def parseScore (content : String) : Int :=
  let digits := content.toList.filter Char.isDigit
  let score : Int := if digits.isEmpty then 0 else (digitsToNat (digits.take 3) : Int)
  if score > 100 then 100 else score

/-- Modelled from the claim wording (C10): "the digit characters of the
response are concatenated, the first three are parsed as the score, a
response with no digits yields score 0, and any parsed value above 100 is
clamped to 100". -/
def specScoreOfText (content : String) : Int :=
  match content.toList.filter Char.isDigit with
  | [] => 0
  | ds => min 100 (digitsToNat (ds.take 3) : Int)

/-- Substring containment, Python `needle in hay`. -/
def containsSub (needle : List Char) : List Char → Bool
  | [] => needle.isEmpty
  | c :: t => needle.isPrefixOf (c :: t) || containsSub needle t

/-- The capacity-error test of `choose_datasets_to_query`:
`'maximum context length' in msg or 'context_length' in msg or ('token' in msg and 'exceed' in msg)`
on the lowercased message. -/
def capacityErr (msg : String) : Bool :=
  let m := (lowerString msg).toList
  containsSub "maximum context length".toList m || containsSub "context_length".toList m ||
    (containsSub "token".toList m && containsSub "exceed".toList m)

/-- A candidate result as read by stage-2 ranking: `ds.get('dataset_name')`
and `ds.get('table_name', None)`. -/
structure Cand where
  dataset_name : Option String
  table_name : Option String
deriving Repr, DecidableEq

/-- The scoring loop of `choose_datasets_to_query`: per candidate, require a
dataset name, build its context (any context failure is fatal to the whole
stage), then score via the medium oracle; on a capacity error retry once with
the large oracle, otherwise (or when the retry also fails) skip the
candidate.  Oracles are indexed by candidate position. -/
def scoreLoopAux (cat : List JVal) (oracleMed : Nat → LLMResp)
    (oracleLarge : Nat → Option String) : Nat → List Cand → Except PyErr (List ScoredE)
  | _, [] => .ok []
  | i, c :: cs =>
    match c.dataset_name with
    | none => .error .valueError
    | some dsName =>
      if dsName.isEmpty then .error .valueError
      else
        match getQueryBuilderContext dsName ((c.table_name).getD "") cat true with
        | .error _ => .error .valueError
        | .ok _ctx =>
          match oracleMed i with
          | .ok content => do
            let rest ← scoreLoopAux cat oracleMed oracleLarge (i + 1) cs
            .ok (ScoredE.mk dsName c.table_name (parseScore content) :: rest)
          | .err msg =>
            if capacityErr msg then
              match oracleLarge i with
              | some content2 => do
                let rest ← scoreLoopAux cat oracleMed oracleLarge (i + 1) cs
                .ok (ScoredE.mk dsName c.table_name (parseScore content2) :: rest)
              | none => scoreLoopAux cat oracleMed oracleLarge (i + 1) cs
            else scoreLoopAux cat oracleMed oracleLarge (i + 1) cs

/-- The selection step of `choose_datasets_to_query`: sort descending by
score (stable), take the head as top, report as ties the later entries
within `tie_threshold` of the top score. -/
def chooseFromScored (scored : List ScoredE) (tie_threshold : Int) : Selection :=
  match sortB (fun a b => decide (b.score ≤ a.score)) scored with
  | [] => { top := none, ties := [], all_scored := [] }
  | t :: rest =>
    { top := some t,
      ties := rest.filter (fun s => decide (t.score - s.score ≤ tie_threshold)),
      all_scored := t :: rest }

/-- Embedding of `choose_datasets_to_query`. -/
def chooseDatasetsToQuery (cands : List Cand) (cat : List JVal) (oracleMed : Nat → LLMResp)
    (oracleLarge : Nat → Option String) (tie_threshold : Int) : Except PyErr Selection := do
  let scored ← scoreLoopAux cat oracleMed oracleLarge 0 cands
  .ok (chooseFromScored scored tie_threshold)

/-! ## Theorems -/

theorem insB_perm {α : Type} (r : α → α → Bool) (x : α) (l : List α) :
    List.Perm (insB r x l) (x :: l) := by
  induction l with
  | nil => simp [insB]
  | cons y ys ih =>
    by_cases h : r x y = true
    · simp [insB, h]
    · simp only [insB, h, if_false]
      exact (ih.cons y).trans (List.Perm.swap x y ys)

theorem sortB_perm {α : Type} (r : α → α → Bool) (l : List α) :
    List.Perm (sortB r l) l := by
  induction l with
  | nil => simp [sortB]
  | cons x xs ih => exact (insB_perm r x (sortB r xs)).trans (ih.cons x)

theorem pairwise_insB {α : Type} (r : α → α → Bool)
    (htot : ∀ a b, r a b = true ∨ r b a = true)
    (htrans : ∀ a b c, r a b = true → r b c = true → r a c = true)
    (x : α) (l : List α) (h : l.Pairwise (fun a b => r a b = true)) :
    (insB r x l).Pairwise (fun a b => r a b = true) := by
  induction l with
  | nil => simp [insB]
  | cons y ys ih =>
    rcases List.pairwise_cons.mp h with ⟨hy, hys⟩
    by_cases hxy : r x y = true
    · simp only [insB, hxy, if_true]
      refine List.pairwise_cons.mpr ⟨?_, h⟩
      intro z hz
      rcases List.mem_cons.mp hz with rfl | hz
      · exact hxy
      · exact htrans x y z hxy (hy z hz)
    · simp only [insB, hxy, if_false]
      refine List.pairwise_cons.mpr ⟨?_, ih hys⟩
      intro z hz
      rcases List.mem_cons.mp ((insB_perm r x ys).mem_iff.mp hz) with h1 | h2
      · rw [h1]
        rcases htot x y with hc | hc
        · exact absurd hc hxy
        · exact hc
      · exact hy z h2

theorem pairwise_sortB {α : Type} (r : α → α → Bool)
    (htot : ∀ a b, r a b = true ∨ r b a = true)
    (htrans : ∀ a b c, r a b = true → r b c = true → r a c = true)
    (l : List α) : (sortB r l).Pairwise (fun a b => r a b = true) := by
  induction l with
  | nil => simp [sortB]
  | cons x xs ih => exact pairwise_insB r htot htrans x (sortB r xs) ih

theorem scoreDesc_total (a b : ScoredE) :
    decide (b.score ≤ a.score) = true ∨ decide (a.score ≤ b.score) = true := by
  rcases le_total b.score a.score with h | h
  · exact Or.inl (by simpa using h)
  · exact Or.inr (by simpa using h)

theorem scoreDesc_trans (a b c : ScoredE) (h1 : decide (b.score ≤ a.score) = true)
    (h2 : decide (c.score ≤ b.score) = true) : decide (c.score ≤ a.score) = true := by
  simp only [decide_eq_true_eq] at h1 h2 ⊢
  exact le_trans h2 h1

theorem chooseDatasetsToQuery_ok {cands : List Cand} {cat : List JVal}
    {oracleMed : Nat → LLMResp} {oracleLarge : Nat → Option String} {thr : Int} {r : Selection}
    (h : chooseDatasetsToQuery cands cat oracleMed oracleLarge thr = .ok r) :
    ∃ scored, scoreLoopAux cat oracleMed oracleLarge 0 cands = .ok scored ∧
      r = chooseFromScored scored thr := by
  unfold chooseDatasetsToQuery at h
  cases hs : scoreLoopAux cat oracleMed oracleLarge 0 cands with
  | error e => rw [hs] at h; exact absurd h (by simp [Bind.bind, Except.bind])
  | ok scored =>
    rw [hs] at h
    simp only [Bind.bind, Except.bind, Except.ok.injEq] at h
    exact ⟨scored, rfl, h.symm⟩

theorem chooseFromScored_cons {scored : List ScoredE} {thr : Int} {t0 : ScoredE}
    {rest : List ScoredE}
    (h : sortB (fun a b => decide (b.score ≤ a.score)) scored = t0 :: rest) :
    chooseFromScored scored thr =
      { top := some t0,
        ties := rest.filter (fun s => decide (t0.score - s.score ≤ thr)),
        all_scored := t0 :: rest } := by
  unfold chooseFromScored
  rw [h]

theorem chooseFromScored_all_scored (scored : List ScoredE) (thr : Int) :
    (chooseFromScored scored thr).all_scored =
      sortB (fun a b => decide (b.score ≤ a.score)) scored := by
  unfold chooseFromScored
  cases h : sortB (fun a b => decide (b.score ≤ a.score)) scored with
  | nil => rfl
  | cons t0 rest => rfl

/-- C7: `choose_datasets_to_query` returns as top a candidate with maximal
score among all scored candidates, and its ties list contains exactly those
other scored candidates whose score is within `tie_threshold` points of the
top score, inclusive. -/
theorem claim_C7_top_and_ties (cands : List Cand) (cat : List JVal)
    (oracleMed : Nat → LLMResp) (oracleLarge : Nat → Option String) (thr : Int)
    (r : Selection) (t : ScoredE)
    (hok : chooseDatasetsToQuery cands cat oracleMed oracleLarge thr = .ok r)
    (htop : r.top = some t) :
    t ∈ r.all_scored ∧ (∀ s ∈ r.all_scored, s.score ≤ t.score) ∧
      (↑r.ties : Multiset ScoredE) =
        Multiset.filter (fun s => t.score - s.score ≤ thr)
          ((↑r.all_scored : Multiset ScoredE).erase t) := by
  obtain ⟨scored, _hs, hr⟩ := chooseDatasetsToQuery_ok hok
  subst hr
  have hpw := pairwise_sortB (fun a b => decide (b.score ≤ a.score))
    scoreDesc_total scoreDesc_trans scored
  cases hsort : sortB (fun a b => decide (b.score ≤ a.score)) scored with
  | nil =>
    rw [chooseFromScored, hsort] at htop
    exact absurd htop (by simp)
  | cons t0 rest =>
    rw [hsort] at hpw
    rw [chooseFromScored_cons hsort] at htop ⊢
    simp only [Option.some.injEq] at htop
    subst htop
    rcases List.pairwise_cons.mp hpw with ⟨hhead, _hrest⟩
    refine ⟨List.mem_cons_self _ _, ?_, ?_⟩
    · intro s hs
      rcases List.mem_cons.mp hs with h1 | h2
      · rw [h1]
      · simpa using hhead s h2
    · rw [← Multiset.cons_coe, Multiset.erase_cons_head, Multiset.filter_coe]

theorem parseScore_eq_spec (content : String) : parseScore content = specScoreOfText content := by
  unfold parseScore specScoreOfText
  cases h : content.toList.filter Char.isDigit with
  | nil => simp [h]
  | cons c cs =>
    simp only [h, List.isEmpty_cons, Bool.false_eq_true, if_false, min_def]
    split_ifs <;> omega

theorem specScore_nonneg (content : String) : 0 ≤ specScoreOfText content := by
  unfold specScoreOfText
  cases h : content.toList.filter Char.isDigit with
  | nil => simp
  | cons c cs =>
    simp only
    exact le_min (by omega) (Int.ofNat_nonneg _)

theorem specScore_le (content : String) : specScoreOfText content ≤ 100 := by
  unfold specScoreOfText
  cases h : content.toList.filter Char.isDigit with
  | nil => simp
  | cons c cs =>
    simp only
    exact min_le_left _ _

theorem parseScore_nonneg (content : String) : 0 ≤ parseScore content := by
  rw [parseScore_eq_spec]; exact specScore_nonneg content

theorem parseScore_le (content : String) : parseScore content ≤ 100 := by
  rw [parseScore_eq_spec]; exact specScore_le content

theorem scoreLoopAux_scores (cat : List JVal) (oracleMed : Nat → LLMResp)
    (oracleLarge : Nat → Option String) :
    ∀ (cs : List Cand) (i : Nat) (scored : List ScoredE),
      scoreLoopAux cat oracleMed oracleLarge i cs = .ok scored →
      ∀ s ∈ scored, ∃ content, s.score = parseScore content := by
  intro cs
  induction cs with
  | nil =>
    intro i scored h s hs
    simp only [scoreLoopAux, Except.ok.injEq] at h
    subst h
    simp at hs
  | cons c rest ih =>
    intro i scored h s hs
    unfold scoreLoopAux at h
    cases hdn : c.dataset_name with
    | none => simp only [hdn] at h; exact absurd h (by simp)
    | some dsName =>
      simp only [hdn] at h
      by_cases hempty : dsName.isEmpty
      · rw [if_pos hempty] at h; exact absurd h (by simp)
      · rw [if_neg hempty] at h
        cases hctx : getQueryBuilderContext dsName ((c.table_name).getD "") cat true with
        | error e => simp only [hctx] at h; exact absurd h (by simp)
        | ok ctx =>
          simp only [hctx] at h
          cases hm : oracleMed i with
          | ok content =>
            simp only [hm] at h
            cases hrest : scoreLoopAux cat oracleMed oracleLarge (i + 1) rest with
            | error e =>
              rw [hrest] at h; exact absurd h (by simp [Bind.bind, Except.bind])
            | ok tailScored =>
              rw [hrest] at h
              simp only [Bind.bind, Except.bind, Except.ok.injEq] at h
              subst h
              rcases List.mem_cons.mp hs with h1 | h2
              · exact ⟨content, by rw [h1]⟩
              · exact ih (i + 1) tailScored hrest s h2
          | err msg =>
            simp only [hm] at h
            by_cases hcap : capacityErr msg = true
            · rw [if_pos hcap] at h
              cases hl : oracleLarge i with
              | some content2 =>
                simp only [hl] at h
                cases hrest : scoreLoopAux cat oracleMed oracleLarge (i + 1) rest with
                | error e =>
                  rw [hrest] at h; exact absurd h (by simp [Bind.bind, Except.bind])
                | ok tailScored =>
                  rw [hrest] at h
                  simp only [Bind.bind, Except.bind, Except.ok.injEq] at h
                  subst h
                  rcases List.mem_cons.mp hs with h1 | h2
                  · exact ⟨content2, by rw [h1]⟩
                  · exact ih (i + 1) tailScored hrest s h2
              | none =>
                simp only [hl] at h
                exact ih (i + 1) scored h s hs
            · rw [if_neg hcap] at h
              exact ih (i + 1) scored h s hs

/-- C10: every per-candidate score recorded by stage-2 ranking is an integer
in [0,100] for any text the scoring capability returns; the score extraction
concatenates the digit characters of the response, parses the first three
(a response with no digits yields score 0) and clamps values above 100 to
100. -/
theorem claim_C10_scores_in_range :
    (∀ content : String, 0 ≤ parseScore content ∧ parseScore content ≤ 100 ∧
      parseScore content = specScoreOfText content) ∧
    (∀ (cands : List Cand) (cat : List JVal) (oracleMed : Nat → LLMResp)
      (oracleLarge : Nat → Option String) (thr : Int) (r : Selection),
      chooseDatasetsToQuery cands cat oracleMed oracleLarge thr = .ok r →
      ∀ s ∈ r.all_scored, 0 ≤ s.score ∧ s.score ≤ 100) := by
  constructor
  · exact fun content => ⟨parseScore_nonneg content, parseScore_le content,
      parseScore_eq_spec content⟩
  · intro cands cat oracleMed oracleLarge thr r hok s hs
    obtain ⟨scored, hloop, hr⟩ := chooseDatasetsToQuery_ok hok
    have hmem : s ∈ scored := by
      subst hr
      rw [chooseFromScored_all_scored] at hs
      exact (sortB_perm _ scored).mem_iff.mp hs
    obtain ⟨content, hc⟩ := scoreLoopAux_scores cat oracleMed oracleLarge cands 0 scored hloop s hmem
    rw [hc]
    exact ⟨parseScore_nonneg content, parseScore_le content⟩

/-- Witness for C7 at the spec scenario: four candidates scored [90, 88, 75, 40]
with tie threshold 3 select a top of score 90 with exactly the score-88
candidate as tie. -/
theorem claim_C7_top_and_ties_witness :
    chooseDatasetsToQuery
      [⟨some "D", none⟩, ⟨some "D", none⟩, ⟨some "D", none⟩, ⟨some "D", none⟩]
      [JVal.obj [("DatasetName", JVal.str "D")]]
      (fun i => LLMResp.ok (["90", "88", "75", "40"].getD i "0"))
      (fun _ => none) 3 =
      .ok ⟨some ⟨"D", none, 90⟩, [⟨"D", none, 88⟩],
        [⟨"D", none, 90⟩, ⟨"D", none, 88⟩, ⟨"D", none, 75⟩, ⟨"D", none, 40⟩]⟩ ∧
    (Selection.mk (some ⟨"D", none, 90⟩) [⟨"D", none, 88⟩]
        [⟨"D", none, 90⟩, ⟨"D", none, 88⟩, ⟨"D", none, 75⟩, ⟨"D", none, 40⟩]).top =
      some ⟨"D", none, 90⟩ ∧
    (⟨"D", none, 90⟩ ∈ (Selection.mk (some ⟨"D", none, 90⟩) [⟨"D", none, 88⟩]
        [⟨"D", none, 90⟩, ⟨"D", none, 88⟩, ⟨"D", none, 75⟩, ⟨"D", none, 40⟩]).all_scored ∧
      (∀ s ∈ (Selection.mk (some ⟨"D", none, 90⟩) [⟨"D", none, 88⟩]
        [⟨"D", none, 90⟩, ⟨"D", none, 88⟩, ⟨"D", none, 75⟩, ⟨"D", none, 40⟩]).all_scored,
        s.score ≤ (ScoredE.mk "D" none 90).score) ∧
      (↑(Selection.mk (some ⟨"D", none, 90⟩) [⟨"D", none, 88⟩]
        [⟨"D", none, 90⟩, ⟨"D", none, 88⟩, ⟨"D", none, 75⟩, ⟨"D", none, 40⟩]).ties :
          Multiset ScoredE) =
        Multiset.filter (fun s => (ScoredE.mk "D" none 90).score - s.score ≤ 3)
          ((↑(Selection.mk (some ⟨"D", none, 90⟩) [⟨"D", none, 88⟩]
            [⟨"D", none, 90⟩, ⟨"D", none, 88⟩, ⟨"D", none, 75⟩, ⟨"D", none, 40⟩]).all_scored :
              Multiset ScoredE).erase ⟨"D", none, 90⟩)) :=
  ⟨by rfl, rfl,
    claim_C7_top_and_ties
      [⟨some "D", none⟩, ⟨some "D", none⟩, ⟨some "D", none⟩, ⟨some "D", none⟩]
      [JVal.obj [("DatasetName", JVal.str "D")]]
      (fun i => LLMResp.ok (["90", "88", "75", "40"].getD i "0"))
      (fun _ => none) 3 _ _ (by rfl) rfl⟩

/-- Witness for C10 at a concrete scoring run. -/
theorem claim_C10_scores_in_range_witness :
    (0 ≤ parseScore "score: 95!" ∧ parseScore "score: 95!" ≤ 100 ∧
      parseScore "score: 95!" = specScoreOfText "score: 95!") ∧
    (chooseDatasetsToQuery [⟨some "D", none⟩] [JVal.obj [("DatasetName", JVal.str "D")]]
        (fun _ => LLMResp.ok "the score is 999999") (fun _ => none) 3 =
      .ok ⟨some ⟨"D", none, 100⟩, [], [⟨"D", none, 100⟩]⟩ ∧
      ∀ s ∈ (Selection.mk (some ⟨"D", none, 100⟩) [] [⟨"D", none, 100⟩]).all_scored,
        0 ≤ s.score ∧ s.score ≤ 100) :=
  ⟨claim_C10_scores_in_range.1 "score: 95!",
    ⟨by rfl, claim_C10_scores_in_range.2 [⟨some "D", none⟩]
      [JVal.obj [("DatasetName", JVal.str "D")]]
      (fun _ => LLMResp.ok "the score is 999999") (fun _ => none) 3 _ (by rfl)⟩⟩

/-- C1 counterexample: with 12 candidates and a ranking response listing all
12, the full scored list assigns confidence `100 - 11 * 10 = -10` to the
twelfth candidate, outside [0, 100]; the claim as stated is false. -/
theorem claim_C1_counterexample :
    ¬ (∀ s ∈ (scoreAndSelectTop (List.range 12) 10
        (some "1,2,3,4,5,6,7,8,9,10,11,12")).2, 0 ≤ s.confidence ∧ s.confidence ≤ 100) := by
  intro h
  have hmem : (⟨11, -10⟩ : ScoredDoc Nat) ∈ (scoreAndSelectTop (List.range 12) 10
      (some "1,2,3,4,5,6,7,8,9,10,11,12")).2 := by decide
  exact absurd (h _ hmem).1 (by decide)

/-- C1 amended: every confidence score written by `score_and_select_top` is
at most 100; on the heuristic fallback path both returned lists lie entirely
in [0, 100]; on the LLM-ranked path the returned top list lies in [0, 100]
whenever `top_n ≤ 11` (in particular for the default `top_n = 10`), but the
full scored list may assign negative confidence to candidates ranked twelfth
or later by the response. -/
theorem claim_C1_confidence_range_amended {α : Type} (results : List α) (top_n : Nat)
    (oracle : Option String) :
    (∀ s ∈ (scoreAndSelectTop results top_n none).1, 0 ≤ s.confidence ∧ s.confidence ≤ 100) ∧
    (∀ s ∈ (scoreAndSelectTop results top_n none).2, 0 ≤ s.confidence ∧ s.confidence ≤ 100) ∧
    (top_n ≤ 11 →
      ∀ s ∈ (scoreAndSelectTop results top_n oracle).1, 0 ≤ s.confidence ∧ s.confidence ≤ 100) ∧
    (∀ s ∈ (scoreAndSelectTop results top_n oracle).2, s.confidence ≤ 100) := by
  have hfb2 : ∀ s ∈ (scoreAndSelectTop results top_n none).2,
      0 ≤ s.confidence ∧ s.confidence ≤ 100 := by
    intro s hs
    unfold scoreAndSelectTop at hs
    by_cases he : results.isEmpty
    · rw [if_pos he] at hs; simp at hs
    · rw [if_neg he] at hs
      simp only at hs
      rcases List.mem_map.mp hs with ⟨pr, _hpr, hf⟩
      rw [← hf]
      simp only
      constructor
      · exact le_max_left 0 _
      · have : (0 : Int) ≤ 10 * (pr.1 : Int) := by positivity
        rw [max_le_iff]
        omega
  have hllm_top : ∀ content, top_n ≤ 11 →
      ∀ s ∈ (llmTop results top_n content).1, 0 ≤ s.confidence ∧ s.confidence ≤ 100 := by
    intro content htn s hs
    unfold llmTop at hs
    simp only at hs
    rcases List.mem_filterMap.mp hs with ⟨pr, hpr, hg⟩
    have hlt : pr.1 < ((if (parseIndices content results.length).isEmpty then
        List.range (min top_n results.length) else
        parseIndices content results.length).take top_n).length :=
      (List.getElem?_eq_some.mp (List.mem_enum_iff_getElem?.mp hpr)).1
    have hlen : pr.1 < top_n := lt_of_lt_of_le hlt (List.length_take_le _ _)
    cases hget : results.get? pr.2 with
    | none => rw [hget] at hg; exact absurd hg (by simp)
    | some r =>
      rw [hget] at hg
      simp only [Option.some.injEq] at hg
      rw [← hg]
      simp only
      have : pr.1 ≤ 10 := by omega
      constructor <;> [skip; skip] <;> omega
  have hllm_all : ∀ content, ∀ s ∈ (llmTop results top_n content).2, s.confidence ≤ 100 := by
    intro content s hs
    unfold llmTop at hs
    simp only at hs
    rcases List.mem_map.mp hs with ⟨pr, _hpr, hf⟩
    rw [← hf]
    by_cases hc : (if (parseIndices content results.length).isEmpty then
        List.range (min top_n results.length) else
        parseIndices content results.length).contains pr.1
    · rw [if_pos hc]
      have : (0 : Int) ≤ 10 * ((List.indexOf pr.1 (if (parseIndices content
          results.length).isEmpty then List.range (min top_n results.length) else
          parseIndices content results.length)) : Int) := by positivity
      simp only
      omega
    · rw [if_neg hc]
      norm_num
  refine ⟨?_, hfb2, ?_, ?_⟩
  · intro s hs
    unfold scoreAndSelectTop at hs
    by_cases he : results.isEmpty
    · rw [if_pos he] at hs; simp at hs
    · rw [if_neg he] at hs
      simp only at hs
      have hs2 : s ∈ (scoreAndSelectTop results top_n none).2 := by
        unfold scoreAndSelectTop
        rw [if_neg he]
        exact List.mem_of_mem_take hs
      exact hfb2 s hs2
  · intro htn s hs
    unfold scoreAndSelectTop at hs
    by_cases he : results.isEmpty
    · rw [if_pos he] at hs; simp at hs
    · rw [if_neg he] at hs
      cases oracle with
      | some content => exact hllm_top content htn s hs
      | none =>
        simp only at hs
        have hs2 : s ∈ (scoreAndSelectTop results top_n none).2 := by
          unfold scoreAndSelectTop
          rw [if_neg he]
          exact List.mem_of_mem_take hs
        exact hfb2 s hs2
  · intro s hs
    unfold scoreAndSelectTop at hs
    by_cases he : results.isEmpty
    · rw [if_pos he] at hs; simp at hs
    · rw [if_neg he] at hs
      cases oracle with
      | some content => exact hllm_all content s hs
      | none =>
        have hs2 : s ∈ (scoreAndSelectTop results top_n none).2 := by
          unfold scoreAndSelectTop
          rw [if_neg he]
          exact hs
        exact (hfb2 s hs2).2

/-- Witness for the amended C1 on a concrete run: three candidates, response
"2,1,3", default `top_n = 10`. -/
theorem claim_C1_confidence_range_amended_witness :
    ((10 : Nat) ≤ 11) ∧
    (∀ s ∈ (scoreAndSelectTop (List.range 3) 10 (some "2,1,3")).1,
      0 ≤ s.confidence ∧ s.confidence ≤ 100) ∧
    (∀ s ∈ (scoreAndSelectTop (List.range 3) 10 (some "2,1,3")).2, s.confidence ≤ 100) ∧
    (∀ s ∈ (scoreAndSelectTop (List.range 3) 10 (none : Option String)).2,
      0 ≤ s.confidence ∧ s.confidence ≤ 100) :=
  ⟨by decide,
    (claim_C1_confidence_range_amended (List.range 3) 10 (some "2,1,3")).2.2.1 (by decide),
    (claim_C1_confidence_range_amended (List.range 3) 10 (some "2,1,3")).2.2.2,
    (claim_C1_confidence_range_amended (List.range 3) 10 (none : Option String)).2.1⟩

theorem objGet_objSet_ne (kvs : List (String × JVal)) (k k2 : String) (v : JVal)
    (h : k ≠ k2) : objGet (objSet kvs k v) k2 = objGet kvs k2 := by
  induction kvs with
  | nil =>
    simp only [objSet, objGet, List.find?]
    have : ((k, v).1 == k2) = false := by simpa using h
    rw [this]
  | cons kv rest ih =>
    by_cases hk : kv.1 = k
    · simp only [objSet, hk, beq_self_eq_true, if_true]
      simp only [objGet, List.find?]
      have h1 : ((k, v).1 == k2) = false := by simpa using h
      have h2 : (kv.1 == k2) = false := by simp [hk, h]
      rw [h1, h2]
    · have hk2 : (kv.1 == k) = false := by simpa using hk
      simp only [objSet, hk2, if_false]
      by_cases hq : kv.1 = k2
      · simp only [objGet, List.find?, hq, beq_self_eq_true]
      · have hq2 : (kv.1 == k2) = false := by simpa using hq
        simp only [objGet, List.find?, hq2]
        exact ih

theorem objGet_objSet_self (kvs : List (String × JVal)) (k : String) (v : JVal) :
    objGet (objSet kvs k v) k = some v := by
  induction kvs with
  | nil => simp [objSet, objGet, List.find?]
  | cons kv rest ih =>
    by_cases hk : kv.1 = k
    · simp only [objSet, hk, beq_self_eq_true, if_true]
      simp [objGet, List.find?]
    · have hk2 : (kv.1 == k) = false := by simpa using hk
      simp only [objSet, hk2, if_false]
      simp only [objGet, List.find?, hk2]
      exact ih

theorem objGet_dictSetDefault_ne (kvs : List (String × JVal)) (k k2 : String) (v : JVal)
    (h : k ≠ k2) : objGet (dictSetDefault kvs k v) k2 = objGet kvs k2 := by
  unfold dictSetDefault
  cases objGet kvs k with
  | some w => rfl
  | none => exact objGet_objSet_ne kvs k k2 v h

theorem objGet_dictPop_ne (kvs : List (String × JVal)) (k k2 : String) (h : k ≠ k2) :
    objGet (dictPop kvs k) k2 = objGet kvs k2 := by
  induction kvs with
  | nil => rfl
  | cons kv rest ih =>
    by_cases hk : kv.1 = k
    · have : (kv.1 != k) = false := by simp [hk]
      simp only [dictPop, List.filter, this]
      have hq2 : (kv.1 == k2) = false := by simp [hk, h]
      simp only [objGet, List.find?, hq2]
      exact ih
    · have : (kv.1 != k) = true := by simp [hk]
      simp only [dictPop, List.filter, this]
      by_cases hq : kv.1 = k2
      · simp only [objGet, List.find?, hq, beq_self_eq_true]
      · have hq2 : (kv.1 == k2) = false := by simpa using hq
        simp only [objGet, List.find?, hq2]
        exact ih

theorem objGet_dictPop_self (kvs : List (String × JVal)) (k : String) :
    objGet (dictPop kvs k) k = none := by
  induction kvs with
  | nil => rfl
  | cons kv rest ih =>
    by_cases hk : kv.1 = k
    · have : (kv.1 != k) = false := by simp [hk]
      simp only [dictPop, List.filter, this]
      exact ih
    · have h1 : (kv.1 != k) = true := by simp [hk]
      simp only [dictPop, List.filter, h1]
      have hq2 : (kv.1 == k) = false := by simpa using hk
      simp only [objGet, List.find?, hq2]
      exact ih

/-- C5 counterexample: `build_bea_params_with_llm` uses `setdefault`, so a
generated `DatasetName` different from the context's survives; the returned
DatasetName is not forced from the context. -/
theorem claim_C5_counterexample :
    objGet (buildBeaParamsPost [("DatasetName", JVal.str "NIPA")]
      [("DatasetName", JVal.str "WRONG")]) "DatasetName" = some (JVal.str "WRONG") ∧
    "WRONG" ≠ "NIPA" :=
  ⟨rfl, by decide⟩

/-- C5 amended: after parsing, the post-processing injects DatasetName from
the context only when the generated params omit it (and the context carries a
truthy name); if the context carries SelectedTableName and the generated
params omit TableName, TableName is injected with the selected value; and if
both Year and a FirstYear/LastYear range are present, Year is removed in
favor of the range. -/
theorem claim_C5_postprocess_amended (context params0 : List (String × JVal)) :
    (∀ v, objGet params0 "DatasetName" = some v →
      objGet (buildBeaParamsPost context params0) "DatasetName" = some v) ∧
    (objGet params0 "DatasetName" = none →
      truthy (pyOrJ ((objGet context "DatasetName").getD .null)
        ((objGet context "dataset_name").getD .null)) = true →
      objGet (buildBeaParamsPost context params0) "DatasetName" =
        some (pyOrJ ((objGet context "DatasetName").getD .null)
          ((objGet context "dataset_name").getD .null))) ∧
    (∀ w, objGet context "SelectedTableName" = some w → objGet params0 "TableName" = none →
      objGet (buildBeaParamsPost context params0) "TableName" = some w) ∧
    ((objGet params0 "Year").isSome →
      ((objGet params0 "FirstYear").isSome ∨ (objGet params0 "LastYear").isSome) →
      objGet (buildBeaParamsPost context params0) "Year" = none) := by
  unfold buildBeaParamsPost
  have hDT : ("DatasetName" : String) ≠ "TableName" := by decide
  have hDY : ("DatasetName" : String) ≠ "Year" := by decide
  have hTY : ("TableName" : String) ≠ "Year" := by decide
  have hTF : ("TableName" : String) ≠ "FirstYear" := by decide
  have hTL : ("TableName" : String) ≠ "LastYear" := by decide
  have hDF : ("DatasetName" : String) ≠ "FirstYear" := by decide
  have hDL : ("DatasetName" : String) ≠ "LastYear" := by decide
  have hYD : ("Year" : String) ≠ "DatasetName" := by decide
  have hYT : ("Year" : String) ≠ "TableName" := by decide
  set dsv := pyOrJ ((objGet context "DatasetName").getD .null)
    ((objGet context "dataset_name").getD .null) with hdsv
  set p1 := if truthy dsv = true then dictSetDefault params0 "DatasetName" dsv else params0
    with hp1
  have hp1DS : objGet params0 "DatasetName" = none → truthy dsv = true →
      objGet p1 "DatasetName" = some dsv := by
    intro hnone htr
    rw [hp1, if_pos htr]
    unfold dictSetDefault
    rw [hnone]
    exact objGet_objSet_self params0 "DatasetName" dsv
  have hp1DSkeep : ∀ v, objGet params0 "DatasetName" = some v →
      objGet p1 "DatasetName" = some v := by
    intro v hv
    rw [hp1]
    by_cases htr : truthy dsv = true
    · rw [if_pos htr]; unfold dictSetDefault; rw [hv]; exact hv
    · rw [if_neg htr]; exact hv
  have hp1T : objGet p1 "TableName" = objGet params0 "TableName" := by
    rw [hp1]
    by_cases htr : truthy dsv = true
    · rw [if_pos htr]
      exact objGet_dictSetDefault_ne params0 "DatasetName" "TableName" dsv hDT
    · rw [if_neg htr]
  have hp1Y : objGet p1 "Year" = objGet params0 "Year" := by
    rw [hp1]
    by_cases htr : truthy dsv = true
    · rw [if_pos htr]
      exact objGet_dictSetDefault_ne params0 "DatasetName" "Year" dsv hDY
    · rw [if_neg htr]
  have hp1F : objGet p1 "FirstYear" = objGet params0 "FirstYear" := by
    rw [hp1]
    by_cases htr : truthy dsv = true
    · rw [if_pos htr]
      exact objGet_dictSetDefault_ne params0 "DatasetName" "FirstYear" dsv hDF
    · rw [if_neg htr]
  have hp1L : objGet p1 "LastYear" = objGet params0 "LastYear" := by
    rw [hp1]
    by_cases htr : truthy dsv = true
    · rw [if_pos htr]
      exact objGet_dictSetDefault_ne params0 "DatasetName" "LastYear" dsv hDL
    · rw [if_neg htr]
  set p2 := if (objGet context "SelectedTableName").isSome && (objGet p1 "TableName").isNone
    then objSet p1 "TableName" ((objGet context "SelectedTableName").getD .null) else p1
    with hp2
  have hp2DS : objGet p2 "DatasetName" = objGet p1 "DatasetName" := by
    rw [hp2]
    by_cases hcnd : ((objGet context "SelectedTableName").isSome &&
        (objGet p1 "TableName").isNone) = true
    · rw [if_pos hcnd]
      exact objGet_objSet_ne p1 "TableName" "DatasetName" _ (Ne.symm hDT)
    · rw [if_neg hcnd]
  have hp2Y : objGet p2 "Year" = objGet params0 "Year" := by
    rw [hp2]
    by_cases hcnd : ((objGet context "SelectedTableName").isSome &&
        (objGet p1 "TableName").isNone) = true
    · rw [if_pos hcnd, objGet_objSet_ne p1 "TableName" "Year" _ hTY]
      exact hp1Y
    · rw [if_neg hcnd]; exact hp1Y
  have hp2F : objGet p2 "FirstYear" = objGet params0 "FirstYear" := by
    rw [hp2]
    by_cases hcnd : ((objGet context "SelectedTableName").isSome &&
        (objGet p1 "TableName").isNone) = true
    · rw [if_pos hcnd, objGet_objSet_ne p1 "TableName" "FirstYear" _ hTF]
      exact hp1F
    · rw [if_neg hcnd]; exact hp1F
  have hp2L : objGet p2 "LastYear" = objGet params0 "LastYear" := by
    rw [hp2]
    by_cases hcnd : ((objGet context "SelectedTableName").isSome &&
        (objGet p1 "TableName").isNone) = true
    · rw [if_pos hcnd, objGet_objSet_ne p1 "TableName" "LastYear" _ hTL]
      exact hp1L
    · rw [if_neg hcnd]; exact hp1L
  refine ⟨?_, ?_, ?_, ?_⟩
  · intro v hv
    by_cases hcnd : ((objGet p2 "Year").isSome &&
        ((objGet p2 "FirstYear").isSome || (objGet p2 "LastYear").isSome)) = true
    · rw [if_pos hcnd, objGet_dictPop_ne p2 "Year" "DatasetName" hYD, hp2DS]
      exact hp1DSkeep v hv
    · rw [if_neg hcnd, hp2DS]
      exact hp1DSkeep v hv
  · intro hnone htr
    by_cases hcnd : ((objGet p2 "Year").isSome &&
        ((objGet p2 "FirstYear").isSome || (objGet p2 "LastYear").isSome)) = true
    · rw [if_pos hcnd, objGet_dictPop_ne p2 "Year" "DatasetName" hYD, hp2DS]
      exact hp1DS hnone htr
    · rw [if_neg hcnd, hp2DS]
      exact hp1DS hnone htr
  · intro w hw hnone
    have hp2T : objGet p2 "TableName" = some w := by
      rw [hp2]
      have hcnd : ((objGet context "SelectedTableName").isSome &&
          (objGet p1 "TableName").isNone) = true := by
        rw [hw, hp1T, hnone]; rfl
      rw [if_pos hcnd, objGet_objSet_self, hw]
      rfl
    by_cases hcnd : ((objGet p2 "Year").isSome &&
        ((objGet p2 "FirstYear").isSome || (objGet p2 "LastYear").isSome)) = true
    · rw [if_pos hcnd, objGet_dictPop_ne p2 "Year" "TableName" hYT]
      exact hp2T
    · rw [if_neg hcnd]
      exact hp2T
  · intro hY hFL
    have hcnd : ((objGet p2 "Year").isSome &&
        ((objGet p2 "FirstYear").isSome || (objGet p2 "LastYear").isSome)) = true := by
      rw [hp2Y, hp2F, hp2L]
      rcases hFL with h | h
      · simp [hY, h]
      · simp [hY, h]
    rw [if_pos hcnd]
    exact objGet_dictPop_self p2 "Year"

/-- Witness for the amended C5 at a concrete input: context with DatasetName
"NIPA" and SelectedTableName "T1", generated params with Year and FirstYear. -/
theorem claim_C5_postprocess_amended_witness :
    (objGet [(("Year" : String), JVal.str "2020"), ("FirstYear", JVal.str "2019")]
        "DatasetName" = none ∧
      objGet (buildBeaParamsPost
        [("DatasetName", JVal.str "NIPA"), ("SelectedTableName", JVal.str "T1")]
        [("Year", JVal.str "2020"), ("FirstYear", JVal.str "2019")]) "DatasetName" =
        some (pyOrJ ((objGet [(("DatasetName" : String), JVal.str "NIPA"),
          ("SelectedTableName", JVal.str "T1")] "DatasetName").getD .null)
          ((objGet [(("DatasetName" : String), JVal.str "NIPA"),
          ("SelectedTableName", JVal.str "T1")] "dataset_name").getD .null))) ∧
    (objGet (buildBeaParamsPost
        [("DatasetName", JVal.str "NIPA"), ("SelectedTableName", JVal.str "T1")]
        [("Year", JVal.str "2020"), ("FirstYear", JVal.str "2019")]) "TableName" =
      some (JVal.str "T1")) ∧
    (objGet (buildBeaParamsPost
        [("DatasetName", JVal.str "NIPA"), ("SelectedTableName", JVal.str "T1")]
        [("Year", JVal.str "2020"), ("FirstYear", JVal.str "2019")]) "Year" = none) :=
  ⟨⟨rfl, (claim_C5_postprocess_amended
      [("DatasetName", JVal.str "NIPA"), ("SelectedTableName", JVal.str "T1")]
      [("Year", JVal.str "2020"), ("FirstYear", JVal.str "2019")]).2.1 rfl (by rfl)⟩,
    (claim_C5_postprocess_amended
      [("DatasetName", JVal.str "NIPA"), ("SelectedTableName", JVal.str "T1")]
      [("Year", JVal.str "2020"), ("FirstYear", JVal.str "2019")]).2.2.1
      (JVal.str "T1") rfl rfl,
    (claim_C5_postprocess_amended
      [("DatasetName", JVal.str "NIPA"), ("SelectedTableName", JVal.str "T1")]
      [("Year", JVal.str "2020"), ("FirstYear", JVal.str "2019")]).2.2.2
      (by rfl) (Or.inl (by rfl))⟩


theorem collectYears_all_some (vs : List JVal)
    (hsimple : ∀ v ∈ vs, simpleYearEntry v = true)
    (hsome : ∀ v ∈ vs, (yearOf v).isSome = true) :
    collectYears vs = some (vs.filterMap yearOf) := by
  induction vs with
  | nil => rfl
  | cons v rest ih =>
    have hv := hsimple v (List.mem_cons_self _ _)
    have hs := hsome v (List.mem_cons_self _ _)
    cases v with
    | obj w =>
      simp only [simpleYearEntry] at hv
      simp only [yearOf] at hs
      cases hy : pyIntOfVal (yearKeyVal w) with
      | none => rw [hy] at hs; simp at hs
      | some y =>
        have ihr := ih (fun x hx => hsimple x (List.mem_cons_of_mem _ hx))
          (fun x hx => hsome x (List.mem_cons_of_mem _ hx))
        simp only [collectYears, hv, if_true, hy, ihr]
        rw [List.filterMap_cons]
        simp [yearOf, hy]
    | str s => simp [simpleYearEntry] at hv
    | num n => simp [simpleYearEntry] at hv
    | bool b => simp [simpleYearEntry] at hv
    | null => simp [simpleYearEntry] at hv
    | arr l => simp [simpleYearEntry] at hv

theorem collectYears_fail (vs : List JVal)
    (hsimple : ∀ v ∈ vs, simpleYearEntry v = true)
    (hnot : ¬ ∀ v ∈ vs, (yearOf v).isSome = true) :
    collectYears vs = none := by
  induction vs with
  | nil => exact absurd (by simp) hnot
  | cons v rest ih =>
    have hv := hsimple v (List.mem_cons_self _ _)
    cases v with
    | obj w =>
      simp only [simpleYearEntry] at hv
      cases hy : pyIntOfVal (yearKeyVal w) with
      | none => simp only [collectYears, hv, if_true, hy]
      | some y =>
        have hrest : ¬ ∀ x ∈ rest, (yearOf x).isSome = true := by
          intro hall
          exact hnot (by
            intro x hx
            rcases List.mem_cons.mp hx with h1 | h2
            · rw [h1]; simp [yearOf, hy]
            · exact hall x h2)
        have ihr := ih (fun x hx => hsimple x (List.mem_cons_of_mem _ hx)) hrest
        simp only [collectYears, hv, if_true, hy, ihr]
    | str s => simp [simpleYearEntry] at hv
    | num n => simp [simpleYearEntry] at hv
    | bool b => simp [simpleYearEntry] at hv
    | null => simp [simpleYearEntry] at hv
    | arr l => simp [simpleYearEntry] at hv

theorem anyHasTableName_simple (vs : List JVal)
    (hsimple : ∀ v ∈ vs, simpleYearEntry v = true) :
    anyHasTableName vs = false := by
  unfold anyHasTableName
  rw [List.any_eq_false]
  intro v hv
  have h := hsimple v hv
  cases v with
  | obj w =>
    simp only [simpleYearEntry] at h
    have : objGet w "TableName" = none := by
      unfold objGet
      rw [List.find?_eq_none.mpr]
      intro kv hkv
      have := List.all_eq_true.mp h kv hkv
      rcases (Bool.or_eq_true _ _).mp this with h1 | h1
      · simp only [beq_iff_eq] at h1 ⊢
        rw [h1]; decide
      · simp only [beq_iff_eq] at h1 ⊢
        rw [h1]; decide
    simp [this]
  | str s => simp
  | num n => simp
  | bool b => simp
  | null => simp
  | arr l => simp


theorem procParam_year_eval (tbl : String) (fe : Bool)
    (kvs : List (String × JVal)) (vs : List JVal)
    (hname : paramNameLower kvs = .ok "year")
    (hvals : objGet kvs "Values" = some (.arr vs))
    (hne : vs ≠ [])
    (hany : anyHasTableName vs = false) :
    procParam tbl fe (.obj kvs) =
      .ok (.obj (match collectYears vs with
        | some (y :: ys) => objSet kvs "Values" (.arr (yearBounds y ys))
        | some [] => kvs
        | none => kvs)) := by
  have hemp : vs.isEmpty = false := by
    cases vs with
    | nil => exact absurd rfl hne
    | cons a l => rfl
  unfold procParam
  simp only [asObj, Bind.bind, Except.bind, hvals, Option.getD, hname, truthy, hemp,
    Bool.not_false, Bool.not_true, if_false, iterElems, hany, Bool.false_and, Bool.and_false]
  cases hcy : collectYears vs with
  | none => simp only [hcy]; rfl
  | some ys =>
    cases ys with
    | nil => simp only [hcy]; rfl
    | cons y ys2 => simp only [hcy]; rfl

/-- C2 counterexample: a Year value entry carrying only a Desc (no Key at
all) still collapses — `get_query_builder_context` falls back from Key to
Desc — so "the Year parameter collapses if and only if every value entry is
a simple Key/Desc dict whose key parses as an integer" is false as stated. -/
theorem claim_C2_counterexample :
    getQueryBuilderContext "D" "T"
      [JVal.obj [("DatasetName", JVal.str "D"),
        ("Parameters", JVal.arr [JVal.obj [("ParameterName", JVal.str "Year"),
          ("Values", JVal.arr [JVal.obj [("Desc", JVal.str "2015")]])]])]] false =
      .ok (JVal.obj [("DatasetName", JVal.str "D"),
        ("Parameters", JVal.arr [JVal.obj [("ParameterName", JVal.str "Year"),
          ("Values", JVal.arr [JVal.obj [("MinYear", JVal.str "2015")],
            JVal.obj [("MaxYear", JVal.str "2015")]])]]),
        ("SelectedTableName", JVal.str "T")]) ∧
    objGet [("Desc", JVal.str "2015")] "Key" = none :=
  ⟨by rfl, rfl⟩

/-- C2 amended: for a Year parameter whose value entries are all simple
Key/Desc dicts (keys a subset of Key/Desc), the value list collapses if and
only if every entry's Key — or its Desc when Key is absent or falsy — parses
as an integer; when it collapses it becomes exactly
`[{"MinYear": str(min)}, {"MaxYear": str(max)}]` over the parsed years, and
otherwise the original enumerated list is returned unchanged,
element-for-element.  (Entries bearing other fields, such as TableName, may
instead be filtered by the table-scoping step.) -/
theorem claim_C2_year_collapse_amended (tbl : String) (fe : Bool)
    (kvs : List (String × JVal)) (vs : List JVal)
    (hname : paramNameLower kvs = .ok "year")
    (hvals : objGet kvs "Values" = some (.arr vs))
    (hne : vs ≠ [])
    (hsimple : ∀ v ∈ vs, simpleYearEntry v = true) :
    ((∀ v ∈ vs, (yearOf v).isSome = true) →
      procParam tbl fe (.obj kvs) =
        .ok (.obj (objSet kvs "Values" (.arr (yearBoundsOf vs))))) ∧
    ((¬ ∀ v ∈ vs, (yearOf v).isSome = true) →
      procParam tbl fe (.obj kvs) = .ok (.obj kvs)) := by
  have hany := anyHasTableName_simple vs hsimple
  have heval := procParam_year_eval tbl fe kvs vs hname hvals hne hany
  constructor
  · intro hall
    have hcy := collectYears_all_some vs hsimple hall
    rw [heval, hcy]
    cases hfm : vs.filterMap yearOf with
    | nil =>
      cases vs with
      | nil => exact absurd rfl hne
      | cons v rest =>
        have hv := hall v (List.mem_cons_self _ _)
        cases hyv : yearOf v with
        | none => rw [hyv] at hv; simp at hv
        | some y =>
          rw [List.filterMap_cons, hyv] at hfm
          simp at hfm
    | cons y ys =>
      have : yearBoundsOf vs = yearBounds y ys := by
        unfold yearBoundsOf
        rw [hfm]
      rw [this]
  · intro hnot
    have hcy := collectYears_fail vs hsimple hnot
    rw [heval, hcy]

/-- Witness for the amended C2 at the spec scenario: Year keys 2015–2023
collapse to `[{"MinYear":"2015"},{"MaxYear":"2023"}]`. -/
theorem claim_C2_year_collapse_amended_witness :
    (∀ v ∈ [JVal.obj [("Key", JVal.str "2015")], JVal.obj [("Key", JVal.str "2016")],
        JVal.obj [("Key", JVal.str "2017")], JVal.obj [("Key", JVal.str "2018")],
        JVal.obj [("Key", JVal.str "2019")], JVal.obj [("Key", JVal.str "2020")],
        JVal.obj [("Key", JVal.str "2021")], JVal.obj [("Key", JVal.str "2022")],
        JVal.obj [("Key", JVal.str "2023")]], simpleYearEntry v = true) ∧
    (∀ v ∈ [JVal.obj [("Key", JVal.str "2015")], JVal.obj [("Key", JVal.str "2016")],
        JVal.obj [("Key", JVal.str "2017")], JVal.obj [("Key", JVal.str "2018")],
        JVal.obj [("Key", JVal.str "2019")], JVal.obj [("Key", JVal.str "2020")],
        JVal.obj [("Key", JVal.str "2021")], JVal.obj [("Key", JVal.str "2022")],
        JVal.obj [("Key", JVal.str "2023")]], (yearOf v).isSome = true) ∧
    procParam "T10101" false
      (.obj [("ParameterName", JVal.str "Year"),
        ("Values", JVal.arr [JVal.obj [("Key", JVal.str "2015")],
          JVal.obj [("Key", JVal.str "2016")], JVal.obj [("Key", JVal.str "2017")],
          JVal.obj [("Key", JVal.str "2018")], JVal.obj [("Key", JVal.str "2019")],
          JVal.obj [("Key", JVal.str "2020")], JVal.obj [("Key", JVal.str "2021")],
          JVal.obj [("Key", JVal.str "2022")], JVal.obj [("Key", JVal.str "2023")]])]) =
      .ok (.obj [("ParameterName", JVal.str "Year"),
        ("Values", JVal.arr [JVal.obj [("MinYear", JVal.str "2015")],
          JVal.obj [("MaxYear", JVal.str "2023")]])]) := by
  refine ⟨by decide, by decide, ?_⟩
  have h := (claim_C2_year_collapse_amended "T10101" false
    [("ParameterName", JVal.str "Year"),
      ("Values", JVal.arr [JVal.obj [("Key", JVal.str "2015")],
        JVal.obj [("Key", JVal.str "2016")], JVal.obj [("Key", JVal.str "2017")],
        JVal.obj [("Key", JVal.str "2018")], JVal.obj [("Key", JVal.str "2019")],
        JVal.obj [("Key", JVal.str "2020")], JVal.obj [("Key", JVal.str "2021")],
        JVal.obj [("Key", JVal.str "2022")], JVal.obj [("Key", JVal.str "2023")]])]
    [JVal.obj [("Key", JVal.str "2015")], JVal.obj [("Key", JVal.str "2016")],
      JVal.obj [("Key", JVal.str "2017")], JVal.obj [("Key", JVal.str "2018")],
      JVal.obj [("Key", JVal.str "2019")], JVal.obj [("Key", JVal.str "2020")],
      JVal.obj [("Key", JVal.str "2021")], JVal.obj [("Key", JVal.str "2022")],
      JVal.obj [("Key", JVal.str "2023")]]
    (by rfl) (by rfl) (List.cons_ne_nil _ _) (by decide)).1 (by decide)
  rw [h]
  rfl


theorem pyEqStr_iff (v : JVal) (s : String) : pyEqStr v s = true ↔ v = .str s := by
  cases v <;> simp [pyEqStr]

theorem dsMatches_obj_iff (name : String) (kvs : List (String × JVal)) :
    dsMatches name (JVal.obj kvs) = true ↔ objGet kvs "DatasetName" = some (.str name) := by
  unfold dsMatches
  rw [pyEqStr_iff]
  cases h : objGet kvs "DatasetName" with
  | none => simp
  | some v => simp

theorem findMatching_objs (name : String) (cat : List JVal)
    (hobj : ∀ d ∈ cat, d.isObj = true) :
    findMatching name cat = .ok (cat.filter (dsMatches name)) := by
  induction cat with
  | nil => rfl
  | cons d ds ih =>
    have hd := hobj d (List.mem_cons_self _ _)
    cases d with
    | obj kvs =>
      have ihr := ih (fun x hx => hobj x (List.mem_cons_of_mem _ hx))
      simp only [findMatching, asObj, Bind.bind, Except.bind, ihr, List.filter]
      cases hm : dsMatches name (JVal.obj kvs) with
      | true =>
        have : pyEqStr ((objGet kvs "DatasetName").getD .null) name = true := hm
        simp [this]
      | false =>
        have : pyEqStr ((objGet kvs "DatasetName").getD .null) name = false := hm
        simp [this]
    | str s => simp [JVal.isObj] at hd
    | num n => simp [JVal.isObj] at hd
    | bool b => simp [JVal.isObj] at hd
    | null => simp [JVal.isObj] at hd
    | arr l => simp [JVal.isObj] at hd

theorem filter_of_find? {α : Type} (p : α → Bool) (l : List α) (a : α)
    (h : l.find? p = some a) : ∃ rest, l.filter p = a :: rest := by
  induction l with
  | nil => simp [List.find?] at h
  | cons x xs ih =>
    cases hp : p x with
    | true =>
      rw [List.find?_cons_of_pos _ hp] at h
      simp only [Option.some.injEq] at h
      subst h
      exact ⟨xs.filter p, by simp [List.filter, hp]⟩
    | false =>
      rw [List.find?_cons_of_neg _ (by simp [hp])] at h
      obtain ⟨rest, hr⟩ := ih h
      exact ⟨rest, by simp [List.filter, hp, hr]⟩

theorem pyLowerStr_ne_notFound (v : JVal) : pyLowerStr v ≠ .error .notFound := by
  cases v <;> simp [pyLowerStr]

theorem iterElems_ne_notFound (v : JVal) : iterElems v ≠ .error .notFound := by
  cases v <;> simp [iterElems]

theorem keepParam_ne_notFound (fe : Bool) (p : JVal) : keepParam fe p ≠ .error .notFound := by
  cases p <;> simp only [keepParam, asObj, Bind.bind, Except.bind] <;> try simp
  case obj kvs =>
    unfold paramNameLower
    cases h : pyLowerStr ((objGet kvs "ParameterName").getD (.str "")) with
    | error e =>
      have h2 := pyLowerStr_ne_notFound ((objGet kvs "ParameterName").getD (.str ""))
      rw [h] at h2
      simp only [ne_eq, Except.error.injEq] at h2
      simp [h2]
    | ok s => simp


theorem filterLineCode_ne_notFound (tbl : String) (vs : List JVal) :
    filterLineCode tbl vs ≠ .error .notFound := by
  induction vs with
  | nil => simp [filterLineCode]
  | cons v rest ih =>
    cases v with
    | obj kvs =>
      simp only [filterLineCode, Bind.bind, Except.bind]
      cases h : pyLowerStr ((objGet kvs "Desc").getD (.str "")) with
      | error e =>
        have h2 := pyLowerStr_ne_notFound ((objGet kvs "Desc").getD (.str ""))
        rw [h] at h2
        simp only [ne_eq, Except.error.injEq] at h2
        simp [h2]
      | ok d =>
        cases hr : filterLineCode tbl rest with
        | error e =>
          rw [hr] at ih
          simp only [ne_eq, Except.error.injEq] at ih
          simp [ih]
        | ok l => simp
    | str s =>
      simp only [filterLineCode, Bind.bind, Except.bind]
      cases hr : filterLineCode tbl rest with
      | error e =>
        rw [hr] at ih
        simp only [ne_eq, Except.error.injEq] at ih
        simp [ih]
      | ok l => simp
    | num n =>
      simp only [filterLineCode, Bind.bind, Except.bind]
      cases hr : filterLineCode tbl rest with
      | error e =>
        rw [hr] at ih
        simp only [ne_eq, Except.error.injEq] at ih
        simp [ih]
      | ok l => simp
    | bool b =>
      simp only [filterLineCode, Bind.bind, Except.bind]
      cases hr : filterLineCode tbl rest with
      | error e =>
        rw [hr] at ih
        simp only [ne_eq, Except.error.injEq] at ih
        simp [ih]
      | ok l => simp
    | null =>
      simp only [filterLineCode, Bind.bind, Except.bind]
      cases hr : filterLineCode tbl rest with
      | error e =>
        rw [hr] at ih
        simp only [ne_eq, Except.error.injEq] at ih
        simp [ih]
      | ok l => simp
    | arr l2 =>
      simp only [filterLineCode, Bind.bind, Except.bind]
      cases hr : filterLineCode tbl rest with
      | error e =>
        rw [hr] at ih
        simp only [ne_eq, Except.error.injEq] at ih
        simp [ih]
      | ok l => simp

theorem filterParams_ne_notFound (fe : Bool) (ps : List JVal) :
    filterParams fe ps ≠ .error .notFound := by
  induction ps with
  | nil => simp [filterParams]
  | cons p rest ih =>
    simp only [filterParams, Bind.bind, Except.bind]
    cases h : keepParam fe p with
    | error e =>
      have h2 := keepParam_ne_notFound fe p
      rw [h] at h2
      simp only [ne_eq, Except.error.injEq] at h2
      simp [h2]
    | ok b =>
      cases hr : filterParams fe rest with
      | error e =>
        rw [hr] at ih
        simp only [ne_eq, Except.error.injEq] at ih
        simp [ih]
      | ok l => simp

theorem procParam_ne_notFound (tbl : String) (fe : Bool) (p : JVal) :
    procParam tbl fe p ≠ .error .notFound := by
  cases p with
  | obj kvs =>
    simp only [procParam, asObj, Bind.bind, Except.bind]
    by_cases ht : truthy ((objGet kvs "Values").getD .null) = true
    · simp only [ht, Bool.not_true, Bool.false_eq_true, if_false]
      unfold paramNameLower
      cases h : pyLowerStr ((objGet kvs "ParameterName").getD (.str "")) with
      | error e =>
        have h2 := pyLowerStr_ne_notFound ((objGet kvs "ParameterName").getD (.str ""))
        rw [h] at h2
        simp only [ne_eq, Except.error.injEq] at h2
        simp [h2]
      | ok pn =>
        by_cases hg : (pn == "geofips" && fe) = true
        · simp [hg]
        · simp only [hg, if_false]
          by_cases htab : (pn == "tablename" || pn == "tableid") = true
          · simp only [htab, if_true]
            cases hi : iterElems ((objGet kvs "Values").getD .null) with
            | error e =>
              have h2 := iterElems_ne_notFound ((objGet kvs "Values").getD .null)
              rw [hi] at h2
              simp only [ne_eq, Except.error.injEq] at h2
              simp [h2]
            | ok vs => simp
          · simp only [htab, Bool.false_eq_true, if_false]
            cases hi : iterElems ((objGet kvs "Values").getD .null) with
            | error e =>
              have h2 := iterElems_ne_notFound ((objGet kvs "Values").getD .null)
              rw [hi] at h2
              simp only [ne_eq, Except.error.injEq] at h2
              simp [h2]
            | ok vs =>
              by_cases hlc : (pn == "linecode") = true
              · simp only [hlc, if_true]
                cases hf : filterLineCode tbl vs with
                | error e =>
                  have h2 := filterLineCode_ne_notFound tbl vs
                  rw [hf] at h2
                  simp only [ne_eq, Except.error.injEq] at h2
                  simp [h2]
                | ok nv => simp [pure, Except.pure]
              · simp only [hlc, Bool.false_eq_true, if_false]
                simp [pure, Except.pure]
    · simp only [ht]
      simp
  | str s => simp [procParam, asObj, Bind.bind, Except.bind]
  | num n => simp [procParam, asObj, Bind.bind, Except.bind]
  | bool b => simp [procParam, asObj, Bind.bind, Except.bind]
  | null => simp [procParam, asObj, Bind.bind, Except.bind]
  | arr l => simp [procParam, asObj, Bind.bind, Except.bind]

theorem procParams_ne_notFound (tbl : String) (fe : Bool) (ps : List JVal) :
    procParams tbl fe ps ≠ .error .notFound := by
  induction ps with
  | nil => simp [procParams]
  | cons p rest ih =>
    simp only [procParams, Bind.bind, Except.bind]
    cases h : procParam tbl fe p with
    | error e =>
      have h2 := procParam_ne_notFound tbl fe p
      rw [h] at h2
      simp only [ne_eq, Except.error.injEq] at h2
      simp [h2]
    | ok q =>
      cases hr : procParams tbl fe rest with
      | error e =>
        rw [hr] at ih
        simp only [ne_eq, Except.error.injEq] at ih
        simp [ih]
      | ok l => simp


theorem gqbc_eval (name tbl : String) (cat : List JVal) (fe : Bool)
    (hobj : ∀ d ∈ cat, d.isObj = true) :
    getQueryBuilderContext name tbl cat fe =
      (match cat.filter (dsMatches name) with
       | [] => .error .notFound
       | d :: _ =>
         if tbl == "" then .ok d
         else do
           let kvs ← asObj d
           let ps ← iterElems ((objGet kvs "Parameters").getD (.arr []))
           let filtered ← filterParams fe ps
           let processed ← procParams tbl fe filtered
           .ok (.obj (objSet (objSet kvs "Parameters" (.arr processed))
             "SelectedTableName" (.str tbl)))) := by
  unfold getQueryBuilderContext
  rw [findMatching_objs name cat hobj]
  rfl

theorem procParam_eval_falsy (tbl : String) (fe : Bool) (kvs : List (String × JVal))
    (ht : truthy ((objGet kvs "Values").getD .null) = false) :
    procParam tbl fe (.obj kvs) = .ok (.obj kvs) := by
  unfold procParam
  simp only [asObj, Bind.bind, Except.bind]
  rw [if_pos (by rw [ht]; rfl)]

theorem procParam_eval_geofips (tbl : String) (fe : Bool) (kvs : List (String × JVal))
    (pn : String)
    (ht : truthy ((objGet kvs "Values").getD .null) = true)
    (hpn : paramNameLower kvs = .ok pn)
    (hgeo : (pn == "geofips" && fe) = true) :
    procParam tbl fe (.obj kvs) = .ok (.obj (objSet (objSet kvs "Values" (.arr []))
      "Values-Note" (.str "Too many GeoFIPS values to list; omitted for evaluation."))) := by
  unfold procParam
  simp only [asObj, Bind.bind, Except.bind, hpn]
  rw [if_neg (by rw [ht]; simp), if_pos hgeo]

theorem procParam_eval_tableparam (tbl : String) (fe : Bool) (kvs : List (String × JVal))
    (pn : String) (vs : List JVal)
    (hg : objGet kvs "Values" = some (.arr vs))
    (hne : vs ≠ [])
    (hpn : paramNameLower kvs = .ok pn)
    (hgeo : (pn == "geofips" && fe) = false)
    (htab : (pn == "tablename" || pn == "tableid") = true) :
    procParam tbl fe (.obj kvs) = .ok (.obj (objSet (objSet kvs "Values"
      (.arr (filterTableParam tbl vs)))
      "Values-Note" (.str "Table parameter filtered to the selected table."))) := by
  have hemp : vs.isEmpty = false := by
    cases vs with
    | nil => exact absurd rfl hne
    | cons a l => rfl
  unfold procParam
  simp only [asObj, Bind.bind, Except.bind, hpn, hg, Option.getD, truthy, hemp,
    Bool.not_false, iterElems]
  rw [if_neg (by simp), if_neg (by rw [hgeo]; simp), if_pos htab]

theorem procParam_eval_rest (tbl : String) (fe : Bool) (kvs : List (String × JVal))
    (pn : String) (vs : List JVal) (nv : List JVal)
    (hg : objGet kvs "Values" = some (.arr vs))
    (hne : vs ≠ [])
    (hpn : paramNameLower kvs = .ok pn)
    (hgeo : (pn == "geofips" && fe) = false)
    (htab : (pn == "tablename" || pn == "tableid") = false)
    (hlc : filterLineCode tbl vs = .ok nv) :
    procParam tbl fe (.obj kvs) = .ok (.obj (
      if pn == "year" then
        match collectYears vs with
        | some (y :: ys) =>
          objSet (if pn == "linecode" then
              objSet (if anyHasTableName vs then
                  objSet kvs "Values" (.arr (filterByTableName tbl vs)) else kvs)
                "Values" (.arr nv)
            else (if anyHasTableName vs then
                objSet kvs "Values" (.arr (filterByTableName tbl vs)) else kvs))
            "Values" (.arr (yearBounds y ys))
        | some [] =>
          (if pn == "linecode" then
            objSet (if anyHasTableName vs then
                objSet kvs "Values" (.arr (filterByTableName tbl vs)) else kvs)
              "Values" (.arr nv)
          else (if anyHasTableName vs then
              objSet kvs "Values" (.arr (filterByTableName tbl vs)) else kvs))
        | none =>
          (if pn == "linecode" then
            objSet (if anyHasTableName vs then
                objSet kvs "Values" (.arr (filterByTableName tbl vs)) else kvs)
              "Values" (.arr nv)
          else (if anyHasTableName vs then
              objSet kvs "Values" (.arr (filterByTableName tbl vs)) else kvs))
      else
        (if pn == "linecode" then
          objSet (if anyHasTableName vs then
              objSet kvs "Values" (.arr (filterByTableName tbl vs)) else kvs)
            "Values" (.arr nv)
        else (if anyHasTableName vs then
            objSet kvs "Values" (.arr (filterByTableName tbl vs)) else kvs)))) := by
  have hemp : vs.isEmpty = false := by
    cases vs with
    | nil => exact absurd rfl hne
    | cons a l => rfl
  unfold procParam
  simp only [asObj, Bind.bind, Except.bind, hpn, hg, Option.getD, truthy, hemp,
    Bool.not_false, iterElems]
  rw [if_neg (by simp), if_neg (by rw [hgeo]; simp), if_neg (by rw [htab]; simp)]
  by_cases hlcn : (pn == "linecode") = true
  · simp only [hlcn, if_true, hlc, pure, Except.pure]
    by_cases hyr : (pn == "year") = true
    · simp only [hyr, if_true]
      cases hcy : collectYears vs with
      | none => simp only [hcy]
      | some ys =>
        cases ys with
        | nil => simp only [hcy]
        | cons y ys2 => simp only [hcy]
    · simp only [hyr, Bool.false_eq_true, if_false]
  · simp only [hlcn, Bool.false_eq_true, if_false, pure, Except.pure]
    by_cases hyr : (pn == "year") = true
    · simp only [hyr, if_true]
      cases hcy : collectYears vs with
      | none => simp only [hcy]
      | some ys =>
        cases ys with
        | nil => simp only [hcy]
        | cons y ys2 => simp only [hcy]
    · simp only [hyr, Bool.false_eq_true, if_false]


theorem filterLineCode_ok (tbl : String) (vs : List JVal)
    (h : ∀ v ∈ vs, valueDescOK v = true) :
    ∃ nv, filterLineCode tbl vs = .ok nv := by
  induction vs with
  | nil => exact ⟨[], rfl⟩
  | cons v rest ih =>
    obtain ⟨nv, hr⟩ := ih (fun x hx => h x (List.mem_cons_of_mem _ hx))
    cases v with
    | obj w =>
      have hv := h _ (List.mem_cons_self _ _)
      simp only [valueDescOK] at hv
      have hd : ∃ s, pyLowerStr ((objGet w "Desc").getD (.str "")) = .ok s := by
        cases hg : objGet w "Desc" with
        | none => exact ⟨lowerString "", rfl⟩
        | some dv =>
          rw [hg] at hv
          cases dv with
          | str s => exact ⟨lowerString s, rfl⟩
          | num n => simp at hv
          | bool b => simp at hv
          | null => simp at hv
          | arr l => simp at hv
          | obj l => simp at hv
      obtain ⟨s, hs⟩ := hd
      refine ⟨if (("[" ++ lowerString tbl ++ "]").toList).isPrefixOf s.toList
        then .obj w :: nv else nv, ?_⟩
      simp only [filterLineCode, Bind.bind, Except.bind, hs, hr]
    | str s2 => exact ⟨nv, by simp only [filterLineCode, Bind.bind, Except.bind, hr]⟩
    | num n => exact ⟨nv, by simp only [filterLineCode, Bind.bind, Except.bind, hr]⟩
    | bool b => exact ⟨nv, by simp only [filterLineCode, Bind.bind, Except.bind, hr]⟩
    | null => exact ⟨nv, by simp only [filterLineCode, Bind.bind, Except.bind, hr]⟩
    | arr l => exact ⟨nv, by simp only [filterLineCode, Bind.bind, Except.bind, hr]⟩

theorem paramNameLower_wf (pkvs : List (String × JVal))
    (h : (match objGet pkvs "ParameterName" with
     | some (.str _) => true
     | none => true
     | some _ => false) = true) :
    ∃ pn, paramNameLower pkvs = .ok pn := by
  unfold paramNameLower
  cases hg : objGet pkvs "ParameterName" with
  | none => exact ⟨lowerString "", rfl⟩
  | some v =>
    rw [hg] at h
    cases v with
    | str s => exact ⟨lowerString s, rfl⟩
    | num n => simp at h
    | bool b => simp at h
    | null => simp at h
    | arr l => simp at h
    | obj l => simp at h

theorem procParam_wf_ok (tbl : String) (fe : Bool) (pkvs : List (String × JVal))
    (hwf : paramWF (.obj pkvs) = true) :
    ∃ qkvs, procParam tbl fe (.obj pkvs) = .ok (.obj qkvs) ∧
      objGet qkvs "ParameterName" = objGet pkvs "ParameterName" ∧
      (∀ pn2, paramNameLower pkvs = .ok pn2 →
        (pn2 == "tablename" || pn2 == "tableid") = true →
        (∀ vs, objGet pkvs "Values" = some (.arr vs) → filterTableParam tbl vs = []) →
        ∀ vs2, objGet qkvs "Values" = some (.arr vs2) → vs2 = []) := by
  have presV : ∀ (kvs : List (String × JVal)) (v : JVal),
      objGet (objSet kvs "Values" v) "ParameterName" = objGet kvs "ParameterName" :=
    fun kvs v => objGet_objSet_ne kvs "Values" "ParameterName" v (by decide)
  have presN : ∀ (kvs : List (String × JVal)) (v : JVal),
      objGet (objSet kvs "Values-Note" v) "ParameterName" = objGet kvs "ParameterName" :=
    fun kvs v => objGet_objSet_ne kvs "Values-Note" "ParameterName" v (by decide)
  have hwf2 := hwf
  simp only [paramWF, Bool.and_eq_true] at hwf2
  obtain ⟨hn, hv⟩ := hwf2
  obtain ⟨pn, hpn⟩ := paramNameLower_wf pkvs hn
  have hdetname : ∀ pn2, paramNameLower pkvs = .ok pn2 → pn2 = pn := by
    intro pn2 h2
    rw [hpn] at h2
    injection h2 with h3
    exact h3.symm
  by_cases ht : truthy ((objGet pkvs "Values").getD .null) = true
  case neg =>
    refine ⟨pkvs, procParam_eval_falsy tbl fe pkvs (by simpa using ht), rfl, ?_⟩
    intro pn2 hpn2 htab2 hnm vs2 hvs2
    rw [hvs2] at ht
    simp only [Option.getD, truthy] at ht
    rcases vs2 with _ | ⟨a, l⟩
    · rfl
    · simp at ht
  case pos =>
    have hvals : ∃ vs, objGet pkvs "Values" = some (.arr vs) ∧
        ∀ v ∈ vs, valueDescOK v = true := by
      cases hg : objGet pkvs "Values" with
      | none => rw [hg] at ht; simp [truthy] at ht
      | some w =>
        rw [hg] at hv
        cases w with
        | arr vs => exact ⟨vs, rfl, fun v hx => List.all_eq_true.mp hv v hx⟩
        | str s => simp at hv
        | num n => simp at hv
        | bool b => simp at hv
        | null => simp at hv
        | obj l => simp at hv
    obtain ⟨vs, hg, hdesc⟩ := hvals
    have hne : vs ≠ [] := by
      intro hnil
      rw [hg, hnil] at ht
      simp [truthy] at ht
    by_cases hgeo : (pn == "geofips" && fe) = true
    · refine ⟨_, procParam_eval_geofips tbl fe pkvs pn ht hpn hgeo, by simp only [presN, presV], ?_⟩
      intro pn2 hpn2 htab2 hnm vs2 hvs2
      rw [objGet_objSet_ne _ _ _ _ (by decide), objGet_objSet_self] at hvs2
      simpa using hvs2.symm
    · by_cases htab : (pn == "tablename" || pn == "tableid") = true
      · refine ⟨_, procParam_eval_tableparam tbl fe pkvs pn vs hg hne hpn
          (by simpa using hgeo) htab, by simp only [presN, presV], ?_⟩
        intro pn2 hpn2 htab2 hnm vs2 hvs2
        rw [objGet_objSet_ne _ _ _ _ (by decide), objGet_objSet_self, hnm vs hg] at hvs2
        simpa using hvs2.symm
      · obtain ⟨nv, hlc⟩ := filterLineCode_ok tbl vs hdesc
        have heval := procParam_eval_rest tbl fe pkvs pn vs nv hg hne hpn
          (by simpa using hgeo) (by simpa using htab) hlc
        refine ⟨_, heval, ?_, ?_⟩
        · by_cases hyr : (pn == "year") = true
          · simp only [hyr, if_true]
            cases collectYears vs with
            | none =>
              by_cases hlcn : (pn == "linecode") = true
              · simp only [hlcn, if_true]
                rw [presV]
                by_cases hany : anyHasTableName vs = true
                · simp only [hany, if_true]
                  rw [presV]
                · simp only [hany, Bool.false_eq_true, if_false]
              · simp only [hlcn, Bool.false_eq_true, if_false]
                by_cases hany : anyHasTableName vs = true
                · simp only [hany, if_true]
                  rw [presV]
                · simp only [hany, Bool.false_eq_true, if_false]
            | some ys =>
              cases ys with
              | nil =>
                by_cases hlcn : (pn == "linecode") = true
                · simp only [hlcn, if_true]
                  rw [presV]
                  by_cases hany : anyHasTableName vs = true
                  · simp only [hany, if_true]
                    rw [presV]
                  · simp only [hany, Bool.false_eq_true, if_false]
                · simp only [hlcn, Bool.false_eq_true, if_false]
                  by_cases hany : anyHasTableName vs = true
                  · simp only [hany, if_true]
                    rw [presV]
                  · simp only [hany, Bool.false_eq_true, if_false]
              | cons y ys2 =>
                rw [presV]
                by_cases hlcn : (pn == "linecode") = true
                · simp only [hlcn, if_true]
                  rw [presV]
                  by_cases hany : anyHasTableName vs = true
                  · simp only [hany, if_true]
                    rw [presV]
                  · simp only [hany, Bool.false_eq_true, if_false]
                · simp only [hlcn, Bool.false_eq_true, if_false]
                  by_cases hany : anyHasTableName vs = true
                  · simp only [hany, if_true]
                    rw [presV]
                  · simp only [hany, Bool.false_eq_true, if_false]
          · simp only [hyr, Bool.false_eq_true, if_false]
            by_cases hlcn : (pn == "linecode") = true
            · simp only [hlcn, if_true]
              rw [presV]
              by_cases hany : anyHasTableName vs = true
              · simp only [hany, if_true]
                rw [presV]
              · simp only [hany, Bool.false_eq_true, if_false]
            · simp only [hlcn, Bool.false_eq_true, if_false]
              by_cases hany : anyHasTableName vs = true
              · simp only [hany, if_true]
                rw [presV]
              · simp only [hany, Bool.false_eq_true, if_false]
        · intro pn2 hpn2 htab2 hnm vs2 hvs2
          rw [hdetname pn2 hpn2] at htab2
          exact absurd htab2 htab


theorem filterParams_wf (fe : Bool) (ps : List JVal)
    (h : ∀ p ∈ ps, paramWF p = true) :
    ∃ l, filterParams fe ps = .ok l ∧ ∀ p ∈ l, p ∈ ps := by
  induction ps with
  | nil => exact ⟨[], rfl, by simp⟩
  | cons p rest ih =>
    obtain ⟨l, hl, hmem⟩ := ih (fun x hx => h x (List.mem_cons_of_mem _ hx))
    have hp := h p (List.mem_cons_self _ _)
    have hkp : ∃ b, keepParam fe p = .ok b := by
      cases p with
      | obj pkvs =>
        simp only [paramWF, Bool.and_eq_true] at hp
        obtain ⟨pn, hpn⟩ := paramNameLower_wf pkvs hp.1
        exact ⟨!((pn == "tablename" || pn == "tableid") && fe),
          by simp only [keepParam, asObj, Bind.bind, Except.bind, hpn]⟩
      | str s => simp [paramWF] at hp
      | num n => simp [paramWF] at hp
      | bool b => simp [paramWF] at hp
      | null => simp [paramWF] at hp
      | arr a => simp [paramWF] at hp
    obtain ⟨b, hb⟩ := hkp
    refine ⟨if b then p :: l else l, ?_, ?_⟩
    · simp only [filterParams, Bind.bind, Except.bind, hb, hl]
    · intro q hq
      by_cases hbv : b = true
      · rw [if_pos hbv] at hq
        rcases List.mem_cons.mp hq with h1 | h2
        · rw [h1]; exact List.mem_cons_self _ _
        · exact List.mem_cons_of_mem _ (hmem q h2)
      · rw [if_neg hbv] at hq
        exact List.mem_cons_of_mem _ (hmem q hq)

theorem procParams_wf (tbl : String) (fe : Bool) (l : List JVal)
    (h : ∀ p ∈ l, paramWF p = true) :
    ∃ l2, procParams tbl fe l = .ok l2 ∧
      ∀ q ∈ l2, ∃ p ∈ l, procParam tbl fe p = .ok q := by
  induction l with
  | nil => exact ⟨[], rfl, by simp⟩
  | cons p rest ih =>
    obtain ⟨l2, hl2, hmem⟩ := ih (fun x hx => h x (List.mem_cons_of_mem _ hx))
    have hp := h p (List.mem_cons_self _ _)
    have hobjp : ∃ pkvs, p = JVal.obj pkvs := by
      cases p with
      | obj pkvs => exact ⟨pkvs, rfl⟩
      | str s => simp [paramWF] at hp
      | num n => simp [paramWF] at hp
      | bool b => simp [paramWF] at hp
      | null => simp [paramWF] at hp
      | arr a => simp [paramWF] at hp
    obtain ⟨pkvs, hpv⟩ := hobjp
    subst hpv
    obtain ⟨qkvs, hq, _, _⟩ := procParam_wf_ok tbl fe pkvs hp
    refine ⟨JVal.obj qkvs :: l2, ?_, ?_⟩
    · simp only [procParams, Bind.bind, Except.bind, hq, hl2]
    · intro q2 hq2
      rcases List.mem_cons.mp hq2 with h1 | h2
      · exact ⟨JVal.obj pkvs, List.mem_cons_self _ _, by rw [h1]; exact hq⟩
      · obtain ⟨p2, hp2, hpq2⟩ := hmem q2 h2
        exact ⟨p2, List.mem_cons_of_mem _ hp2, hpq2⟩


theorem filterTableParam_nil (tbl : String) (vs : List JVal)
    (h : vs.all (fun v => match v with
      | .obj w => !(pyEqStr (tableKeyOf w) tbl)
      | _ => true) = true) :
    filterTableParam tbl vs = [] := by
  unfold filterTableParam
  rw [List.filter_eq_nil_iff]
  intro v hv
  have h2 := List.all_eq_true.mp h v hv
  cases v with
  | obj w =>
    simp only at h2 ⊢
    simp only [Bool.not_eq_true'] at h2
    simp [h2]
  | str s => simp
  | num n => simp
  | bool b => simp
  | null => simp
  | arr l => simp

/-- C9: for a dataset present in the catalog (well-formed shapes), a
non-empty table name never makes `get_query_builder_context` fail: even when
the name matches no value of any table parameter, it returns a Context whose
SelectedTableName is the requested name and whose tablename/tableid
parameters have their value lists filtered down to empty. -/
theorem claim_C9_unknown_table_still_ok (name tbl : String) (cat : List JVal) (fe : Bool)
    (d0kvs : List (String × JVal))
    (htbl : tbl ≠ "")
    (hobj : ∀ d ∈ cat, JVal.isObj d = true)
    (hfind : cat.find? (dsMatches name) = some (.obj d0kvs))
    (hwf : datasetWF (.obj d0kvs) = true)
    (hnm : tableParamsNoMatch tbl (.obj d0kvs) = true) :
    ∃ resKvs, getQueryBuilderContext name tbl cat fe = .ok (.obj resKvs) ∧
      objGet resKvs "SelectedTableName" = some (.str tbl) ∧
      ∃ qs, objGet resKvs "Parameters" = some (.arr qs) ∧
        ∀ qkvs, JVal.obj qkvs ∈ qs →
          (paramNameLower qkvs = .ok "tablename" ∨ paramNameLower qkvs = .ok "tableid") →
          ∀ vs2, objGet qkvs "Values" = some (.arr vs2) → vs2 = [] := by
  obtain ⟨rest, hfil⟩ := filter_of_find? (dsMatches name) cat (.obj d0kvs) hfind
  have hbne : (tbl == "") = false := beq_eq_false_iff_ne.mpr htbl
  have heval := gqbc_eval name tbl cat fe hobj
  rw [heval]
  simp only [hfil, hbne, Bool.false_eq_true, if_false, asObj, Bind.bind, Except.bind]
  cases hpar : objGet d0kvs "Parameters" with
  | none =>
    simp only [hpar, Option.getD, iterElems]
    refine ⟨objSet (objSet d0kvs "Parameters" (JVal.arr []))
      "SelectedTableName" (JVal.str tbl),
      by simp only [filterParams, procParams, Bind.bind, Except.bind], ?_, ?_⟩
    · exact objGet_objSet_self _ _ _
    · refine ⟨[], ?_, by simp⟩
      rw [objGet_objSet_ne _ _ _ _ (by decide), objGet_objSet_self]
  | some w =>
    have hwf2 := hwf
    simp only [datasetWF, hpar] at hwf2
    cases w with
    | arr ps =>
      have hpswf : ∀ p ∈ ps, paramWF p = true := fun p hp => List.all_eq_true.mp hwf2 p hp
      obtain ⟨l, hfl, hlmem⟩ := filterParams_wf fe ps hpswf
      obtain ⟨l2, hpl, hl2mem⟩ := procParams_wf tbl fe l
        (fun p hp => hpswf p (hlmem p hp))
      simp only [hpar, Option.getD, iterElems, hfl, hpl]
      refine ⟨_, rfl, objGet_objSet_self _ _ _, l2, ?_, ?_⟩
      · rw [objGet_objSet_ne _ _ _ _ (by decide), objGet_objSet_self]
      · intro qkvs hq hqname vs2 hvs2
        obtain ⟨p, hpmem, hpq⟩ := hl2mem (JVal.obj qkvs) hq
        have hpwf := hpswf p (hlmem p hpmem)
        have hobjp : ∃ pkvs, p = JVal.obj pkvs := by
          cases p with
          | obj pkvs => exact ⟨pkvs, rfl⟩
          | str s => simp [paramWF] at hpwf
          | num n => simp [paramWF] at hpwf
          | bool b => simp [paramWF] at hpwf
          | null => simp [paramWF] at hpwf
          | arr a => simp [paramWF] at hpwf
        obtain ⟨pkvs, hpv⟩ := hobjp
        subst hpv
        obtain ⟨qkvs2, hq2, hpres, hspec⟩ := procParam_wf_ok tbl fe pkvs hpwf
        rw [hpq] at hq2
        have hqeq : qkvs = qkvs2 := by
          have := hq2
          simp only [Except.ok.injEq] at this
          injection this.symm with h3
          exact h3.symm
        subst hqeq
        have hnamesame : paramNameLower qkvs = paramNameLower pkvs := by
          unfold paramNameLower
          rw [hpres]
        have hpname : paramNameLower pkvs = .ok "tablename" ∨
            paramNameLower pkvs = .ok "tableid" := by
          rcases hqname with h1 | h1
          · exact Or.inl (by rw [← hnamesame]; exact h1)
          · exact Or.inr (by rw [← hnamesame]; exact h1)
        have hpn2 : ∃ pn2, paramNameLower pkvs = .ok pn2 ∧
            (pn2 == "tablename" || pn2 == "tableid") = true := by
          rcases hpname with h1 | h1
          · exact ⟨"tablename", h1, by decide⟩
          · exact ⟨"tableid", h1, by decide⟩
        obtain ⟨pn2, hpn2a, hpn2b⟩ := hpn2
        have hnmvs : ∀ vsx, objGet pkvs "Values" = some (.arr vsx) →
            filterTableParam tbl vsx = [] := by
          intro vsx hvsx
          have hnm2 := hnm
          simp only [tableParamsNoMatch, hpar] at hnm2
          have hpall := List.all_eq_true.mp hnm2 (JVal.obj pkvs) (hlmem _ hpmem)
          simp only [hpn2a] at hpall
          rw [if_pos hpn2b] at hpall
          rw [hvsx] at hpall
          exact filterTableParam_nil tbl vsx hpall
        exact hspec pn2 hpn2a hpn2b hnmvs vs2 hvs2
    | str s => simp at hwf2
    | num n => simp at hwf2
    | bool b => simp at hwf2
    | null => simp at hwf2
    | obj l => simp at hwf2

/-- Witness for C9: a table name matching nothing still yields a Context. -/
theorem claim_C9_unknown_table_still_ok_witness :
    ("NOPE" : String) ≠ "" ∧
    (∃ resKvs, getQueryBuilderContext "NIPA" "NOPE"
        [JVal.obj [("DatasetName", JVal.str "NIPA"),
          ("Parameters", JVal.arr [JVal.obj [("ParameterName", JVal.str "TableName"),
            ("Values", JVal.arr [JVal.obj [("TableName", JVal.str "T10101"),
              ("Desc", JVal.str "GDP")]])]])]] false = .ok (.obj resKvs) ∧
      objGet resKvs "SelectedTableName" = some (.str "NOPE") ∧
      ∃ qs, objGet resKvs "Parameters" = some (.arr qs) ∧
        ∀ qkvs, JVal.obj qkvs ∈ qs →
          (paramNameLower qkvs = .ok "tablename" ∨ paramNameLower qkvs = .ok "tableid") →
          ∀ vs2, objGet qkvs "Values" = some (.arr vs2) → vs2 = []) :=
  ⟨by decide,
    claim_C9_unknown_table_still_ok "NIPA" "NOPE"
      [JVal.obj [("DatasetName", JVal.str "NIPA"),
        ("Parameters", JVal.arr [JVal.obj [("ParameterName", JVal.str "TableName"),
          ("Values", JVal.arr [JVal.obj [("TableName", JVal.str "T10101"),
            ("Desc", JVal.str "GDP")]])]])]] false
      [("DatasetName", JVal.str "NIPA"),
        ("Parameters", JVal.arr [JVal.obj [("ParameterName", JVal.str "TableName"),
          ("Values", JVal.arr [JVal.obj [("TableName", JVal.str "T10101"),
            ("Desc", JVal.str "GDP")]])]])]
      (by decide) (by decide) (by rfl) (by rfl) (by rfl)⟩


theorem firstOcc_sub (xs : List SDoc) : ∀ d ∈ firstOcc xs, d ∈ xs := by
  intro d hd
  unfold firstOcc at hd
  rcases List.mem_map.mp hd with ⟨pr, hpr, hsnd⟩
  have hmem := List.mem_filter.mp hpr
  have hget := List.mem_enum_iff_getElem?.mp hmem.1
  rw [← hsnd]
  exact List.getElem?_mem hget

theorem firstOcc_any (xs : List SDoc) (i : Int) :
    (firstOcc xs).any (fun e => e.id == i) = xs.any (fun e => e.id == i) := by
  cases hx : xs.any (fun e => e.id == i) with
  | true =>
    rcases List.any_eq_true.mp hx with ⟨x, hxmem, hxp⟩
    have hex : ∃ y ∈ xs, (fun d => d.id == i) y := ⟨x, hxmem, hxp⟩
    have hlt : xs.findIdx (fun d => d.id == i) < xs.length :=
      List.findIdx_lt_length_of_exists hex
    set j := xs.findIdx (fun d => d.id == i) with hj
    have hpj : (xs.get ⟨j, hlt⟩).id == i := by
      have := @List.findIdx_getElem _ (fun d => d.id == i) xs hlt
      simpa [List.get_eq_getElem] using this
    have hidj : (xs.get ⟨j, hlt⟩).id = i := by simpa using hpj
    apply List.any_eq_true.mpr
    refine ⟨xs.get ⟨j, hlt⟩, ?_, by simpa using hidj⟩
    unfold firstOcc
    apply List.mem_map.mpr
    refine ⟨(j, xs.get ⟨j, hlt⟩), ?_, rfl⟩
    apply List.mem_filter.mpr
    constructor
    · apply List.mem_enum_iff_getElem?.mpr
      simp [List.getElem?_eq_getElem hlt, List.get_eq_getElem]
    · simp only [hidj]
      exact beq_self_eq_true j
  | false =>
    apply List.any_eq_false.mpr
    intro e he
    have hsubm := firstOcc_sub xs e he
    have := List.any_eq_false.mp hx e hsubm
    simpa using this

theorem firstOcc_entry (xs : List SDoc) :
    ∀ d ∈ firstOcc xs, xs.findIdx (fun x => x.id == d.id) < xs.length := by
  intro d hd
  apply List.findIdx_lt_length_of_exists
  exact ⟨d, firstOcc_sub xs d hd, by simp⟩

theorem firstOcc_nodup (xs : List SDoc) : ((firstOcc xs).map SDoc.id).Nodup := by
  unfold firstOcc
  rw [List.map_map]
  have hnodup : (xs.enum.filter
      (fun pr => xs.findIdx (fun d => d.id == pr.2.id) == pr.1)).Nodup := by
    apply List.Nodup.sublist (List.filter_sublist _)
    apply List.Nodup.of_map Prod.fst
    rw [List.enum_map_fst]
    exact List.nodup_range _
  apply List.Nodup.map_on ?_ hnodup
  intro x hx y hy hxy
  have hfx := (List.mem_filter.mp hx).2
  have hfy := (List.mem_filter.mp hy).2
  have hgx := List.mem_enum_iff_getElem?.mp (List.mem_filter.mp hx).1
  have hgy := List.mem_enum_iff_getElem?.mp (List.mem_filter.mp hy).1
  simp only [Function.comp] at hxy
  have hidxy : x.2.id = y.2.id := hxy
  have hxi : xs.findIdx (fun d => d.id == x.2.id) = x.1 := by simpa using hfx
  have hyi : xs.findIdx (fun d => d.id == y.2.id) = y.1 := by simpa using hfy
  have hfst : x.1 = y.1 := by
    rw [← hxi, ← hyi, hidxy]
  have hsnd : x.2 = y.2 := by
    rw [hfst] at hgx
    rw [hgx] at hgy
    exact (Option.some.injEq _ _).mp hgy
  exact Prod.ext hfst hsnd

theorem firstOcc_ordered (xs : List SDoc) :
    (firstOcc xs).Pairwise (fun a b =>
      xs.findIdx (fun d => d.id == a.id) < xs.findIdx (fun d => d.id == b.id)) := by
  unfold firstOcc
  rw [List.pairwise_map]
  have hpw : (xs.enum.filter
      (fun pr => xs.findIdx (fun d => d.id == pr.2.id) == pr.1)).Pairwise
      (fun a b => a.1 < b.1) := by
    apply List.Pairwise.sublist (List.filter_sublist _)
    have := List.nodup_range xs.length
    have hpr : (List.range xs.length).Pairwise (· < ·) := List.pairwise_lt_range _
    have : (xs.enum.map Prod.fst).Pairwise (· < ·) := by
      rw [List.enum_map_fst]; exact hpr
    exact List.pairwise_map.mp this
  refine List.Pairwise.imp_of_mem ?_ hpw
  intro a b ha hb hab
  have hfa := (List.mem_filter.mp ha).2
  have hfb := (List.mem_filter.mp hb).2
  have hai : xs.findIdx (fun d => d.id == a.2.id) = a.1 := by simpa using hfa
  have hbi : xs.findIdx (fun d => d.id == b.2.id) = b.1 := by simpa using hfb
  rw [hai, hbi]
  exact hab


theorem firstOcc_snoc (pre : List SDoc) (d : SDoc) :
    firstOcc (pre ++ [d]) =
      if pre.any (fun x => x.id == d.id) then firstOcc pre else firstOcc pre ++ [d] := by
  unfold firstOcc
  rw [List.enum_append]
  have henum1 : List.enumFrom pre.length [d] = [(pre.length, d)] := rfl
  rw [henum1, List.filter_append]
  have hcong : List.filter (fun pr => (pre ++ [d]).findIdx (fun x => x.id == pr.2.id) == pr.1)
      pre.enum = List.filter (fun pr => pre.findIdx (fun x => x.id == pr.2.id) == pr.1)
      pre.enum := by
    apply List.filter_congr
    intro pr hpr
    have hget := List.mem_enum_iff_getElem?.mp hpr
    have hmem : pr.2 ∈ pre := List.getElem?_mem hget
    have hex : ∃ y ∈ pre, (fun x => x.id == pr.2.id) y := ⟨pr.2, hmem, by simp⟩
    have hlt : pre.findIdx (fun x => x.id == pr.2.id) < pre.length :=
      List.findIdx_lt_length_of_exists hex
    rw [List.findIdx_append, if_pos hlt]
  rw [hcong]
  by_cases hany : pre.any (fun x => x.id == d.id) = true
  · rw [if_pos hany]
    have hex : ∃ y ∈ pre, (fun x => x.id == d.id) y := by
      rcases List.any_eq_true.mp hany with ⟨x, hx, hp⟩
      exact ⟨x, hx, hp⟩
    have hlt : pre.findIdx (fun x => x.id == d.id) < pre.length :=
      List.findIdx_lt_length_of_exists hex
    have hcond : ((pre ++ [d]).findIdx (fun x => x.id == d.id) == pre.length) = false := by
      rw [List.findIdx_append, if_pos hlt]
      simp only [beq_eq_false_iff_ne]
      omega
    simp only [List.filter, hcond, List.append_nil]
  · rw [if_neg hany]
    have hany2 : pre.any (fun x => x.id == d.id) = false := Bool.eq_false_iff.mpr hany
    have hid : ∀ x ∈ pre, ((fun x : SDoc => x.id == d.id) x) = false := by
      intro x hx
      exact Bool.eq_false_iff.mpr (List.any_eq_false.mp hany2 x hx)
    have hnlt : ¬ (pre.findIdx (fun x => x.id == d.id) < pre.length) := by
      rw [List.findIdx_eq_length.mpr hid]
      omega
    have hcond : ((pre ++ [d]).findIdx (fun x => x.id == d.id) == pre.length) = true := by
      rw [List.findIdx_append, if_neg hnlt]
      have : List.findIdx (fun x => x.id == d.id) [d] = 0 := by
        simp [List.findIdx_cons]
      rw [this]
      simp
    simp only [List.filter, hcond, List.map_append]
    rfl

theorem countP_eq_zero_of_any_false (pre : List SDoc) (i : Int)
    (h : pre.any (fun x => x.id == i) = false) :
    pre.countP (fun x => x.id == i) = 0 := by
  apply List.countP_eq_zero.mpr
  intro a ha
  have := List.any_eq_false.mp h a ha
  simpa using this

theorem bumpCount_map (i : Int) (l : List SDoc) (f : SDoc → Nat)
    (hnd : (l.map SDoc.id).Nodup) :
    bumpCount i (l.map (fun d0 => (d0, f d0))) =
      l.map (fun d0 => (d0, if d0.id == i then f d0 + 1 else f d0)) := by
  induction l with
  | nil => rfl
  | cons m rest ih =>
    simp only [List.map_cons, List.map, List.nodup_cons] at hnd ⊢
    by_cases hm : (m.id == i) = true
    · simp only [bumpCount, hm, if_pos]
      have hrest : ∀ d0 ∈ rest, (d0.id == i) = false := by
        intro d0 hd0
        have : d0.id ≠ m.id := by
          intro he
          exact hnd.1 (List.mem_map.mpr ⟨d0, hd0, he⟩)
        have hmi : m.id = i := by simpa using hm
        simp [← hmi, this]
      have : rest.map (fun d0 => (d0, if d0.id == i then f d0 + 1 else f d0)) =
          rest.map (fun d0 => (d0, f d0)) := by
        apply List.map_congr_left
        intro d0 hd0
        rw [hrest d0 hd0]
        rfl
      rw [this]
    · have hm2 : (m.id == i) = false := by simpa using hm
      simp only [bumpCount, hm2, if_neg, Bool.false_eq_true, if_false]
      rw [ih hnd.2]

theorem tallyAux_spec (rest : List SDoc) : ∀ pre : List SDoc,
    tallyAux (tallySpec pre) rest = tallySpec (pre ++ rest) := by
  induction rest with
  | nil => intro pre; simp [tallyAux]
  | cons d ds ih =>
    intro pre
    have hany : (tallySpec pre).any (fun e => e.1.id == d.id) =
        pre.any (fun e => e.id == d.id) := by
      unfold tallySpec
      have hmapany : ∀ (l : List SDoc) (f : SDoc → Nat),
          ((l.map (fun d0 => (d0, f d0))).any fun e => e.1.id == d.id) =
            l.any (fun e => e.id == d.id) := by
        intro l f
        induction l with
        | nil => rfl
        | cons x rest2 ih2 => simp only [List.map_cons, List.any_cons, ih2]
      rw [hmapany]
      exact firstOcc_any pre d.id
    by_cases hcase : pre.any (fun e => e.id == d.id) = true
    · have hstep : tallyAux (tallySpec pre) (d :: ds) =
          tallyAux (bumpCount d.id (tallySpec pre)) ds := by
        simp only [tallyAux, hany, hcase, if_pos]
      rw [hstep]
      have hbump : bumpCount d.id (tallySpec pre) = tallySpec (pre ++ [d]) := by
        unfold tallySpec
        rw [bumpCount_map d.id (firstOcc pre) _ (firstOcc_nodup pre)]
        rw [firstOcc_snoc, if_pos hcase]
        apply List.map_congr_left
        intro d0 _hd0
        rw [List.countP_append]
        rw [List.countP_singleton]
        by_cases hdd : (d0.id == d.id) = true
        · have h1 : ((fun x : SDoc => x.id == d0.id) d) = true := by
            simp only [beq_iff_eq] at hdd ⊢
            exact hdd.symm
          rw [if_pos h1, hdd]
          simp
        · have h1 : ¬ ((fun x : SDoc => x.id == d0.id) d) = true := by
            simp only [beq_iff_eq] at hdd ⊢
            intro he
            exact hdd he.symm
          rw [if_neg h1]
          have hdd2 : (d0.id == d.id) = false := Bool.eq_false_iff.mpr hdd
          rw [hdd2]
          simp
      rw [hbump, ih (pre ++ [d]), List.append_assoc]
      rfl
    · have hcase2 : pre.any (fun e => e.id == d.id) = false := by simpa using hcase
      have hstep : tallyAux (tallySpec pre) (d :: ds) =
          tallyAux (tallySpec pre ++ [(d, 1)]) ds := by
        simp only [tallyAux, hany, hcase2, Bool.false_eq_true, if_false]
      rw [hstep]
      have happ : tallySpec pre ++ [(d, 1)] = tallySpec (pre ++ [d]) := by
        unfold tallySpec
        rw [firstOcc_snoc, if_neg (by rw [hcase2]; simp), List.map_append]
        congr 1
        · apply List.map_congr_left
          intro d0 hd0
          rw [List.countP_append]
          have hd0pre : pre.any (fun x => x.id == d0.id) = true := by
            rw [← firstOcc_any]
            exact List.any_eq_true.mpr ⟨d0, hd0, by simp⟩
          have hne : ¬ ((fun x : SDoc => x.id == d0.id) d) = true := by
            simp only [beq_iff_eq]
            intro he
            rcases List.any_eq_true.mp hd0pre with ⟨x, hx, hxp⟩
            have hx2 : x.id = d0.id := by simpa using hxp
            have : pre.any (fun e => e.id == d.id) = true :=
              List.any_eq_true.mpr ⟨x, hx, by simp [hx2, he]⟩
            rw [hcase2] at this
            exact absurd this (by simp)
          rw [List.countP_singleton, if_neg hne]
          simp
        · simp only [List.map]
          rw [List.countP_append, countP_eq_zero_of_any_false pre d.id hcase2,
            List.countP_singleton]
          simp
      rw [happ, ih (pre ++ [d]), List.append_assoc]
      rfl

theorem tallyAux_eq_tallySpec (xs : List SDoc) : tallyAux [] xs = tallySpec xs := by
  have h := tallyAux_spec xs []
  simpa [tallySpec, firstOcc] using h

theorem mergeRank_total (a b : Nat × SDoc × Nat) :
    mergeRank a b = true ∨ mergeRank b a = true := by
  unfold mergeRank
  simp only [Bool.or_eq_true, Bool.and_eq_true, decide_eq_true_eq, beq_iff_eq]
  omega

theorem mergeRank_trans (a b c : Nat × SDoc × Nat) (h1 : mergeRank a b = true)
    (h2 : mergeRank b c = true) : mergeRank a c = true := by
  unfold mergeRank at h1 h2 ⊢
  simp only [Bool.or_eq_true, Bool.and_eq_true, decide_eq_true_eq, beq_iff_eq] at h1 h2 ⊢
  omega

theorem countP_le_one_of_nodup (l : List SDoc) (i : Int) (h : (l.map SDoc.id).Nodup) :
    l.countP (fun d => d.id == i) ≤ 1 := by
  induction l with
  | nil => simp
  | cons x rest ih =>
    simp only [List.map_cons, List.nodup_cons] at h
    rw [List.countP_cons]
    by_cases hx : x.id = i
    · have hzero : rest.countP (fun d => d.id == i) = 0 := by
        apply List.countP_eq_zero.mpr
        intro a ha
        simp only [beq_iff_eq]
        intro he
        exact h.1 (List.mem_map.mpr ⟨a, ha, by rw [he, hx]⟩)
      simp [hzero, hx]
    · have := ih h.2
      simp only [beq_iff_eq]
      rw [if_neg hx]
      omega

theorem countP_pos_of_any (l : List SDoc) (i : Int)
    (h : l.any (fun d => d.id == i) = true) : 1 ≤ l.countP (fun d => d.id == i) := by
  rcases List.any_eq_true.mp h with ⟨x, hx, hp⟩
  have hpos : 0 < l.countP (fun d => d.id == i) := by
    rw [List.countP_pos_iff]
    exact ⟨x, hx, hp⟩
  omega

theorem tallySpec_pairwise (xs : List SDoc) :
    (tallySpec xs).Pairwise (fun t1 t2 =>
      xs.findIdx (fun d => d.id == t1.1.id) < xs.findIdx (fun d => d.id == t2.1.id)) := by
  unfold tallySpec
  rw [List.pairwise_map]
  exact firstOcc_ordered xs

theorem tallySpec_mem (xs : List SDoc) (t : SDoc × Nat) (h : t ∈ tallySpec xs) :
    t.2 = xs.countP (fun d => d.id == t.1.id) := by
  unfold tallySpec at h
  rcases List.mem_map.mp h with ⟨d0, _hd0, ht⟩
  rw [← ht]

theorem dedupMerge_eq (xs : List SDoc) :
    dedupMerge xs = (sortB mergeRank (tallySpec xs).enum).map (fun e => e.2.1) := by
  unfold dedupMerge
  rw [tallyAux_eq_tallySpec]

theorem any_of_countP_pos (l : List SDoc) (i : Int)
    (h : 1 ≤ l.countP (fun d => d.id == i)) : l.any (fun d => d.id == i) = true := by
  have hpos : 0 < l.countP (fun d => d.id == i) := by omega
  rcases List.countP_pos_iff.mp hpos with ⟨x, hx, hp⟩
  exact List.any_eq_true.mpr ⟨x, hx, hp⟩

theorem dedupMerge_nodup (xs : List SDoc) : ((dedupMerge xs).map SDoc.id).Nodup := by
  rw [dedupMerge_eq, List.map_map]
  have hperm := (sortB_perm mergeRank (tallySpec xs).enum).map
    (fun e : Nat × SDoc × Nat => e.2.1.id)
  apply hperm.nodup_iff.mpr
  have h1 : (tallySpec xs).enum.map (fun e : Nat × SDoc × Nat => e.2.1.id) =
      ((tallySpec xs).enum.map Prod.snd).map (fun t => t.1.id) := by
    rw [List.map_map]
    rfl
  rw [h1, List.enum_map_snd]
  unfold tallySpec
  rw [List.map_map]
  exact firstOcc_nodup xs

theorem dedupMerge_length_le (xs : List SDoc) : (dedupMerge xs).length ≤ xs.length := by
  rw [dedupMerge_eq, List.length_map, (sortB_perm mergeRank (tallySpec xs).enum).length_eq,
    List.enum_length]
  unfold tallySpec firstOcc
  rw [List.length_map, List.length_map]
  calc (xs.enum.filter (fun pr => xs.findIdx (fun d => d.id == pr.2.id) == pr.1)).length
      ≤ xs.enum.length := List.length_filter_le _ _
    _ = xs.length := List.enum_length

theorem dedupMerge_pairwise (xs : List SDoc) :
    (dedupMerge xs).Pairwise (fun a b =>
      xs.countP (fun d => d.id == b.id) < xs.countP (fun d => d.id == a.id) ∨
      (xs.countP (fun d => d.id == a.id) = xs.countP (fun d => d.id == b.id) ∧
        xs.findIdx (fun d => d.id == a.id) < xs.findIdx (fun d => d.id == b.id))) := by
  rw [dedupMerge_eq, List.pairwise_map]
  have hpw := pairwise_sortB mergeRank mergeRank_total mergeRank_trans (tallySpec xs).enum
  have hElt : (tallySpec xs).enum.Pairwise (fun a b => a.1 < b.1) := by
    have h1 : ((tallySpec xs).enum.map Prod.fst).Pairwise (· < ·) := by
      rw [List.enum_map_fst]
      exact List.pairwise_lt_range _
    exact List.pairwise_map.mp h1
  have hEne : (tallySpec xs).enum.Pairwise (fun a b => a.1 ≠ b.1) :=
    hElt.imp (fun h => Nat.ne_of_lt h)
  have hSne : (sortB mergeRank (tallySpec xs).enum).Pairwise (fun a b => a.1 ≠ b.1) :=
    ((sortB_perm mergeRank (tallySpec xs).enum).pairwise_iff
      (fun hab => Ne.symm hab)).mpr hEne
  have hcomb := hpw.and hSne
  apply hcomb.imp_of_mem
  intro a b ha hb hab
  have haE : a ∈ (tallySpec xs).enum :=
    (sortB_perm mergeRank (tallySpec xs).enum).subset ha
  have hbE : b ∈ (tallySpec xs).enum :=
    (sortB_perm mergeRank (tallySpec xs).enum).subset hb
  have haT := List.mem_enum_iff_getElem?.mp haE
  have hbT := List.mem_enum_iff_getElem?.mp hbE
  rcases List.getElem?_eq_some.mp haT with ⟨halt, haget⟩
  rcases List.getElem?_eq_some.mp hbT with ⟨hblt, hbget⟩
  have haM : a.2 ∈ tallySpec xs := by
    rw [← haget]; exact List.getElem_mem halt
  have hbM : b.2 ∈ tallySpec xs := by
    rw [← hbget]; exact List.getElem_mem hblt
  have hacnt := tallySpec_mem xs a.2 haM
  have hbcnt := tallySpec_mem xs b.2 hbM
  rcases hab with ⟨hr, hne⟩
  unfold mergeRank at hr
  simp only [Bool.or_eq_true, Bool.and_eq_true, decide_eq_true_eq, beq_iff_eq] at hr
  rcases hr with hlt | ⟨heq, hle⟩
  · left
    omega
  · right
    refine ⟨by omega, ?_⟩
    have hflt : a.1 < b.1 := by omega
    have hTpw := List.pairwise_iff_get.mp (tallySpec_pairwise xs)
      ⟨a.1, halt⟩ ⟨b.1, hblt⟩ hflt
    simp only [List.get_eq_getElem] at hTpw
    rw [haget, hbget] at hTpw
    exact hTpw

/-- **C6.** `smart_search`'s merge of the full-query and short-query result
lists (deduplicate on `_id` tracking count and first-seen order, then sort by
`(-count, first_position)`): the merged identities are pairwise distinct, the
length is at most the combined input length, the order is descending
occurrence count across the two lists with ties broken by ascending
first-seen position, and — when each input list carries distinct identities,
as the two search calls do — every document appearing in both lists precedes
every document appearing in only one (stated pairwise: whenever a later entry
occurs in both lists, so does every earlier entry). -/
theorem claim_C6_dedup_merge_order (full short : List SDoc)
    (hf : (full.map SDoc.id).Nodup) (hs : (short.map SDoc.id).Nodup) :
    ((dedupMerge (full ++ short)).map SDoc.id).Nodup ∧
    (dedupMerge (full ++ short)).length ≤ (full ++ short).length ∧
    (dedupMerge (full ++ short)).Pairwise (fun a b =>
      (full ++ short).countP (fun d => d.id == b.id) <
          (full ++ short).countP (fun d => d.id == a.id) ∨
        ((full ++ short).countP (fun d => d.id == a.id) =
            (full ++ short).countP (fun d => d.id == b.id) ∧
          (full ++ short).findIdx (fun d => d.id == a.id) <
            (full ++ short).findIdx (fun d => d.id == b.id))) ∧
    (dedupMerge (full ++ short)).Pairwise (fun a b =>
      full.any (fun d => d.id == b.id) = true →
      short.any (fun d => d.id == b.id) = true →
      (full.any (fun d => d.id == a.id) = true ∧
        short.any (fun d => d.id == a.id) = true)) := by
  refine ⟨dedupMerge_nodup (full ++ short), dedupMerge_length_le (full ++ short),
    dedupMerge_pairwise (full ++ short), ?_⟩
  apply (dedupMerge_pairwise (full ++ short)).imp
  intro a b hr hbf hbs
  have hcntb : (full ++ short).countP (fun d => d.id == b.id) =
      full.countP (fun d => d.id == b.id) + short.countP (fun d => d.id == b.id) :=
    List.countP_append _ _ _
  have hcnta : (full ++ short).countP (fun d => d.id == a.id) =
      full.countP (fun d => d.id == a.id) + short.countP (fun d => d.id == a.id) :=
    List.countP_append _ _ _
  have hbf1 := countP_pos_of_any full b.id hbf
  have hbs1 := countP_pos_of_any short b.id hbs
  have haf1 := countP_le_one_of_nodup full a.id hf
  have has1 := countP_le_one_of_nodup short a.id hs
  have hafpos : 1 ≤ full.countP (fun d => d.id == a.id) := by
    rcases hr with h | ⟨h, _⟩ <;> omega
  have haspos : 1 ≤ short.countP (fun d => d.id == a.id) := by
    rcases hr with h | ⟨h, _⟩ <;> omega
  exact ⟨any_of_countP_pos full a.id hafpos, any_of_countP_pos short a.id haspos⟩

theorem claim_C6_dedup_merge_order_witness :
    (([⟨1, "w", 0⟩, ⟨2, "w", 0⟩] : List SDoc).map SDoc.id).Nodup ∧
    (([⟨2, "w", 1⟩, ⟨3, "w", 0⟩] : List SDoc).map SDoc.id).Nodup ∧
    (((dedupMerge ([⟨1, "w", 0⟩, ⟨2, "w", 0⟩] ++
        [⟨2, "w", 1⟩, ⟨3, "w", 0⟩])).map SDoc.id).Nodup ∧
      (dedupMerge ([⟨1, "w", 0⟩, ⟨2, "w", 0⟩] ++
        [⟨2, "w", 1⟩, ⟨3, "w", 0⟩])).length ≤
        (([⟨1, "w", 0⟩, ⟨2, "w", 0⟩] ++ [⟨2, "w", 1⟩, ⟨3, "w", 0⟩]) : List SDoc).length ∧
      (dedupMerge ([⟨1, "w", 0⟩, ⟨2, "w", 0⟩] ++
        [⟨2, "w", 1⟩, ⟨3, "w", 0⟩])).Pairwise (fun a b =>
        ([⟨1, "w", 0⟩, ⟨2, "w", 0⟩] ++
            [⟨2, "w", 1⟩, ⟨3, "w", 0⟩] : List SDoc).countP (fun d => d.id == b.id) <
            ([⟨1, "w", 0⟩, ⟨2, "w", 0⟩] ++
              [⟨2, "w", 1⟩, ⟨3, "w", 0⟩] : List SDoc).countP (fun d => d.id == a.id) ∨
          (([⟨1, "w", 0⟩, ⟨2, "w", 0⟩] ++
              [⟨2, "w", 1⟩, ⟨3, "w", 0⟩] : List SDoc).countP (fun d => d.id == a.id) =
              ([⟨1, "w", 0⟩, ⟨2, "w", 0⟩] ++
                [⟨2, "w", 1⟩, ⟨3, "w", 0⟩] : List SDoc).countP (fun d => d.id == b.id) ∧
            ([⟨1, "w", 0⟩, ⟨2, "w", 0⟩] ++
                [⟨2, "w", 1⟩, ⟨3, "w", 0⟩] : List SDoc).findIdx (fun d => d.id == a.id) <
              ([⟨1, "w", 0⟩, ⟨2, "w", 0⟩] ++
                [⟨2, "w", 1⟩, ⟨3, "w", 0⟩] : List SDoc).findIdx (fun d => d.id == b.id))) ∧
      (dedupMerge ([⟨1, "w", 0⟩, ⟨2, "w", 0⟩] ++
        [⟨2, "w", 1⟩, ⟨3, "w", 0⟩])).Pairwise (fun a b =>
        ([⟨1, "w", 0⟩, ⟨2, "w", 0⟩] : List SDoc).any (fun d => d.id == b.id) = true →
        ([⟨2, "w", 1⟩, ⟨3, "w", 0⟩] : List SDoc).any (fun d => d.id == b.id) = true →
        (([⟨1, "w", 0⟩, ⟨2, "w", 0⟩] : List SDoc).any (fun d => d.id == a.id) = true ∧
          ([⟨2, "w", 1⟩, ⟨3, "w", 0⟩] : List SDoc).any (fun d => d.id == a.id) = true))) :=
  ⟨by simp, by simp,
    claim_C6_dedup_merge_order [⟨1, "w", 0⟩, ⟨2, "w", 0⟩] [⟨2, "w", 1⟩, ⟨3, "w", 0⟩]
      (by simp) (by simp)⟩

theorem broadMergeAux_filter (supp : List SDoc) :
    ∀ acc : List SDoc, (supp.map SDoc.id).Nodup →
      broadMergeAux acc supp =
        acc ++ supp.filter (fun d => !(acc.any (fun x => x.id == d.id))) := by
  induction supp with
  | nil => intro acc _; simp [broadMergeAux]
  | cons d ds ih =>
    intro acc hnd
    simp only [List.map_cons, List.nodup_cons] at hnd
    unfold broadMergeAux
    by_cases h : acc.any (fun x => x.id == d.id) = true
    · rw [if_pos h, ih acc hnd.2, List.filter_cons]
      simp [h]
    · rw [if_neg h, ih (acc ++ [d]) hnd.2, List.filter_cons]
      have hne := Bool.eq_false_iff.mpr h
      simp only [hne, Bool.not_false, if_pos rfl]
      rw [List.append_assoc]
      congr 1
      rw [List.singleton_append]
      congr 1
      apply List.filter_congr
      intro x hx
      have hxd : d.id ≠ x.id := by
        intro he
        exact hnd.1 (List.mem_map.mpr ⟨x, hx, he.symm⟩)
      simp only [List.any_append, List.any_cons, List.any_nil, Bool.or_false]
      rw [show (d.id == x.id) = false from beq_eq_false_iff_ne.mpr hxd]
      simp

/-- Modelled from the spec: broad retrieval fetches one unfiltered batch; when
fewer than `floor` of its entries belong to the anchor dataset it fetches an
anchor-scoped supplement with the floor as the limit and merges by keeping the
batch in its order and appending exactly the supplement entries whose identity
is not already present; otherwise the batch alone is returned. -/
theorem claim_C8_broad_retrieval (search : Option String → Nat → List SDoc)
    (anchor : String) (batchSize floor : Nat)
    (hnd : ((search (some anchor) floor).map SDoc.id).Nodup) :
    broadRetrieve search anchor batchSize floor =
      (if (search none batchSize).countP (fun d => d.ds == anchor) < floor then
        search none batchSize ++
          (search (some anchor) floor).filter
            (fun d => !((search none batchSize).any (fun x => x.id == d.id)))
      else search none batchSize) := by
  unfold broadRetrieve broadMerge
  by_cases h : (search none batchSize).countP (fun d => d.ds == anchor) < floor
  · rw [if_pos h, if_pos h]
    exact broadMergeAux_filter (search (some anchor) floor) (search none batchSize) hnd
  · rw [if_neg h, if_neg h]

theorem claim_C8_broad_retrieval_witness :
    ((c8search (some "A") 10).map SDoc.id).Nodup ∧
    broadRetrieve c8search "A" 25 10 =
      (if (c8search none 25).countP (fun d => d.ds == "A") < 10 then
        c8search none 25 ++
          (c8search (some "A") 10).filter
            (fun d => !((c8search none 25).any (fun x => x.id == d.id)))
      else c8search none 25) ∧
    (c8search none 25).length = 25 ∧
    (c8search none 25).countP (fun d => d.ds == "A") = 6 ∧
    (broadRetrieve c8search "A" 25 10).length = 31 ∧
    (broadRetrieve c8search "A" 25 10).take 25 = c8search none 25 :=
  ⟨by decide, claim_C8_broad_retrieval c8search "A" 25 10 (by decide),
    by decide, by decide, by decide, by decide⟩

theorem hGet_append_lt (h ext : Heap) (a : Nat) (ha : a < h.length) :
    hGet (h ++ ext) a = hGet h a := by
  unfold hGet
  rw [List.getElem?_append, if_pos ha]

theorem hGet_prefix {h h' : Heap} (hp : h <+: h') (a : Nat) (ha : a < h.length) :
    hGet h' a = hGet h a := by
  rcases hp with ⟨ext, rfl⟩
  exact hGet_append_lt h ext a ha

theorem hGet_set_ne (h : Heap) (a : Nat) (o : HObj) (b : Nat) (hne : a ≠ b) :
    hGet (hSet h a o) b = hGet h b := by
  unfold hGet hSet
  rw [List.getElem?_set_ne hne]

theorem hGet_set_self (h : Heap) (a : Nat) (o : HObj) (ha : a < h.length) :
    hGet (hSet h a o) a = some o := by
  unfold hGet hSet
  rw [List.getElem?_set_self', List.getElem?_eq_getElem ha]
  rfl

theorem hSet_length (h : Heap) (a : Nat) (o : HObj) : (hSet h a o).length = h.length :=
  List.length_set h a o

theorem hGet_mem {h : Heap} {a : Nat} {o : HObj} (hget : hGet h a = some o) : o ∈ h := by
  unfold hGet at hget
  rcases List.getElem?_eq_some.mp hget with ⟨hl, hg⟩
  rw [← hg]
  exact List.getElem_mem hl

theorem closedBelow_spec {h : Heap} {n : Nat} (hc : closedBelow h n = true) :
    ∀ a o, hGet h a = some o → ∀ b ∈ refsOfObj o, b < n := by
  intro a o hget b hb
  have h1 := List.all_eq_true.mp hc o (hGet_mem hget)
  have h2 := List.all_eq_true.mp h1 b hb
  simpa using h2

theorem refs_obj_mem (fs : List (String × HV)) (b : Nat) :
    b ∈ refsOfObj (HObj.obj fs) ↔ ∃ kv ∈ fs, kv.2 = HV.ref b := by
  unfold refsOfObj
  rw [List.mem_filterMap]
  constructor
  · rintro ⟨kv, hkv, hg⟩
    refine ⟨kv, hkv, ?_⟩
    cases hv : kv.2 <;> simp [hv] at hg
    rw [hg]
  · rintro ⟨kv, hkv, hv⟩
    exact ⟨kv, hkv, by rw [hv]⟩

theorem refs_arr_mem (es : List HV) (b : Nat) :
    b ∈ refsOfObj (HObj.arr es) ↔ ∃ v ∈ es, v = HV.ref b := by
  unfold refsOfObj
  rw [List.mem_filterMap]
  constructor
  · rintro ⟨v, hv, hg⟩
    refine ⟨v, hv, ?_⟩
    cases hw : v <;> simp [hw] at hg
    rw [hg]
  · rintro ⟨v, hv, hw⟩
    exact ⟨v, hv, by rw [hw]⟩

theorem objSetH_mem (fs : List (String × HV)) (k : String) (v : HV) :
    ∀ kv ∈ objSetH fs k v, kv ∈ fs ∨ kv.2 = v := by
  induction fs with
  | nil => intro kv hkv; simp [objSetH] at hkv; simp [hkv]
  | cons kv0 rest ih =>
    intro kv hkv
    unfold objSetH at hkv
    by_cases hk : kv0.1 == k
    · rw [show (kv0.1, kv0.2) = kv0 from rfl] at hkv
      simp only [hk, if_true] at hkv
      rcases List.mem_cons.mp hkv with hh | ht
      · right; rw [hh]
      · left; exact List.mem_cons_of_mem _ ht
    · rw [show (kv0.1, kv0.2) = kv0 from rfl] at hkv
      simp only [hk, if_false] at hkv
      rcases List.mem_cons.mp hkv with hh | ht
      · left; rw [hh]; exact List.mem_cons_self _ _
      · rcases ih kv ht with h1 | h2
        · left; exact List.mem_cons_of_mem _ h1
        · right; exact h2

theorem objGetH_mem {fs : List (String × HV)} {k : String} {w : HV}
    (hg : objGetH fs k = some w) : ∃ kv ∈ fs, kv.2 = w := by
  unfold objGetH at hg
  cases hf : fs.find? (fun p => p.1 == k) with
  | none => rw [hf] at hg; cases hg
  | some pr =>
    rw [hf] at hg
    exact ⟨pr, List.mem_of_find?_eq_some hf, by cases hg; rfl⟩

theorem regionSep_append {h : Heap} {n : Nat} (hs : RegionSep h n)
    (ext : List HObj) (hext : ∀ o ∈ ext, ∀ b ∈ refsOfObj o, n ≤ b) :
    RegionSep (h ++ ext) n := by
  intro a o ha hget b hb
  by_cases hlt : a < h.length
  · rw [hGet_append_lt h ext a hlt] at hget
    exact hs a o ha hget b hb
  · unfold hGet at hget
    rw [List.getElem?_append_right (by omega)] at hget
    rcases List.getElem?_eq_some.mp hget with ⟨hl, hg⟩
    exact hext o (by rw [← hg]; exact List.getElem_mem hl) b hb

theorem regionSep_set {h : Heap} {n : Nat} {a : Nat} {o : HObj} (hs : RegionSep h n)
    (ho : ∀ b ∈ refsOfObj o, n ≤ b) : RegionSep (hSet h a o) n := by
  intro a' o' ha' hget b hb
  by_cases he : a = a'
  · subst he
    unfold hGet hSet at hget
    rw [List.getElem?_set_self'] at hget
    cases hold : h[a]? with
    | none => rw [hold] at hget; cases hget
    | some oo =>
      rw [hold] at hget
      have : o' = o := by
        simpa [Function.const] using hget.symm
      rw [this] at hb
      exact ho b hb
  · rw [hGet_set_ne h a o a' he] at hget
    exact hs a' o' ha' hget b hb

theorem dcL_inv (fuel : Nat) : ∀ h vs vs' h', dcL fuel h vs = some (vs', h') →
    h <+: h' ∧
    (∀ v' ∈ vs', ∀ a, v' = HV.ref a → h.length ≤ a ∧ a < h'.length) ∧
    (∀ n, n ≤ h.length → RegionSep h n → RegionSep h' n) := by
  induction fuel with
  | zero =>
    intro h vs vs' h' hrun
    simp [dcL] at hrun
  | succ fuel ih =>
    intro h vs vs' h' hrun
    cases vs with
    | nil =>
      simp only [dcL, Option.some.injEq, Prod.mk.injEq] at hrun
      obtain ⟨rfl, rfl⟩ := hrun
      refine ⟨List.prefix_refl h, by simp, fun n _ hs => hs⟩
    | cons v vs0 =>
      cases v with
      | ref a =>
        simp only [dcL] at hrun
        cases hga : hGet h a with
        | none => simp only [hga] at hrun; exact Option.noConfusion hrun
        | some o =>
          simp only [hga] at hrun
          cases o with
          | obj fs =>
            cases h1run : dcL fuel h (fs.map Prod.snd) with
            | none => simp only [h1run] at hrun; exact Option.noConfusion hrun
            | some p1 =>
              obtain ⟨ws, h1⟩ := p1
              simp only [h1run] at hrun
              cases h2run : dcL fuel (h1 ++ [HObj.obj ((fs.map Prod.fst).zip ws)]) vs0 with
              | none => simp only [h2run] at hrun; exact Option.noConfusion hrun
              | some p2 =>
                obtain ⟨vs0', h3⟩ := p2
                simp only [h2run] at hrun
                simp only [Option.some.injEq, Prod.mk.injEq] at hrun
                obtain ⟨rfl, rfl⟩ := hrun
                obtain ⟨hpre1, hfr1, hsep1⟩ := ih h (fs.map Prod.snd) ws h1 h1run
                obtain ⟨hpre2, hfr2, hsep2⟩ :=
                  ih (h1 ++ [HObj.obj ((fs.map Prod.fst).zip ws)]) vs0 vs0' h3 h2run
                have hlen1 : h.length ≤ h1.length := hpre1.length_le
                have hlen2 : h1.length + 1 ≤ h3.length := by
                  have := hpre2.length_le
                  simpa using this
                refine ⟨hpre1.trans ((List.prefix_append h1 _).trans hpre2), ?_, ?_⟩
                · intro v' hv' a' hv'a
                  rcases List.mem_cons.mp hv' with hh | ht
                  · rw [hh] at hv'a
                    cases hv'a
                    omega
                  · have := hfr2 v' ht a' hv'a
                    simp at this
                    omega
                · intro n hn hs
                  have hs1 := hsep1 n hn hs
                  have hsx : RegionSep (h1 ++ [HObj.obj ((fs.map Prod.fst).zip ws)]) n := by
                    apply regionSep_append hs1
                    intro o ho b hb
                    have : o = HObj.obj ((fs.map Prod.fst).zip ws) := by simpa using ho
                    rw [this] at hb
                    rcases (refs_obj_mem _ _).mp hb with ⟨kv, hkv, hkv2⟩
                    have hmem : kv.2 ∈ ws := by
                      have := List.of_mem_zip (show (kv.1, kv.2) ∈ (fs.map Prod.fst).zip ws from hkv)
                      exact this.2
                    have := (hfr1 kv.2 hmem b hkv2).1
                    omega
                  apply hsep2 n (by simp; omega) hsx
          | arr es =>
            cases h1run : dcL fuel h es with
            | none => simp only [h1run] at hrun; exact Option.noConfusion hrun
            | some p1 =>
              obtain ⟨ws, h1⟩ := p1
              simp only [h1run] at hrun
              cases h2run : dcL fuel (h1 ++ [HObj.arr ws]) vs0 with
              | none => simp only [h2run] at hrun; exact Option.noConfusion hrun
              | some p2 =>
                obtain ⟨vs0', h3⟩ := p2
                simp only [h2run] at hrun
                simp only [Option.some.injEq, Prod.mk.injEq] at hrun
                obtain ⟨rfl, rfl⟩ := hrun
                obtain ⟨hpre1, hfr1, hsep1⟩ := ih h es ws h1 h1run
                obtain ⟨hpre2, hfr2, hsep2⟩ := ih (h1 ++ [HObj.arr ws]) vs0 vs0' h3 h2run
                have hlen1 : h.length ≤ h1.length := hpre1.length_le
                have hlen2 : h1.length + 1 ≤ h3.length := by
                  have := hpre2.length_le
                  simpa using this
                refine ⟨hpre1.trans ((List.prefix_append h1 _).trans hpre2), ?_, ?_⟩
                · intro v' hv' a' hv'a
                  rcases List.mem_cons.mp hv' with hh | ht
                  · rw [hh] at hv'a
                    cases hv'a
                    omega
                  · have := hfr2 v' ht a' hv'a
                    simp at this
                    omega
                · intro n hn hs
                  have hs1 := hsep1 n hn hs
                  have hsx : RegionSep (h1 ++ [HObj.arr ws]) n := by
                    apply regionSep_append hs1
                    intro o ho b hb
                    have : o = HObj.arr ws := by simpa using ho
                    rw [this] at hb
                    rcases (refs_arr_mem _ _).mp hb with ⟨w, hw, hw2⟩
                    have := (hfr1 w hw b hw2).1
                    omega
                  apply hsep2 n (by simp; omega) hsx
      | str sv =>
        simp only [dcL] at hrun
        cases h1run : dcL fuel h vs0 with
        | none => simp only [h1run] at hrun; exact Option.noConfusion hrun
        | some p1 =>
          obtain ⟨vs0', h1⟩ := p1
          simp only [h1run] at hrun
          simp only [Option.some.injEq, Prod.mk.injEq] at hrun
          obtain ⟨rfl, rfl⟩ := hrun
          obtain ⟨hpre1, hfr1, hsep1⟩ := ih h vs0 vs0' h1 h1run
          refine ⟨hpre1, ?_, hsep1⟩
          intro v' hv' a' hv'a
          rcases List.mem_cons.mp hv' with hh | ht
          · rw [hh] at hv'a; cases hv'a
          · exact hfr1 v' ht a' hv'a
      | num nv =>
        simp only [dcL] at hrun
        cases h1run : dcL fuel h vs0 with
        | none => simp only [h1run] at hrun; exact Option.noConfusion hrun
        | some p1 =>
          obtain ⟨vs0', h1⟩ := p1
          simp only [h1run] at hrun
          simp only [Option.some.injEq, Prod.mk.injEq] at hrun
          obtain ⟨rfl, rfl⟩ := hrun
          obtain ⟨hpre1, hfr1, hsep1⟩ := ih h vs0 vs0' h1 h1run
          refine ⟨hpre1, ?_, hsep1⟩
          intro v' hv' a' hv'a
          rcases List.mem_cons.mp hv' with hh | ht
          · rw [hh] at hv'a; cases hv'a
          · exact hfr1 v' ht a' hv'a
      | bool bv =>
        simp only [dcL] at hrun
        cases h1run : dcL fuel h vs0 with
        | none => simp only [h1run] at hrun; exact Option.noConfusion hrun
        | some p1 =>
          obtain ⟨vs0', h1⟩ := p1
          simp only [h1run] at hrun
          simp only [Option.some.injEq, Prod.mk.injEq] at hrun
          obtain ⟨rfl, rfl⟩ := hrun
          obtain ⟨hpre1, hfr1, hsep1⟩ := ih h vs0 vs0' h1 h1run
          refine ⟨hpre1, ?_, hsep1⟩
          intro v' hv' a' hv'a
          rcases List.mem_cons.mp hv' with hh | ht
          · rw [hh] at hv'a; cases hv'a
          · exact hfr1 v' ht a' hv'a
      | null =>
        simp only [dcL] at hrun
        cases h1run : dcL fuel h vs0 with
        | none => simp only [h1run] at hrun; exact Option.noConfusion hrun
        | some p1 =>
          obtain ⟨vs0', h1⟩ := p1
          simp only [h1run] at hrun
          simp only [Option.some.injEq, Prod.mk.injEq] at hrun
          obtain ⟨rfl, rfl⟩ := hrun
          obtain ⟨hpre1, hfr1, hsep1⟩ := ih h vs0 vs0' h1 h1run
          refine ⟨hpre1, ?_, hsep1⟩
          intro v' hv' a' hv'a
          rcases List.mem_cons.mp hv' with hh | ht
          · rw [hh] at hv'a; cases hv'a
          · exact hfr1 v' ht a' hv'a

theorem dcV_inv {fuel : Nat} {h : Heap} {v v' : HV} {h' : Heap}
    (hrun : dcV fuel h v = some (v', h')) :
    h <+: h' ∧
    (∀ a, v' = HV.ref a → h.length ≤ a ∧ a < h'.length) ∧
    (∀ n, n ≤ h.length → RegionSep h n → RegionSep h' n) := by
  unfold dcV at hrun
  cases hl : dcL fuel h [v] with
  | none => simp only [hl] at hrun; exact Option.noConfusion hrun
  | some p =>
    simp only [hl] at hrun
    obtain ⟨vs', hh⟩ := p
    match vs', hrun with
    | [w], hrun =>
      simp only [Option.some.injEq, Prod.mk.injEq] at hrun
      obtain ⟨rfl, rfl⟩ := hrun
      obtain ⟨hpre, hfr, hsep⟩ := dcL_inv fuel h [v] _ _ hl
      exact ⟨hpre, fun a ha => hfr _ (by simp) a ha, hsep⟩

theorem asObjAddr_ok {h : Heap} {p : HV} {a : Nat} {fs : List (String × HV)}
    (hok : asObjAddr h p = .ok (a, fs)) :
    p = HV.ref a ∧ hGet h a = some (HObj.obj fs) := by
  cases p <;> simp only [asObjAddr] at hok
  case ref a' =>
    cases hga : hGet h a' with
    | none => simp only [hga] at hok; exact Except.noConfusion hok
    | some o =>
      cases o with
      | obj fs' =>
        simp only [hga, Except.ok.injEq, Prod.mk.injEq] at hok
        obtain ⟨rfl, rfl⟩ := hok
        exact ⟨rfl, hga⟩
      | arr es => simp only [hga] at hok; exact Except.noConfusion hok
  all_goals exact Except.noConfusion hok

theorem hGet_lt {h : Heap} {a : Nat} {o : HObj} (hget : hGet h a = some o) :
    a < h.length := by
  unfold hGet at hget
  rcases List.getElem?_eq_some.mp hget with ⟨hl, _⟩
  exact hl

theorem objGetH_refs {fs : List (String × HV)} {k : String} {b : Nat}
    (hg : objGetH fs k = some (HV.ref b)) : b ∈ refsOfObj (HObj.obj fs) := by
  rcases objGetH_mem hg with ⟨kv, hkv, hkv2⟩
  exact (refs_obj_mem _ _).mpr ⟨kv, hkv, hkv2⟩

theorem iterElemsH_fresh {h : Heap} {n : Nat} (hsep : RegionSep h n) {v : HV}
    (hv : ∀ a, v = HV.ref a → n ≤ a) {vs : List HV}
    (hit : iterElemsH h v = .ok vs) :
    ∀ u ∈ vs, ∀ b, u = HV.ref b → n ≤ b := by
  cases v <;> simp only [iterElemsH] at hit
  case ref a =>
    cases hga : hGet h a with
    | none => simp only [hga] at hit; exact Except.noConfusion hit
    | some o =>
      cases o with
      | arr es =>
        simp only [hga, Except.ok.injEq] at hit
        subst hit
        intro u hu b hub
        exact hsep a _ (hv a rfl) hga b ((refs_arr_mem _ _).mpr ⟨u, hu, hub⟩)
      | obj fs =>
        simp only [hga, Except.ok.injEq] at hit
        subst hit
        intro u hu b hub
        rcases List.mem_map.mp hu with ⟨kv, _, hkv⟩
        rw [← hkv] at hub
        exact HV.noConfusion hub
  case str s =>
    simp only [Except.ok.injEq] at hit
    subst hit
    intro u hu b hub
    rcases List.mem_map.mp hu with ⟨c, _, hc⟩
    rw [← hc] at hub
    exact HV.noConfusion hub
  all_goals exact fun u hu b hub => absurd hit (by simp)

theorem refs_objSetH_le {fs : List (String × HV)} {k : String} {v : HV} {n : Nat}
    (hfs : ∀ b ∈ refsOfObj (HObj.obj fs), n ≤ b)
    (hv : ∀ b, v = HV.ref b → n ≤ b) :
    ∀ b ∈ refsOfObj (HObj.obj (objSetH fs k v)), n ≤ b := by
  intro b hb
  rcases (refs_obj_mem _ _).mp hb with ⟨kv, hkv, hkv2⟩
  rcases objSetH_mem fs k v kv hkv with hmem | hvv
  · exact hfs b ((refs_obj_mem _ _).mpr ⟨kv, hmem, hkv2⟩)
  · exact hv b (hvv ▸ hkv2)

theorem mutParam_inv {h : Heap} {n a : Nat} (fs2 : List (String × HV))
    (hn : n ≤ h.length) (hna : n ≤ a) (ha : a < h.length) (hsep : RegionSep h n)
    (ext : List HObj) (hext : ∀ o ∈ ext, ∀ b ∈ refsOfObj o, n ≤ b)
    (hfs2 : ∀ b ∈ refsOfObj (HObj.obj fs2), n ≤ b) :
    (hSet (h ++ ext) a (HObj.obj fs2)).length = h.length + ext.length ∧
    (∀ b, b < n → hGet (hSet (h ++ ext) a (HObj.obj fs2)) b = hGet h b) ∧
    RegionSep (hSet (h ++ ext) a (HObj.obj fs2)) n := by
  refine ⟨by simp [hSet_length], ?_, ?_⟩
  · intro b hb
    rw [hGet_set_ne _ a _ b (by omega), hGet_append_lt h ext b (by omega)]
  · exact regionSep_set (regionSep_append hsep ext hext) hfs2

theorem filterLineCodeH_sub (h : Heap) (tbl : String) :
    ∀ vs nv, filterLineCodeH h tbl vs = .ok nv → ∀ u ∈ nv, u ∈ vs := by
  intro vs
  induction vs with
  | nil =>
    intro nv hok u hu
    simp only [filterLineCodeH, Except.ok.injEq] at hok
    subst hok
    cases hu
  | cons v vs0 ih =>
    intro nv hok u hu
    simp only [filterLineCodeH, Bind.bind, Except.bind] at hok
    cases hf : fieldsOfH h v with
    | some fs =>
      simp only [hf] at hok
      cases hd : pyLowerStrH ((objGetH fs "Desc").getD (.str "")) with
      | error e => simp only [hd] at hok; exact Except.noConfusion hok
      | ok d =>
        simp only [hd] at hok
        cases hr : filterLineCodeH h tbl vs0 with
        | error e => simp only [hr] at hok; exact Except.noConfusion hok
        | ok rest =>
          simp only [hr, Except.ok.injEq] at hok
          subst hok
          by_cases hpre : (("[" ++ lowerString tbl ++ "]").toList).isPrefixOf d.toList
          · rw [if_pos hpre] at hu
            rcases List.mem_cons.mp hu with hh | ht
            · rw [hh]; exact List.mem_cons_self _ _
            · exact List.mem_cons_of_mem _ (ih rest hr u ht)
          · rw [if_neg hpre] at hu
            exact List.mem_cons_of_mem _ (ih rest hr u hu)
    | none =>
      simp only [hf] at hok
      cases hr : filterLineCodeH h tbl vs0 with
      | error e => simp only [hr] at hok; exact Except.noConfusion hok
      | ok rest =>
        simp only [hr, Except.ok.injEq] at hok
        subst hok
        exact List.mem_cons_of_mem _ (ih _ hr u hu)

theorem filterParamsH_sub (h : Heap) (fe : Bool) :
    ∀ ps fps, filterParamsH h fe ps = .ok fps → ∀ p ∈ fps, p ∈ ps := by
  intro ps
  induction ps with
  | nil =>
    intro fps hok p hp
    simp only [filterParamsH, Except.ok.injEq] at hok
    subst hok
    cases hp
  | cons q ps0 ih =>
    intro fps hok p hp
    simp only [filterParamsH, Bind.bind, Except.bind] at hok
    cases hb : keepParamH h fe q with
    | error e => simp only [hb] at hok; exact Except.noConfusion hok
    | ok b =>
      simp only [hb] at hok
      cases hr : filterParamsH h fe ps0 with
      | error e => simp only [hr] at hok; exact Except.noConfusion hok
      | ok rest =>
        simp only [hr, Except.ok.injEq] at hok
        subst hok
        by_cases hbb : b
        · rw [if_pos hbb] at hp
          rcases List.mem_cons.mp hp with hh | ht
          · rw [hh]; exact List.mem_cons_self _ _
          · exact List.mem_cons_of_mem _ (ih rest hr p ht)
        · rw [if_neg hbb] at hp
          exact List.mem_cons_of_mem _ (ih rest hr p hp)

theorem valsV_fresh {fs : List (String × HV)} {n : Nat}
    (hfs : ∀ b ∈ refsOfObj (HObj.obj fs), n ≤ b) :
    ∀ a', (objGetH fs "Values").getD .null = HV.ref a' → n ≤ a' := by
  intro a' ha'
  cases hgv : objGetH fs "Values" with
  | none => rw [hgv] at ha'; exact HV.noConfusion ha'
  | some w =>
    rw [hgv] at ha'
    simp only [Option.getD] at ha'
    subst ha'
    exact hfs a' (objGetH_refs hgv)

theorem procParamH_inv (tbl : String) (fe : Bool) (p : HV) (h : Heap) (n : Nat)
    (hn : n ≤ h.length) (hsep : RegionSep h n)
    (hp : ∀ a, p = HV.ref a → n ≤ a) :
    ∀ r h', procParamH tbl fe p h = (r, h') →
      h.length ≤ h'.length ∧ (∀ b, b < n → hGet h' b = hGet h b) ∧ RegionSep h' n := by
  intro r h' hrun
  unfold procParamH at hrun
  cases hao : asObjAddr h p with
  | error e =>
    simp only [hao] at hrun
    simp only [Prod.mk.injEq] at hrun
    obtain ⟨rfl, rfl⟩ := hrun
    exact ⟨le_refl _, fun b _ => rfl, hsep⟩
  | ok af =>
    obtain ⟨a, fs⟩ := af
    simp only [hao] at hrun
    obtain ⟨hpref, hget⟩ := asObjAddr_ok hao
    have hna : n ≤ a := hp a hpref
    have halt : a < h.length := hGet_lt hget
    have hfs : ∀ b ∈ refsOfObj (HObj.obj fs), n ≤ b := fun b hb => hsep a _ hna hget b hb
    have hrefnew : ∀ m, n ≤ m → ∀ b, HV.ref m = HV.ref b → n ≤ b := by
      intro m hm b hb
      cases hb
      exact hm
    by_cases htr : (!truthyH h ((objGetH fs "Values").getD .null)) = true
    · rw [if_pos htr] at hrun
      simp only [Prod.mk.injEq] at hrun
      obtain ⟨rfl, rfl⟩ := hrun
      exact ⟨le_refl _, fun b _ => rfl, hsep⟩
    · rw [if_neg htr] at hrun
      cases hpn : paramNameLowerH fs with
      | error e =>
        simp only [hpn] at hrun
        simp only [Prod.mk.injEq] at hrun
        obtain ⟨rfl, rfl⟩ := hrun
        exact ⟨le_refl _, fun b _ => rfl, hsep⟩
      | ok pn =>
        simp only [hpn] at hrun
        by_cases hg : (pn == "geofips" && fe) = true
        · rw [if_pos hg] at hrun
          simp only [Prod.mk.injEq] at hrun
          obtain ⟨rfl, rfl⟩ := hrun
          obtain ⟨hl, hf, hs⟩ := mutParam_inv
            (objSetH (objSetH fs "Values" (HV.ref h.length)) "Values-Note"
              (HV.str "Too many GeoFIPS values to list; omitted for evaluation."))
            hn hna halt hsep [HObj.arr []]
            (by
              intro o ho b hb
              have ho2 : o = HObj.arr [] := by simpa using ho
              rw [ho2] at hb
              simp [refsOfObj] at hb)
            (refs_objSetH_le (refs_objSetH_le hfs (hrefnew h.length hn))
              (by intro b hb; exact absurd hb (by simp)))
          exact ⟨by omega, hf, hs⟩
        · rw [if_neg hg] at hrun
          by_cases htt : (pn == "tablename" || pn == "tableid") = true
          · rw [if_pos htt] at hrun
            cases hit : iterElemsH h ((objGetH fs "Values").getD .null) with
            | error e =>
              simp only [hit] at hrun
              simp only [Prod.mk.injEq] at hrun
              obtain ⟨rfl, rfl⟩ := hrun
              exact ⟨le_refl _, fun b _ => rfl, hsep⟩
            | ok vs =>
              simp only [hit] at hrun
              simp only [Prod.mk.injEq] at hrun
              obtain ⟨rfl, rfl⟩ := hrun
              have hvfr := iterElemsH_fresh hsep (valsV_fresh hfs) hit
              obtain ⟨hl, hf, hs⟩ := mutParam_inv
                (objSetH (objSetH fs "Values" (HV.ref h.length)) "Values-Note"
                  (HV.str "Table parameter filtered to the selected table."))
                hn hna halt hsep
                [HObj.arr (filterTableParamH h tbl vs)]
                (by
                  intro o ho b hb
                  have ho2 : o = HObj.arr (filterTableParamH h tbl vs) := by simpa using ho
                  rw [ho2] at hb
                  rcases (refs_arr_mem _ _).mp hb with ⟨u, hu, hub⟩
                  exact hvfr u (List.mem_filter.mp hu).1 b hub)
                (refs_objSetH_le (refs_objSetH_le hfs (hrefnew h.length hn))
                  (by intro b hb; exact absurd hb (by simp)))
              exact ⟨by omega, hf, hs⟩
          · rw [if_neg htt] at hrun
            cases hit : iterElemsH h ((objGetH fs "Values").getD .null) with
            | error e =>
              simp only [hit] at hrun
              simp only [Prod.mk.injEq] at hrun
              obtain ⟨rfl, rfl⟩ := hrun
              exact ⟨le_refl _, fun b _ => rfl, hsep⟩
            | ok vs =>
              simp only [hit] at hrun
              have hvfr := iterElemsH_fresh hsep (valsV_fresh hfs) hit
              by_cases hany : anyHasTableNameH h vs = true
              · rw [if_pos hany] at hrun
                obtain ⟨hl1, hf1, hs1⟩ := mutParam_inv
                  (objSetH fs "Values" (HV.ref h.length))
                  hn hna halt hsep
                  [HObj.arr (filterByTableNameH h tbl vs)]
                  (by
                    intro o ho b hb
                    have ho2 : o = HObj.arr (filterByTableNameH h tbl vs) := by simpa using ho
                    rw [ho2] at hb
                    rcases (refs_arr_mem _ _).mp hb with ⟨u, hu, hub⟩
                    exact hvfr u (List.mem_filter.mp hu).1 b hub)
                  (refs_objSetH_le hfs (hrefnew h.length hn))
                set fs1 := objSetH fs "Values" (HV.ref h.length) with hfs1def
                set h1 := hSet (h ++ [HObj.arr (filterByTableNameH h tbl vs)]) a
                  (HObj.obj fs1) with hh1def
                have hfs1 : ∀ b ∈ refsOfObj (HObj.obj fs1), n ≤ b :=
                  refs_objSetH_le hfs (hrefnew h.length hn)
                have hn1 : n ≤ h1.length := by rw [hh1def]; simp [hSet_length]; omega
                have hlen1 : h.length ≤ h1.length := by rw [hh1def]; simp [hSet_length]
                have ha1 : a < h1.length := by rw [hh1def]; simp [hSet_length]; omega
                by_cases hlc : (pn == "linecode") = true
                · rw [if_pos hlc] at hrun
                  cases hflc : filterLineCodeH h1 tbl vs with
                  | error e =>
                    simp only [hflc] at hrun
                    simp only [Prod.mk.injEq] at hrun
                    obtain ⟨rfl, rfl⟩ := hrun
                    exact ⟨hlen1, hf1, hs1⟩
                  | ok nv =>
                    simp only [hflc] at hrun
                    simp only [Prod.mk.injEq] at hrun
                    obtain ⟨rfl, rfl⟩ := hrun
                    obtain ⟨hl2, hf2, hs2⟩ := mutParam_inv
                      (objSetH fs1 "Values" (HV.ref h1.length))
                      hn1 hna ha1 hs1
                      [HObj.arr nv]
                      (by
                        intro o ho b hb
                        have ho2 : o = HObj.arr nv := by simpa using ho
                        rw [ho2] at hb
                        rcases (refs_arr_mem _ _).mp hb with ⟨u, hu, hub⟩
                        exact hvfr u (filterLineCodeH_sub h1 tbl vs nv hflc u hu) b hub)
                      (refs_objSetH_le hfs1 (hrefnew h1.length hn1))
                    refine ⟨by omega, ?_, hs2⟩
                    intro b hb
                    rw [hf2 b hb, hf1 b hb]
                · rw [if_neg hlc] at hrun
                  by_cases hyr : (pn == "year") = true
                  · rw [if_pos hyr] at hrun
                    cases hcy : collectYearsH h1 vs with
                    | none =>
                      simp only [hcy] at hrun
                      simp only [Prod.mk.injEq] at hrun
                      obtain ⟨rfl, rfl⟩ := hrun
                      exact ⟨hlen1, hf1, hs1⟩
                    | some ys0 =>
                      cases ys0 with
                      | nil =>
                        simp only [hcy] at hrun
                        simp only [Prod.mk.injEq] at hrun
                        obtain ⟨rfl, rfl⟩ := hrun
                        exact ⟨hlen1, hf1, hs1⟩
                      | cons y ys =>
                        simp only [hcy] at hrun
                        simp only [Prod.mk.injEq] at hrun
                        obtain ⟨rfl, rfl⟩ := hrun
                        obtain ⟨hl2, hf2, hs2⟩ := mutParam_inv
                          (objSetH fs1 "Values" (HV.ref (h1.length + 2)))
                          hn1 hna ha1 hs1
                          [HObj.obj [("MinYear", HV.str (toString (intListMin y ys)))],
                           HObj.obj [("MaxYear", HV.str (toString (intListMax y ys)))],
                           HObj.arr [HV.ref h1.length, HV.ref (h1.length + 1)]]
                          (by
                            intro o ho b hb
                            simp only [List.mem_cons, List.not_mem_nil, or_false] at ho
                            rcases ho with ho2 | ho2 | ho2
                            · rw [ho2] at hb; simp [refsOfObj] at hb
                            · rw [ho2] at hb; simp [refsOfObj] at hb
                            · rw [ho2] at hb
                              rcases (refs_arr_mem _ _).mp hb with ⟨u, hu, hub⟩
                              simp only [List.mem_cons, List.not_mem_nil, or_false] at hu
                              rcases hu with hu1 | hu1
                              · rw [hu1] at hub; cases hub; omega
                              · rw [hu1] at hub; cases hub; omega)
                          (refs_objSetH_le hfs1 (hrefnew (h1.length + 2) (by omega)))
                        refine ⟨by omega, ?_, hs2⟩
                        intro b hb
                        rw [hf2 b hb, hf1 b hb]
                  · rw [if_neg hyr] at hrun
                    simp only [Prod.mk.injEq] at hrun
                    obtain ⟨rfl, rfl⟩ := hrun
                    exact ⟨hlen1, hf1, hs1⟩
              · rw [if_neg hany] at hrun
                by_cases hlc : (pn == "linecode") = true
                · rw [if_pos hlc] at hrun
                  cases hflc : filterLineCodeH h tbl vs with
                  | error e =>
                    simp only [hflc] at hrun
                    simp only [Prod.mk.injEq] at hrun
                    obtain ⟨rfl, rfl⟩ := hrun
                    exact ⟨le_refl _, fun b _ => rfl, hsep⟩
                  | ok nv =>
                    simp only [hflc] at hrun
                    simp only [Prod.mk.injEq] at hrun
                    obtain ⟨rfl, rfl⟩ := hrun
                    obtain ⟨hl2, hf2, hs2⟩ := mutParam_inv
                      (objSetH fs "Values" (HV.ref h.length))
                      hn hna halt hsep
                      [HObj.arr nv]
                      (by
                        intro o ho b hb
                        have ho2 : o = HObj.arr nv := by simpa using ho
                        rw [ho2] at hb
                        rcases (refs_arr_mem _ _).mp hb with ⟨u, hu, hub⟩
                        exact hvfr u (filterLineCodeH_sub h tbl vs nv hflc u hu) b hub)
                      (refs_objSetH_le hfs (hrefnew h.length hn))
                    exact ⟨by omega, hf2, hs2⟩
                · rw [if_neg hlc] at hrun
                  by_cases hyr : (pn == "year") = true
                  · rw [if_pos hyr] at hrun
                    cases hcy : collectYearsH h vs with
                    | none =>
                      simp only [hcy] at hrun
                      simp only [Prod.mk.injEq] at hrun
                      obtain ⟨rfl, rfl⟩ := hrun
                      exact ⟨le_refl _, fun b _ => rfl, hsep⟩
                    | some ys0 =>
                      cases ys0 with
                      | nil =>
                        simp only [hcy] at hrun
                        simp only [Prod.mk.injEq] at hrun
                        obtain ⟨rfl, rfl⟩ := hrun
                        exact ⟨le_refl _, fun b _ => rfl, hsep⟩
                      | cons y ys =>
                        simp only [hcy] at hrun
                        simp only [Prod.mk.injEq] at hrun
                        obtain ⟨rfl, rfl⟩ := hrun
                        obtain ⟨hl2, hf2, hs2⟩ := mutParam_inv
                          (objSetH fs "Values" (HV.ref (h.length + 2)))
                          hn hna halt hsep
                          [HObj.obj [("MinYear", HV.str (toString (intListMin y ys)))],
                           HObj.obj [("MaxYear", HV.str (toString (intListMax y ys)))],
                           HObj.arr [HV.ref h.length, HV.ref (h.length + 1)]]
                          (by
                            intro o ho b hb
                            simp only [List.mem_cons, List.not_mem_nil, or_false] at ho
                            rcases ho with ho2 | ho2 | ho2
                            · rw [ho2] at hb; simp [refsOfObj] at hb
                            · rw [ho2] at hb; simp [refsOfObj] at hb
                            · rw [ho2] at hb
                              rcases (refs_arr_mem _ _).mp hb with ⟨u, hu, hub⟩
                              simp only [List.mem_cons, List.not_mem_nil, or_false] at hu
                              rcases hu with hu1 | hu1
                              · rw [hu1] at hub; cases hub; omega
                              · rw [hu1] at hub; cases hub; omega)
                          (refs_objSetH_le hfs (hrefnew (h.length + 2) (by omega)))
                        exact ⟨by omega, hf2, hs2⟩
                  · rw [if_neg hyr] at hrun
                    simp only [Prod.mk.injEq] at hrun
                    obtain ⟨rfl, rfl⟩ := hrun
                    exact ⟨le_refl _, fun b _ => rfl, hsep⟩

theorem procParamsH_inv (tbl : String) (fe : Bool) (n : Nat) :
    ∀ fps h, n ≤ h.length → RegionSep h n →
      (∀ p ∈ fps, ∀ a, p = HV.ref a → n ≤ a) →
      ∀ r h', procParamsH tbl fe fps h = (r, h') →
        h.length ≤ h'.length ∧ (∀ b, b < n → hGet h' b = hGet h b) ∧ RegionSep h' n := by
  intro fps
  induction fps with
  | nil =>
    intro h hn hsep _ r h' hrun
    simp only [procParamsH, Prod.mk.injEq] at hrun
    obtain ⟨rfl, rfl⟩ := hrun
    exact ⟨le_refl _, fun b _ => rfl, hsep⟩
  | cons p ps ih =>
    intro h hn hsep hfr r h' hrun
    simp only [procParamsH] at hrun
    cases hst : procParamH tbl fe p h with
    | mk r1 h1 =>
      obtain ⟨hl1, hf1, hs1⟩ :=
        procParamH_inv tbl fe p h n hn hsep (hfr p (List.mem_cons_self _ _)) r1 h1 hst
      cases r1 with
      | error e =>
        simp only [hst] at hrun
        simp only [Prod.mk.injEq] at hrun
        obtain ⟨rfl, rfl⟩ := hrun
        exact ⟨hl1, hf1, hs1⟩
      | ok u =>
        cases u
        simp only [hst] at hrun
        obtain ⟨hl2, hf2, hs2⟩ := ih h1 (by omega) hs1
          (fun q hq => hfr q (List.mem_cons_of_mem _ hq)) r h' hrun
        exact ⟨by omega, fun b hb => by rw [hf2 b hb, hf1 b hb], hs2⟩

theorem reaches_ge {h : Heap} {n : Nat} (hsep : RegionSep h n) {r b : Nat}
    (hr : n ≤ r) (hre : Reaches h r b) : n ≤ b := by
  induction hre with
  | refl => exact hr
  | step o _ hget hc ih => exact hsep _ o ih hget _ hc

theorem reaches_lt_of_closed {h0 h1 : Heap} {n : Nat}
    (hframe : ∀ b, b < n → hGet h1 b = hGet h0 b)
    (hcl : ∀ a o, hGet h0 a = some o → ∀ b ∈ refsOfObj o, b < n)
    {r b : Nat} (hr : r < n) (hre : Reaches h1 r b) : b < n := by
  induction hre with
  | refl => exact hr
  | step o hrb hget hc ih =>
    rename_i b1 c1
    exact hcl b1 o (by rw [← hframe b1 ih]; exact hget) _ hc

/-- **C3.** For every call to `get_query_builder_context` — any dataset name,
any table name, any `for_eval` flag, any catalog and any closed initial heap —
the catalog passed in is left structurally unchanged (every pre-existing
address holds exactly the object it held before, whether the call returns a
context or raises), and the returned context shares no mutable structure with
any catalog entry: the result is a reference to a freshly allocated object
from which only freshly allocated addresses are reachable, while from the
catalog's entries only pre-existing addresses are reachable — the two address
regions are disjoint, so all filtering and collapsing happened on the deep
copy, never on the stored dataset. -/
theorem claim_C3_catalog_frame_and_fresh_context
    (fuel : Nat) (dn tn : String) (fe : Bool) (catalog : List HV) (h0 : Heap)
    (hcl : closedBelow h0 h0.length = true)
    (hcat : rootsBelow catalog h0.length = true)
    (res : Except PyErr HV) (h1 : Heap)
    (hrun : gqbcH fuel dn tn fe catalog h0 = some (res, h1)) :
    (∀ a, a < h0.length → hGet h1 a = hGet h0 a) ∧
    (∀ rv r, res = Except.ok rv → rv = HV.ref r →
      h0.length ≤ r ∧ ∀ b, Reaches h1 r b → h0.length ≤ b) ∧
    (∀ v ∈ catalog, ∀ a, v = HV.ref a → ∀ b, Reaches h1 a b → b < h0.length) := by
  suffices hmaster : (∀ b, b < h0.length → hGet h1 b = hGet h0 b) ∧
      RegionSep h1 h0.length ∧
      (∀ rv r, res = Except.ok rv → rv = HV.ref r → h0.length ≤ r) by
    obtain ⟨hfr, hsep1, hfresh⟩ := hmaster
    refine ⟨hfr, ?_, ?_⟩
    · intro rv r hres hrv
      exact ⟨hfresh rv r hres hrv,
        fun b hb => reaches_ge hsep1 (hfresh rv r hres hrv) hb⟩
    · intro v hv a hva b hb
      have halt : a < h0.length := by
        have h2 := List.all_eq_true.mp hcat v hv
        rw [hva] at h2
        simpa using h2
      exact reaches_lt_of_closed hfr (closedBelow_spec hcl) halt hb
  have hsep0 : RegionSep h0 h0.length := by
    intro a o ha hget b hb
    have := hGet_lt hget
    omega
  unfold gqbcH at hrun
  cases hfm : findMatchingH h0 dn catalog with
  | error e =>
    simp only [hfm] at hrun
    simp only [Option.some.injEq, Prod.mk.injEq] at hrun
    obtain ⟨rfl, rfl⟩ := hrun
    exact ⟨fun b _ => rfl, hsep0, fun rv r hres _ => Except.noConfusion hres⟩
  | ok od =>
    simp only [hfm] at hrun
    cases od with
    | none =>
      simp only [Option.some.injEq, Prod.mk.injEq] at hrun
      obtain ⟨rfl, rfl⟩ := hrun
      exact ⟨fun b _ => rfl, hsep0, fun rv r hres _ => Except.noConfusion hres⟩
    | some d0 =>
      cases hdc : dcV fuel h0 d0 with
      | none => simp only [hdc] at hrun; exact Option.noConfusion hrun
      | some p1 =>
        obtain ⟨dv, hA⟩ := p1
        simp only [hdc] at hrun
        obtain ⟨hpreA, hfrA, hsepPres⟩ := dcV_inv hdc
        have hsepA : RegionSep hA h0.length := hsepPres h0.length (le_refl _) hsep0
        have hframeA : ∀ b, b < h0.length → hGet hA b = hGet h0 b :=
          fun b hb => hGet_prefix hpreA b hb
        have hlenA : h0.length ≤ hA.length := hpreA.length_le
        by_cases htn : (tn == "") = true
        · rw [if_pos htn] at hrun
          simp only [Option.some.injEq, Prod.mk.injEq] at hrun
          obtain ⟨rfl, rfl⟩ := hrun
          refine ⟨hframeA, hsepA, ?_⟩
          intro rv r hres hrv
          cases hres
          exact (hfrA r hrv).1
        · rw [if_neg htn] at hrun
          cases hasO : asObjAddr hA dv with
          | error e =>
            simp only [hasO] at hrun
            simp only [Option.some.injEq, Prod.mk.injEq] at hrun
            obtain ⟨rfl, rfl⟩ := hrun
            exact ⟨hframeA, hsepA, fun rv r hres _ => Except.noConfusion hres⟩
          | ok pda =>
            obtain ⟨da, dfs⟩ := pda
            simp only [hasO] at hrun
            obtain ⟨hdv, hgda⟩ := asObjAddr_ok hasO
            have hdan : h0.length ≤ da := (hfrA da hdv).1
            have hdfs : ∀ b ∈ refsOfObj (HObj.obj dfs), h0.length ≤ b :=
              fun b hb => hsepA da _ hdan hgda b hb
            have hpsE : ∀ ps, (match objGetH dfs "Parameters" with
                | none => Except.ok ([] : List HV)
                | some pv => iterElemsH hA pv) = .ok ps →
                ∀ u ∈ ps, ∀ b, u = HV.ref b → h0.length ≤ b := by
              intro ps hps u hu b hub
              cases hpv : objGetH dfs "Parameters" with
              | none =>
                rw [hpv] at hps
                simp only [Except.ok.injEq] at hps
                subst hps
                cases hu
              | some pv =>
                rw [hpv] at hps
                have hpvf : ∀ x, pv = HV.ref x → h0.length ≤ x := by
                  intro x hx
                  exact hdfs x (objGetH_refs (by rw [hpv, hx]))
                exact iterElemsH_fresh hsepA hpvf hps u hu b hub
            cases hps : (match objGetH dfs "Parameters" with
                | none => Except.ok ([] : List HV)
                | some pv => iterElemsH hA pv) with
            | error e =>
              simp only [hps] at hrun
              simp only [Option.some.injEq, Prod.mk.injEq] at hrun
              obtain ⟨rfl, rfl⟩ := hrun
              exact ⟨hframeA, hsepA, fun rv r hres _ => Except.noConfusion hres⟩
            | ok ps =>
              simp only [hps] at hrun
              have hpsFresh := hpsE ps hps
              cases hfp : filterParamsH hA fe ps with
              | error e =>
                simp only [hfp] at hrun
                simp only [Option.some.injEq, Prod.mk.injEq] at hrun
                obtain ⟨rfl, rfl⟩ := hrun
                exact ⟨hframeA, hsepA, fun rv r hres _ => Except.noConfusion hres⟩
              | ok fps =>
                simp only [hfp] at hrun
                have hfpsFresh : ∀ p ∈ fps, ∀ a, p = HV.ref a → h0.length ≤ a :=
                  fun p hp => hpsFresh p (filterParamsH_sub hA fe ps fps hfp p hp)
                cases hpp : procParamsH tn fe fps hA with
                | mk r2 h2 =>
                  obtain ⟨hl2, hf2, hs2⟩ := procParamsH_inv tn fe h0.length fps hA
                    hlenA hsepA hfpsFresh r2 h2 hpp
                  have hframe2 : ∀ b, b < h0.length → hGet h2 b = hGet h0 b :=
                    fun b hb => by rw [hf2 b hb, hframeA b hb]
                  cases r2 with
                  | error e =>
                    simp only [hpp] at hrun
                    simp only [Option.some.injEq, Prod.mk.injEq] at hrun
                    obtain ⟨rfl, rfl⟩ := hrun
                    exact ⟨hframe2, hs2, fun rv r hres _ => Except.noConfusion hres⟩
                  | ok u =>
                    cases u
                    simp only [hpp] at hrun
                    cases hd2 : hGet h2 da with
                    | none => simp only [hd2] at hrun; exact Option.noConfusion hrun
                    | some o2 =>
                      cases o2 with
                      | arr es2 =>
                        simp only [hd2] at hrun
                        exact Option.noConfusion hrun
                      | obj dfs2 =>
                        simp only [hd2] at hrun
                        simp only [Option.some.injEq, Prod.mk.injEq] at hrun
                        obtain ⟨rfl, rfl⟩ := hrun
                        have hlen02 : h0.length ≤ h2.length := by omega
                        refine ⟨?_, ?_, ?_⟩
                        · intro b hb
                          rw [hGet_append_lt h2 _ b (by omega)]
                          exact hframe2 b hb
                        · apply regionSep_append hs2
                          intro o ho b hb
                          simp only [List.mem_cons, List.not_mem_nil, or_false] at ho
                          rcases ho with ho2 | ho2
                          · rw [ho2] at hb
                            rcases (refs_arr_mem _ _).mp hb with ⟨u, hu, hub⟩
                            exact hfpsFresh u hu b hub
                          · rw [ho2] at hb
                            have hdfs2 : ∀ b ∈ refsOfObj (HObj.obj dfs2), h0.length ≤ b :=
                              fun b hb => hs2 da _ hdan hd2 b hb
                            exact refs_objSetH_le
                              (refs_objSetH_le hdfs2
                                (by intro x hx; cases hx; omega))
                              (by intro x hx; exact absurd hx (by simp)) b hb
                        · intro rv r hres hrv
                          cases hres
                          cases hrv
                          omega

theorem claim_C3_catalog_frame_and_fresh_context_witness :
    closedBelow c3heap c3heap.length = true ∧
    rootsBelow c3catalog c3heap.length = true ∧
    ∃ res h1, gqbcH 20 "NIPA" "T1" false c3catalog c3heap = some (res, h1) ∧
      ((∀ a, a < c3heap.length → hGet h1 a = hGet c3heap a) ∧
       (∀ rv r, res = Except.ok rv → rv = HV.ref r →
         c3heap.length ≤ r ∧ ∀ b, Reaches h1 r b → c3heap.length ≤ b) ∧
       (∀ v ∈ c3catalog, ∀ a, v = HV.ref a → ∀ b, Reaches h1 a b → b < c3heap.length)) :=
  ⟨rfl, rfl, _, _, rfl,
    claim_C3_catalog_frame_and_fresh_context 20 "NIPA" "T1" false c3catalog c3heap
      rfl rfl _ _ rfl⟩

/-- C4: `get_query_builder_context` fails with the not-found error exactly
when no dataset in the catalog has DatasetName equal to the requested name;
and when the table name is absent or empty it returns the first matching
stored dataset itself, structurally equal, with no parameter filtered,
elided, or collapsed; and in the heap model, with an empty table name the
value returned is a reference to a freshly allocated address — the deep
copy, never the stored entry's own address. -/
theorem claim_C4_not_found_and_plain_copy (name tbl : String) (cat : List JVal) (fe : Bool)
    (hobj : ∀ d ∈ cat, d.isObj = true) :
    (getQueryBuilderContext name tbl cat fe = .error .notFound ↔
      ∀ kvs, JVal.obj kvs ∈ cat → objGet kvs "DatasetName" ≠ some (.str name)) ∧
    (tbl = "" → ∀ d, cat.find? (dsMatches name) = some d →
      getQueryBuilderContext name tbl cat fe = .ok d) ∧
    (∀ fuel (catalogH : List HV) (h0 : Heap) (rv : HV) (hh : Heap),
      gqbcH fuel name "" fe catalogH h0 = some (Except.ok rv, hh) →
      ∀ r, rv = HV.ref r → h0.length ≤ r) := by
  have heval := gqbc_eval name tbl cat fe hobj
  refine ⟨?_, ?_, ?_⟩
  · constructor
    · intro herr
      intro kvs hkvs hds
      cases hfil : cat.filter (dsMatches name) with
      | nil =>
        have hmem : JVal.obj kvs ∈ cat.filter (dsMatches name) :=
          List.mem_filter.mpr ⟨hkvs, (dsMatches_obj_iff name kvs).mpr hds⟩
        rw [hfil] at hmem
        simp at hmem
      | cons d rest =>
        rw [heval] at herr
        simp only [hfil] at herr
        by_cases htb : tbl == ""
        · rw [if_pos htb] at herr
          simp at herr
        · rw [if_neg htb] at herr
          have hdobj := hobj d (List.mem_of_mem_filter (by rw [hfil]; exact List.mem_cons_self _ _))
          cases d with
          | obj dkvs =>
            simp only [asObj, Bind.bind, Except.bind] at herr
            cases hit : iterElems ((objGet dkvs "Parameters").getD (.arr [])) with
            | error e =>
              have h2 := iterElems_ne_notFound ((objGet dkvs "Parameters").getD (.arr []))
              rw [hit] at h2
              simp only [hit] at herr
              have he : e = PyErr.notFound := by simpa using herr
              exact h2 (by rw [he])
            | ok ps =>
              simp only [hit] at herr
              cases hfp : filterParams fe ps with
              | error e =>
                have h2 := filterParams_ne_notFound fe ps
                rw [hfp] at h2
                simp only [hfp] at herr
                have he : e = PyErr.notFound := by simpa using herr
                exact h2 (by rw [he])
              | ok filtered =>
                simp only [hfp] at herr
                cases hpp : procParams tbl fe filtered with
                | error e =>
                  have h2 := procParams_ne_notFound tbl fe filtered
                  rw [hpp] at h2
                  simp only [hpp] at herr
                  have he : e = PyErr.notFound := by simpa using herr
                  exact h2 (by rw [he])
                | ok processed =>
                  simp only [hpp] at herr
                  simp at herr
          | str s => simp [JVal.isObj] at hdobj
          | num n => simp [JVal.isObj] at hdobj
          | bool b => simp [JVal.isObj] at hdobj
          | null => simp [JVal.isObj] at hdobj
          | arr l => simp [JVal.isObj] at hdobj
    · intro hno
      have hfil : cat.filter (dsMatches name) = [] := by
        rw [List.filter_eq_nil_iff]
        intro d hd
        have hdobj := hobj d hd
        cases d with
        | obj kvs =>
          intro hm
          exact hno kvs hd ((dsMatches_obj_iff name kvs).mp hm)
        | str s => simp [JVal.isObj] at hdobj
        | num n => simp [JVal.isObj] at hdobj
        | bool b => simp [JVal.isObj] at hdobj
        | null => simp [JVal.isObj] at hdobj
        | arr l => simp [JVal.isObj] at hdobj
      rw [heval]
      simp only [hfil]
  · intro htb d hfind
    obtain ⟨rest, hfil⟩ := filter_of_find? (dsMatches name) cat d hfind
    subst htb
    rw [heval]
    simp only [hfil]
    rw [if_pos (by rfl)]

  · intro fuel catalogH h0 rv hh hrunH r hrv
    unfold gqbcH at hrunH
    cases hfm : findMatchingH h0 name catalogH with
    | error e =>
      simp only [hfm, Option.some.injEq, Prod.mk.injEq] at hrunH
      exact absurd hrunH.1 (by simp)
    | ok od =>
      simp only [hfm] at hrunH
      cases od with
      | none =>
        simp only [Option.some.injEq, Prod.mk.injEq] at hrunH
        exact absurd hrunH.1 (by simp)
      | some d0 =>
        cases hdc : dcV fuel h0 d0 with
        | none => simp only [hdc] at hrunH; exact Option.noConfusion hrunH
        | some p1 =>
          obtain ⟨dv, hA⟩ := p1
          simp only [hdc] at hrunH
          rw [if_pos (by decide)] at hrunH
          simp only [Option.some.injEq, Prod.mk.injEq] at hrunH
          obtain ⟨h1eq, h2eq⟩ := hrunH
          have hdv : dv = rv := by injection h1eq
          obtain ⟨hpre, hfr, hsp⟩ := dcV_inv hdc
          exact (hfr r (by rw [hdv, hrv])).1

/-- Witness for C4: a one-dataset catalog; an unknown name yields the
not-found error, the empty table name returns the stored dataset itself. -/
theorem claim_C4_not_found_and_plain_copy_witness :
    (∀ d ∈ [JVal.obj [("DatasetName", JVal.str "NIPA")]], JVal.isObj d = true) ∧
    getQueryBuilderContext "Missing" "" [JVal.obj [("DatasetName", JVal.str "NIPA")]] false =
      .error .notFound ∧
    getQueryBuilderContext "NIPA" "" [JVal.obj [("DatasetName", JVal.str "NIPA")]] false =
      .ok (JVal.obj [("DatasetName", JVal.str "NIPA")]) := by
  refine ⟨by decide, ?_, ?_⟩
  · refine (claim_C4_not_found_and_plain_copy "Missing" "" _ false (by decide)).1.mpr ?_
    intro kvs hmem hds
    have h1 : JVal.obj kvs = JVal.obj [("DatasetName", JVal.str "NIPA")] := by
      simpa using hmem
    have h2 : kvs = [("DatasetName", JVal.str "NIPA")] := by
      injection h1
    rw [h2] at hds
    simp [objGet, List.find?] at hds
  · exact (claim_C4_not_found_and_plain_copy "NIPA" "" _ false (by decide)).2.1 rfl _ (by rfl)

end BeaMcp
